import Mathlib

/-!
# Verification of the RESTful OpenAPI generator (`rest-generator.ts`)

This file shallowly embeds the core of `packages/plugins/openapi/src/rest-generator.ts`
(the `RESTfulOpenAPIGenerator` class) and settles the frozen claims about it.

Modelling conventions:

* OpenAPI documents, path items, operations and schemas are all plain JavaScript
  objects in the source; they are embedded as the ordered JSON-like value type
  `JVal`, whose `obj` constructor keeps the property *insertion order* (JS objects
  enumerate string keys in insertion order, which the generator relies on).
* A JS property whose value is `undefined` is omitted from the embedded object
  (serialization drops such keys; no claim depends on the presence of a key that
  holds `undefined`).
* External collaborators that are consumed by the generator but live outside the
  translated source are embedded as data or, when their behaviour is needed, as
  definitions marked `Modelled from the spec:`:
  - `analyzePolicies` (the access-policy analyzer) — its verdict is stored in the
    `policies` field of each `DataModel`;
  - `getModelResourceMeta` — stored in the `resourceMeta` field;
  - `isIdField` / `isForeignKeyField` / `hasAttribute(f, '@default')` — stored as
    the Boolean flags `isId` / `isFk` / `hasDefault` on each field;
  - the entity inclusion filter (`this.includedModels`) — passed as the list of
    included model names;
  - the prisma DMMF model list — passed as the list of its model names (only the
    names are consumed by `generatePaths`).
* AST cross-references (`field.type.reference?.ref`) are embedded by name: a
  reference carries the referenced declaration's name and is resolved by lookup
  in the enclosing `ZModel`.
-/

set_option maxHeartbeats 1600000

namespace ZenRest

/-! ## Ordered JSON-like values (JS objects with insertion order) -/

inductive JVal where
  | str (s : String)
  | num (n : Int)
  | bool (b : Bool)
  | null
  | arr (elems : List JVal)
  | obj (fields : List (String × JVal))

/-- Property read `o[k]` on a JS object given as an ordered association list. -/
def getK (fields : List (String × JVal)) (k : String) : Option JVal :=
  (fields.find? (fun f => f.1 == k)).map (fun f => f.2)

/-- Property write `o[k] = v` with JS semantics: an existing key keeps its
position and gets the new value, a fresh key is appended at the end. -/
def putK (fields : List (String × JVal)) (k : String) (v : JVal) :
    List (String × JVal) :=
  if (fields.find? (fun f => f.1 == k)).isSome then
    fields.map (fun f => if f.1 == k then (k, v) else f)
  else fields ++ [(k, v)]

/-- JS object spread `\x7b...a, ...b\x7d`: assign every property of `b` over `a`. -/
def mergeJS (a b : List (String × JVal)) : List (String × JVal) :=
  b.foldl (fun acc kv => putK acc kv.1 kv.2) a

/-- An optional property: the key is omitted when the value is `undefined`. -/
def optK (k : String) : Option JVal → List (String × JVal)
  | some v => [(k, v)]
  | none => []

/-- Property read on a `JVal` (returns `none` on non-objects). -/
def JVal.get (v : JVal) (k : String) : Option JVal :=
  match v with
  | .obj fs => getK fs k
  | _ => none

/-- JS truthiness of a value (objects and arrays are always truthy). -/
def jsTruthy : JVal → Bool
  | .null => false
  | .bool b => b
  | .num n => n != 0
  | .str s => s != ""
  | .arr _ => true
  | .obj _ => true

/-! ## The consumed data model (ZModel AST fragments and external verdicts) -/

/-- Primitive ZModel field types (`field.type.type` when not a reference). -/
inductive PrimType where
  | string | int | bigInt | float | decimal | boolean | dateTime | bytes | json
deriving DecidableEq

/-- A field's type: a primitive, or a reference to a named declaration
(`field.type.reference?.ref`, embedded by the referenced name). -/
inductive TypeDesc where
  | prim (p : PrimType)
  | ref (name : String)
deriving DecidableEq

structure FieldType where
  desc : TypeDesc
  array : Bool
  optional : Bool
deriving DecidableEq

/-- A data-model field together with the verdicts of the external sdk
predicates (`isIdField`, `isForeignKeyField`, `hasAttribute _ '@default'`). -/
structure ModelField where
  name : String
  type : FieldType
  isId : Bool
  isFk : Bool
  hasDefault : Bool
deriving DecidableEq

structure TypeDefField where
  name : String
  type : FieldType
deriving DecidableEq

/-- The verdict of the external access-policy analyzer for one model:
`true` only when the operation is unconditionally allowed. -/
structure Policies where
  read : Bool
  create : Bool
  update : Bool
  delete : Bool
deriving DecidableEq

/-- Per-entity resource metadata (`@@openapi.meta`), as returned by the external
`getModelResourceMeta`.  The `security` member has TS type `object`; a present
value is an arbitrary (always truthy) JS object. -/
structure ResourceMeta where
  tagDescription : Option String
  security : Option JVal

structure DataModel where
  name : String
  fields : List ModelField
  policies : Policies
  resourceMeta : Option ResourceMeta

structure EnumDecl where
  name : String
  members : List String
deriving DecidableEq

structure TypeDefDecl where
  name : String
  fields : List TypeDefField
deriving DecidableEq

/-- The loaded ZModel: its declarations, split by kind (declaration order is
kept inside each list, which is how the generator iterates them). -/
structure ZModel where
  enums : List EnumDecl
  dataModels : List DataModel
  typeDefs : List TypeDefDecl

/-- A resolved declaration (the target of `field.type.reference?.ref`). -/
inductive Decl where
  | enumD (e : EnumDecl)
  | modelD (d : DataModel)
  | typeDefD (t : TypeDefDecl)

/-- Resolve a reference by name against the model's declarations (ZModel
declaration names are unique, so the search order is immaterial). -/
def resolveDecl (mm : ZModel) (n : String) : Option Decl :=
  match mm.enums.find? (fun e => e.name == n) with
  | some e => some (.enumD e)
  | none =>
    match mm.dataModels.find? (fun d => d.name == n) with
    | some d => some (.modelD d)
    | none =>
      match mm.typeDefs.find? (fun t => t.name == n) with
      | some t => some (.typeDefD t)
      | none => none

/-- `field.type.reference?.ref` resolved to a data model, used both for
`isDataModel(relationDecl)` and the sdk's `isRelationshipField`. -/
def refModel (mm : ZModel) (f : FieldType) : Option DataModel :=
  match f.desc with
  | .ref n =>
    match resolveDecl mm n with
    | some (.modelD d) => some d
    | _ => none
  | .prim _ => none

def isRelationshipField (mm : ZModel) (f : ModelField) : Bool :=
  (refModel mm f.type).isSome

/-- `lowerCaseFirst` from `@zenstackhq/runtime/local-helpers`. -/
def lowerCaseFirst (s : String) : String :=
  match s.data with
  | [] => ""
  | c :: cs => String.mk (c.toLower :: cs)

/-! ## Generator-base helpers

The schema combinators below live in `generator-base.ts`, which is not part of
the translated source.  They are modelled from the spec (§4.1 wrapping rules and
§9: `allOf(a,b)`, `oneOf(a,b)`, `arrayOf(a)`, `wrapNullable`). -/

/-- `this.ref(type)`: a `$ref` into `components.schemas`. -/
def refSchema (t : String) : JVal :=
  .obj [("$ref", .str ("#/components/schemas/" ++ t))]

/-- `this.parameter(type)`: a `$ref` into `components.parameters`. -/
def paramRef (t : String) : JVal :=
  .obj [("$ref", .str ("#/components/parameters/" ++ t))]

/-- Modelled from the spec: `allOf(a, b)` composes two schema fragments. -/
def allOfJ (a b : JVal) : JVal := .obj [("allOf", .arr [a, b])]

/-- Modelled from the spec: `oneOf(a, b)` composes two schema fragments. -/
def oneOfJ (a b : JVal) : JVal := .obj [("oneOf", .arr [a, b])]

/-- Modelled from the spec: `arrayOf(a)` wraps a schema as an array schema. -/
def arrayJ (a : JVal) : JVal := .obj [("type", .str "array"), ("items", a)]

/-- Modelled from the spec: `wrapArray` wraps only when the field is
array-valued. -/
def wrapArray (s : JVal) (isArray : Bool) : JVal :=
  if isArray then arrayJ s else s

/-- Modelled from the spec: `wrapNullable(schema, isOptional)` — the 3.1-style
union with the null type (the 3.0 rendering differs only in this one place and
no claim depends on the rendering). -/
def wrapNullable (s : JVal) (isOptional : Bool) : JVal :=
  if isOptional then oneOfJ s (.obj [("type", .str "null")]) else s

/-- `fieldTypeToOpenAPISchema`: the primitive-kind dispatch of the source; a
reference type produces a `$ref` to the referenced declaration's name. -/
def fieldTypeToOpenAPISchema (t : FieldType) : JVal :=
  match t.desc with
  | .prim .string => .obj [("type", .str "string")]
  | .prim .int => .obj [("type", .str "integer")]
  | .prim .bigInt => .obj [("type", .str "integer")]
  | .prim .float => .obj [("type", .str "number")]
  | .prim .decimal => oneOfJ (.obj [("type", .str "number")]) (.obj [("type", .str "string")])
  | .prim .boolean => .obj [("type", .str "boolean")]
  | .prim .dateTime => .obj [("type", .str "string"), ("format", .str "date-time")]
  | .prim .bytes =>
    .obj [("type", .str "string"), ("format", .str "byte"),
      ("description", .str "Base64 encoded byte array")]
  | .prim .json => .obj []
  | .ref n => refSchema n

/-- `generateField`: base mapping wrapped by nullability and cardinality. -/
def generateField (f : FieldType) : JVal :=
  wrapArray (wrapNullable (fieldTypeToOpenAPISchema f) f.optional) f.array

/-! ## Filter parameters (`generateFilterParameters` / `makeFilterParameter`) -/

/-- The schema chosen by `makeFilterParameter` when no override is given:
enum references keep their `$ref`, data-model references degrade to a plain
string, typedef references and `Json` use a json-formatted string, otherwise
the base primitive mapping applies.  (On an unresolvable reference the source
throws via `invariant`; that case is excluded by well-formedness below.) -/
def filterParamSchema (mm : ZModel) (f : ModelField) : JVal :=
  match f.type.desc with
  | .ref n =>
    match resolveDecl mm n with
    | some (.enumD e) => refSchema e.name
    | some (.modelD _) => .obj [("type", .str "string")]
    | some (.typeDefD _) => .obj [("type", .str "string"), ("format", .str "json")]
    | none => fieldTypeToOpenAPISchema f.type
  | .prim .json => .obj [("type", .str "string"), ("format", .str "json")]
  | .prim _ => fieldTypeToOpenAPISchema f.type

/-- `makeFilterParameter(field, name, description, array?, schemaOverride?)`. -/
def makeFilterParameter (mm : ZModel) (f : ModelField) (nm description : String)
    (array : Bool := false) (schemaOverride : Option JVal := none) : JVal :=
  let schema :=
    match schemaOverride with
    | some s => s
    | none => filterParamSchema mm f
  let schema := wrapArray schema array
  .obj [
    ("name", .str (if nm == "id" then "filter[id]" else "filter[" ++ f.name ++ nm ++ "]")),
    ("required", .bool false),
    ("description", .str (if nm == "id" then description else description ++ " for \"" ++ f.name ++ "\"")),
    ("in", .str "query"),
    ("style", .str "form"),
    ("explode", .bool false),
    ("schema", schema)]

/-- Whether `field.type.type` is one of the ordered primitive kinds getting
comparison filters. -/
def isOrderedPrim : TypeDesc → Bool
  | .prim .int => true
  | .prim .bigInt => true
  | .prim .float => true
  | .prim .decimal => true
  | .prim .dateTime => true
  | _ => false

/-- The filter parameters contributed by one field (one iteration of the loop
in `generateFilterParameters`). -/
def filterParamsForField (mm : ZModel) (hasMultipleIds : Bool) (f : ModelField) :
    List JVal :=
  if f.isFk then []
  else if f.isId && !hasMultipleIds then
    [makeFilterParameter mm f "id" "Id filter"]
  else
    [makeFilterParameter mm f "" "Equality filter" f.type.array] ++
    (if isRelationshipField mm f then []
     else if f.type.array then
      [makeFilterParameter mm f "$has" "Collection contains filter",
       makeFilterParameter mm f "$hasEvery" "Collection contains-all filter" true,
       makeFilterParameter mm f "$hasSome" "Collection contains-any filter" true,
       makeFilterParameter mm f "$isEmpty" "Collection is empty filter" false
         (some (.obj [("type", .str "boolean")]))]
     else
      (if isOrderedPrim f.type.desc then
        [makeFilterParameter mm f "$lt" "Less-than filter",
         makeFilterParameter mm f "$lte" "Less-than or equal filter",
         makeFilterParameter mm f "$gt" "Greater-than filter",
         makeFilterParameter mm f "$gte" "Greater-than or equal filter"]
       else []) ++
      (if f.type.desc = .prim .string then
        [makeFilterParameter mm f "$contains" "String contains filter",
         makeFilterParameter mm f "$icontains" "String case-insensitive contains filter",
         makeFilterParameter mm f "$search" "String full-text search filter",
         makeFilterParameter mm f "$startsWith" "String startsWith filter",
         makeFilterParameter mm f "$endsWith" "String endsWith filter"]
       else []))

/-- `generateFilterParameters(model)`. -/
def generateFilterParameters (mm : ZModel) (model : DataModel) : List JVal :=
  let hasMultipleIds := (model.fields.filter (fun f => f.isId)).length > 1
  model.fields.flatMap (filterParamsForField mm hasMultipleIds)

/-! ## Operations -/

/-- `resourceMeta?.security ?? policies.x === true`, then used as the ternary
condition: `??` falls through on `null`/`undefined`, anything else is tested
for truthiness. -/
def secCondition (meta : Option ResourceMeta) (flag : Bool) : Bool :=
  match meta.bind (fun rm => rm.security) with
  | some v => match v with | .null => flag | _ => jsTruthy v
  | none => flag

/-- The `security` member of an operation: `[]` when the condition holds,
omitted (`undefined`) otherwise. -/
def securityField (meta : Option ResourceMeta) (flag : Bool) : Option JVal :=
  if secCondition meta flag then some (.arr []) else none

def forbidden : JVal :=
  .obj [("description", .str "Request is forbidden"),
    ("content", .obj [("application/vnd.api+json", .obj [("schema", refSchema "_errorResponse")])])]

def validationError : JVal :=
  .obj [("description", .str "Request is unprocessable due to validation errors"),
    ("content", .obj [("application/vnd.api+json", .obj [("schema", refSchema "_errorResponse")])])]

def notFound : JVal :=
  .obj [("description", .str "Resource is not found"),
    ("content", .obj [("application/vnd.api+json", .obj [("schema", refSchema "_errorResponse")])])]

def success (responseComponent : Option String := none) : JVal :=
  .obj ([("description", .str "Successful operation")] ++
    optK "content" (responseComponent.map (fun rc =>
      .obj [("application/vnd.api+json", .obj [("schema", refSchema rc)])])))

def requestBody (component : String) : JVal :=
  .obj [("content", .obj [("application/vnd.api+json", .obj [("schema", refSchema component)])])]

def makeResourceList (mm : ZModel) (model : DataModel) (pol : Policies)
    (resourceMeta : Option ResourceMeta) : JVal :=
  .obj ([
    ("operationId", .str ("list-" ++ model.name)),
    ("description", .str ("List \"" ++ model.name ++ "\" resources")),
    ("tags", .arr [.str (lowerCaseFirst model.name)]),
    ("parameters", .arr ([paramRef "include", paramRef "sort", paramRef "page-offset",
      paramRef "page-limit"] ++ generateFilterParameters mm model)),
    ("responses", .obj [
      ("200", success (some (model.name ++ "ListResponse"))),
      ("403", forbidden)])] ++
    optK "security" (securityField resourceMeta pol.read))

def makeResourceCreate (model : DataModel) (pol : Policies)
    (resourceMeta : Option ResourceMeta) : JVal :=
  .obj ([
    ("operationId", .str ("create-" ++ model.name)),
    ("description", .str ("Create a \"" ++ model.name ++ "\" resource")),
    ("tags", .arr [.str (lowerCaseFirst model.name)]),
    ("requestBody", requestBody (model.name ++ "CreateRequest")),
    ("responses", .obj [
      ("201", success (some (model.name ++ "Response"))),
      ("403", forbidden),
      ("422", validationError)])] ++
    optK "security" (securityField resourceMeta pol.create))

def makeResourceFetch (model : DataModel) (pol : Policies)
    (resourceMeta : Option ResourceMeta) : JVal :=
  .obj ([
    ("operationId", .str ("fetch-" ++ model.name)),
    ("description", .str ("Fetch a \"" ++ model.name ++ "\" resource")),
    ("tags", .arr [.str (lowerCaseFirst model.name)]),
    ("parameters", .arr [paramRef "id", paramRef "include"]),
    ("responses", .obj [
      ("200", success (some (model.name ++ "Response"))),
      ("403", forbidden),
      ("404", notFound)])] ++
    optK "security" (securityField resourceMeta pol.read))

/-- `makeRelatedFetch(model, field, relationDecl, resourceMeta)`.  Note: the
policies come from the *related* model (`analyzePolicies(relationDecl)`), while
the filter parameters are generated from the *owning* model
(`generateFilterParameters(model)`). -/
def makeRelatedFetch (mm : ZModel) (model : DataModel) (field : ModelField)
    (relationDecl : DataModel) (resourceMeta : Option ResourceMeta) : JVal :=
  let pol := relationDecl.policies
  let parameters :=
    [paramRef "id", paramRef "include"] ++
    (if field.type.array then
      [paramRef "sort", paramRef "page-offset", paramRef "page-limit"] ++
      generateFilterParameters mm model
     else [])
  .obj ([
    ("operationId", .str ("fetch-" ++ model.name ++ "-related-" ++ field.name)),
    ("description", .str ("Fetch the related \"" ++ field.name ++ "\" resource for \"" ++
      model.name ++ "\"")),
    ("tags", .arr [.str (lowerCaseFirst model.name)]),
    ("parameters", .arr parameters),
    ("responses", .obj [
      ("200", success (some (if field.type.array then relationDecl.name ++ "ListResponse"
        else relationDecl.name ++ "Response"))),
      ("403", forbidden),
      ("404", notFound)])] ++
    optK "security" (securityField resourceMeta pol.read))

def makeResourceUpdate (model : DataModel) (pol : Policies) (operationId : String)
    (resourceMeta : Option ResourceMeta) : JVal :=
  .obj ([
    ("operationId", .str operationId),
    ("description", .str ("Update a \"" ++ model.name ++ "\" resource")),
    ("tags", .arr [.str (lowerCaseFirst model.name)]),
    ("parameters", .arr [paramRef "id"]),
    ("requestBody", requestBody (model.name ++ "UpdateRequest")),
    ("responses", .obj [
      ("200", success (some (model.name ++ "Response"))),
      ("403", forbidden),
      ("404", notFound),
      ("422", validationError)])] ++
    optK "security" (securityField resourceMeta pol.update))

def makeResourceDelete (model : DataModel) (pol : Policies)
    (resourceMeta : Option ResourceMeta) : JVal :=
  .obj ([
    ("operationId", .str ("delete-" ++ model.name)),
    ("description", .str ("Delete a \"" ++ model.name ++ "\" resource")),
    ("tags", .arr [.str (lowerCaseFirst model.name)]),
    ("parameters", .arr [paramRef "id"]),
    ("responses", .obj [
      ("200", success),
      ("403", forbidden),
      ("404", notFound)])] ++
    optK "security" (securityField resourceMeta pol.delete))

def makeRelationshipFetch (mm : ZModel) (model : DataModel) (field : ModelField)
    (pol : Policies) (resourceMeta : Option ResourceMeta) : JVal :=
  let parameters :=
    [paramRef "id"] ++
    (if field.type.array then
      [paramRef "sort", paramRef "page-offset", paramRef "page-limit"] ++
      generateFilterParameters mm model
     else [])
  .obj ([
    ("operationId", .str ("fetch-" ++ model.name ++ "-relationship-" ++ field.name)),
    ("description", .str ("Fetch the \"" ++ field.name ++ "\" relationships for a \"" ++
      model.name ++ "\"")),
    ("tags", .arr [.str (lowerCaseFirst model.name)]),
    ("parameters", .arr parameters),
    ("responses", .obj [
      ("200", if field.type.array then success (some "_toManyRelationshipResponse")
        else success (some "_toOneRelationshipResponse")),
      ("403", forbidden),
      ("404", notFound)])] ++
    optK "security" (securityField resourceMeta pol.read))

def makeRelationshipCreate (model : DataModel) (field : ModelField) (pol : Policies)
    (resourceMeta : Option ResourceMeta) : JVal :=
  .obj ([
    ("operationId", .str ("create-" ++ model.name ++ "-relationship-" ++ field.name)),
    ("description", .str ("Create new \"" ++ field.name ++ "\" relationships for a \"" ++
      model.name ++ "\"")),
    ("tags", .arr [.str (lowerCaseFirst model.name)]),
    ("parameters", .arr [paramRef "id"]),
    ("requestBody", requestBody "_toManyRelationshipRequest"),
    ("responses", .obj [
      ("200", success (some "_toManyRelationshipResponse")),
      ("403", forbidden),
      ("404", notFound)])] ++
    optK "security" (securityField resourceMeta pol.update))

def makeRelationshipUpdate (model : DataModel) (field : ModelField) (pol : Policies)
    (operationId : String) (resourceMeta : Option ResourceMeta) : JVal :=
  .obj ([
    ("operationId", .str operationId),
    ("description", .str ("Update \"" ++ field.name ++ "\" " ++
      (if field.type.array then "relationships" else "relationship") ++ " for a \"" ++
      model.name ++ "\"")),
    ("tags", .arr [.str (lowerCaseFirst model.name)]),
    ("parameters", .arr [paramRef "id"]),
    ("requestBody", requestBody (if field.type.array then "_toManyRelationshipRequest"
      else "_toOneRelationshipRequest")),
    ("responses", .obj [
      ("200", if field.type.array then success (some "_toManyRelationshipResponse")
        else success (some "_toOneRelationshipResponse")),
      ("403", forbidden),
      ("404", notFound)])] ++
    optK "security" (securityField resourceMeta pol.update))

/-! ## Path generation -/

/-- Generation options consumed by path generation: `prefix` (with the trailing
slash already handled in `generatePathsForModel`) and `modelNameMapping`. -/
structure GenOptions where
  pfx : String
  modelNameMapping : List (String × String)

/-- `this.mapModelName(modelName)`. -/
def mapModelName (opts : GenOptions) (n : String) : String :=
  match (opts.modelNameMapping.find? (fun kv => kv.1 == n)).map (fun kv => kv.2) with
  | some v => v
  | none => n

/-- Trailing-slash stripping of the `prefix` option. -/
def stripSlash (s : String) : String :=
  if s.endsWith "/" then String.mk (s.data.dropLast) else s

/-- `container[op] = v` for a path container that is created on demand
(`if (!container) container = result[path] = \x7b\x7d`). -/
def setOp (paths : List (String × JVal)) (key op : String) (v : JVal) :
    List (String × JVal) :=
  let container := match getK paths key with | some (.obj fs) => fs | _ => []
  putK paths key (.obj (putK container op v))

/-- One iteration of the relationship-path loop in `generatePathsForModel`. -/
def relPathStep (mm : ZModel) (pfx modelName : String) (model : DataModel)
    (pol : Policies) (resourceMeta : Option ResourceMeta)
    (result : List (String × JVal)) (field : ModelField) : List (String × JVal) :=
  match refModel mm field.type with
  | none => result
  | some relationDecl =>
    let relatedDataPath := pfx ++ "/" ++ lowerCaseFirst modelName ++ "/{id}/" ++ field.name
    let result := setOp result relatedDataPath "get"
      (makeRelatedFetch mm model field relationDecl resourceMeta)
    let relationshipPath :=
      pfx ++ "/" ++ lowerCaseFirst modelName ++ "/{id}/relationships/" ++ field.name
    let result := setOp result relationshipPath "get"
      (makeRelationshipFetch mm model field pol resourceMeta)
    let result := setOp result relationshipPath "put"
      (makeRelationshipUpdate model field pol
        ("update-" ++ model.name ++ "-relationship-" ++ field.name ++ "-put") resourceMeta)
    let result := setOp result relationshipPath "patch"
      (makeRelationshipUpdate model field pol
        ("update-" ++ model.name ++ "-relationship-" ++ field.name ++ "-patch") resourceMeta)
    if field.type.array then
      setOp result relationshipPath "post" (makeRelationshipCreate model field pol resourceMeta)
    else result

/-- `generatePathsForModel(model, zmodel)`; the DMMF model only contributes its
name, which equals the matched ZModel declaration's name. -/
def generatePathsForModel (mm : ZModel) (opts : GenOptions) (model : DataModel) :
    List (String × JVal) :=
  let pol := model.policies
  let pfx := stripSlash opts.pfx
  let resourceMeta := model.resourceMeta
  let modelName := mapModelName opts model.name
  let base : List (String × JVal) := [
    (pfx ++ "/" ++ lowerCaseFirst modelName, .obj [
      ("get", makeResourceList mm model pol resourceMeta),
      ("post", makeResourceCreate model pol resourceMeta)]),
    (pfx ++ "/" ++ lowerCaseFirst modelName ++ "/{id}", .obj [
      ("get", makeResourceFetch model pol resourceMeta),
      ("put", makeResourceUpdate model pol ("update-" ++ modelName ++ "-put") resourceMeta),
      ("patch", makeResourceUpdate model pol ("update-" ++ modelName ++ "-patch") resourceMeta),
      ("delete", makeResourceDelete model pol resourceMeta)])]
  model.fields.foldl (relPathStep mm pfx modelName model pol resourceMeta) base

/-- `model.declarations.find(d => isDataModel(d) && d.name === name)`. -/
def findZModelDecl (mm : ZModel) (n : String) : Option DataModel :=
  mm.dataModels.find? (fun d => d.name == n)

/-- The warning message pushed for a DMMF model with no ZModel declaration
(the source's template literal carries a stray closing brace). -/
def missingZModelWarning (n : String) : String :=
  "Unable to load ZModel definition for: " ++ n ++ "\x7d"

/-- `generatePaths()`: iterate the DMMF models in order, merge each included
model's paths by object spread, and collect warnings for included names with no
ZModel declaration.  The included names are supplied by the external inclusion
filter (`this.includedModels`, spec §6(b)). -/
def generatePaths (mm : ZModel) (opts : GenOptions) (includedNames : List String)
    (dmmfNames : List String) : List (String × JVal) × List String :=
  dmmfNames.foldl
    (fun acc dn =>
      if dn ∈ includedNames then
        match findZModelDecl mm dn with
        | some zm => (mergeJS acc.1 (generatePathsForModel mm opts zm), acc.2)
        | none => (acc.1, acc.2 ++ [missingZModelWarning dn])
      else acc)
    ([], [])

/-! ## Component schemas -/

/-- `generateSharedComponents()`: the fixed JSON:API envelope schemas, in the
source's property order. -/
def sharedComponents : List (String × JVal) := [
  ("_jsonapi", .obj [
    ("type", .str "object"),
    ("description", .str "An object describing the server’s implementation"),
    ("required", .arr [.str "version"]),
    ("properties", .obj [("version", .obj [("type", .str "string")])])]),
  ("_meta", .obj [
    ("type", .str "object"),
    ("description", .str "Meta information about the request or response"),
    ("properties", .obj [("serialization", .obj [
      ("description", .str "Superjson serialization metadata")])]),
    ("additionalProperties", .bool true)]),
  ("_resourceIdentifier", .obj [
    ("type", .str "object"),
    ("description", .str "Identifier for a resource"),
    ("required", .arr [.str "type", .str "id"]),
    ("properties", .obj [
      ("type", .obj [("type", .str "string"), ("description", .str "Resource type")]),
      ("id", .obj [("type", .str "string"), ("description", .str "Resource id")])])]),
  ("_resource", allOfJ (refSchema "_resourceIdentifier") (.obj [
    ("type", .str "object"),
    ("description", .str "A resource with attributes and relationships"),
    ("properties", .obj [
      ("attributes", .obj [("type", .str "object"), ("description", .str "Resource attributes")]),
      ("relationships", .obj [("type", .str "object"),
        ("description", .str "Resource relationships")])])])),
  ("_links", .obj [
    ("type", .str "object"),
    ("required", .arr [.str "self"]),
    ("description", .str "Links related to the resource"),
    ("properties", .obj [("self", .obj [("type", .str "string"),
      ("description", .str "Link for refetching the curent results")])])]),
  ("_pagination", .obj [
    ("type", .str "object"),
    ("description", .str "Pagination information"),
    ("required", .arr [.str "first", .str "last", .str "prev", .str "next"]),
    ("properties", .obj [
      ("first", wrapNullable (.obj [("type", .str "string"),
        ("description", .str "Link to the first page")]) true),
      ("last", wrapNullable (.obj [("type", .str "string"),
        ("description", .str "Link to the last page")]) true),
      ("prev", wrapNullable (.obj [("type", .str "string"),
        ("description", .str "Link to the previous page")]) true),
      ("next", wrapNullable (.obj [("type", .str "string"),
        ("description", .str "Link to the next page")]) true)])]),
  ("_errors", .obj [
    ("type", .str "array"),
    ("description", .str "An array of error objects"),
    ("items", .obj [
      ("type", .str "object"),
      ("required", .arr [.str "status", .str "code"]),
      ("properties", .obj [
        ("status", .obj [("type", .str "string"), ("description", .str "HTTP status")]),
        ("code", .obj [("type", .str "string"), ("description", .str "Error code")]),
        ("prismaCode", .obj [("type", .str "string"),
          ("description", .str "Prisma error code if the error is thrown by Prisma")]),
        ("title", .obj [("type", .str "string"), ("description", .str "Error title")]),
        ("detail", .obj [("type", .str "string"), ("description", .str "Error detail")]),
        ("reason", .obj [("type", .str "string"),
          ("description", .str "Detailed error reason")]),
        ("zodErrors", .obj [("type", .str "object"), ("additionalProperties", .bool true),
          ("description", .str "Zod validation errors if the error is due to data validation failure")])])])]),
  ("_errorResponse", .obj [
    ("type", .str "object"),
    ("required", .arr [.str "errors"]),
    ("description", .str "An error response"),
    ("properties", .obj [
      ("jsonapi", refSchema "_jsonapi"),
      ("errors", refSchema "_errors")])]),
  ("_relationLinks", .obj [
    ("type", .str "object"),
    ("required", .arr [.str "self", .str "related"]),
    ("description", .str "Links related to a relationship"),
    ("properties", .obj [
      ("self", .obj [("type", .str "string"),
        ("description", .str "Link for fetching this relationship")]),
      ("related", .obj [("type", .str "string"),
        ("description", .str "Link for fetching the resource represented by this relationship")])])]),
  ("_toOneRelationship", .obj [
    ("type", .str "object"),
    ("description", .str "A to-one relationship"),
    ("properties", .obj [
      ("data", wrapNullable (refSchema "_resourceIdentifier") true)])]),
  ("_toOneRelationshipWithLinks", .obj [
    ("type", .str "object"),
    ("required", .arr [.str "links", .str "data"]),
    ("description", .str "A to-one relationship with links"),
    ("properties", .obj [
      ("links", refSchema "_relationLinks"),
      ("data", wrapNullable (refSchema "_resourceIdentifier") true)])]),
  ("_toManyRelationship", .obj [
    ("type", .str "object"),
    ("required", .arr [.str "data"]),
    ("description", .str "A to-many relationship"),
    ("properties", .obj [
      ("data", arrayJ (refSchema "_resourceIdentifier"))])]),
  ("_toManyRelationshipWithLinks", .obj [
    ("type", .str "object"),
    ("required", .arr [.str "links", .str "data"]),
    ("description", .str "A to-many relationship with links"),
    ("properties", .obj [
      ("links", refSchema "_pagedRelationLinks"),
      ("data", arrayJ (refSchema "_resourceIdentifier"))])]),
  ("_pagedRelationLinks", .obj [
    ("description", .str "Relationship links with pagination information"),
    ("allOf", .arr [refSchema "_pagination", refSchema "_relationLinks"])]),
  ("_toManyRelationshipRequest", .obj [
    ("type", .str "object"),
    ("required", .arr [.str "data"]),
    ("description", .str "Input for manipulating a to-many relationship"),
    ("properties", .obj [
      ("data", .obj [("type", .str "array"), ("items", refSchema "_resourceIdentifier")])])]),
  ("_toOneRelationshipRequest", .obj [
    ("description", .str "Input for manipulating a to-one relationship"),
    ("oneOf", .arr [
      .obj [("type", .str "object"), ("required", .arr [.str "data"]),
        ("properties", .obj [("data", refSchema "_resourceIdentifier")])],
      .obj [("type", .str "null")]])]),
  ("_toManyRelationshipResponse", .obj [
    ("description", .str "Response for a to-many relationship"),
    ("allOf", .arr [
      refSchema "_toManyRelationshipWithLinks",
      .obj [("type", .str "object"),
        ("properties", .obj [("jsonapi", refSchema "_jsonapi")])]])]),
  ("_toOneRelationshipResponse", .obj [
    ("description", .str "Response for a to-one relationship"),
    ("allOf", .arr [
      refSchema "_toOneRelationshipWithLinks",
      .obj [("type", .str "object"),
        ("properties", .obj [("jsonapi", refSchema "_jsonapi")])]])])]

/-- The names of the shared reusable parameters (`generateParameters()`). -/
def parameterNames : List String := ["id", "include", "sort", "page-offset", "page-limit"]

/-- `generateEnumComponent(_enum)`. -/
def generateEnumComponent (e : EnumDecl) : JVal :=
  .obj [
    ("type", .str "string"),
    ("description", .str ("The \"" ++ e.name ++ "\" Enum")),
    ("enum", .arr (e.members.map .str))]

/-- `generateTypeDefComponent(typeDef)`. -/
def generateTypeDefComponent (td : TypeDefDecl) : JVal :=
  .obj [
    ("type", .str "object"),
    ("description", .str ("The \"" ++ td.name ++ "\" TypeDef")),
    ("properties", .obj (td.fields.foldl
      (fun acc f => putK acc f.name (generateField f.type)) []))]

inductive Mode where
  | read | create | update
deriving DecidableEq

/-- Accumulator of the field loop in `generateModelEntity`:
(attributes, relationships, required). -/
def entityFieldStep (mm : ZModel) (mode : Mode)
    (acc : List (String × JVal) × List (String × JVal) × List String)
    (f : ModelField) : List (String × JVal) × List (String × JVal) × List String :=
  let (attrs, rels, req) := acc
  if f.isFk && !(mode = Mode.read) then acc
  else if isRelationshipField mm f then
    let relType :=
      if mode = Mode.create ∨ mode = Mode.update then
        (if f.type.array then "_toManyRelationship" else "_toOneRelationship")
      else
        (if f.type.array then "_toManyRelationshipWithLinks" else "_toOneRelationshipWithLinks")
    (attrs, putK rels f.name (wrapNullable (refSchema relType) f.type.optional), req)
  else
    let attrs := putK attrs f.name (generateField f.type)
    let req :=
      if mode = Mode.create && !f.type.optional && !f.hasDefault &&
          !((refModel mm f.type).isSome && f.type.array) then
        req ++ [f.name]
      else if mode = Mode.read then req ++ [f.name]
      else req
    (attrs, rels, req)

/-- `generateModelEntity(model, mode)`. -/
def generateModelEntity (mm : ZModel) (model : DataModel) (mode : Mode) : JVal :=
  let idFields := model.fields.filter (fun f => f.isId)
  let fields :=
    if idFields.length > 1 then model.fields
    else model.fields.filter (fun f => !f.isId)
  let acc := fields.foldl (entityFieldStep mm mode) ([], [], [])
  let attributes := acc.1
  let relationships := acc.2.1
  let required := acc.2.2
  let toplevelRequired := ["type", "attributes"]
  let properties : List (String × JVal) := [
    ("type", .obj [("type", .str "string")]),
    ("attributes", .obj ([("type", .str "object")] ++
      (if required.length > 0 then [("required", .arr (required.map .str))] else []) ++
      [("properties", .obj attributes)]))]
  let idFieldSchema :=
    match idFields with
    | [f0] => fieldTypeToOpenAPISchema f0.type
    | _ => .obj [("type", .str "string")]
  let pr :=
    if mode = Mode.create then
      match model.fields.filter (fun f => f.isId) with
      | [f0] =>
        if !f0.hasDefault then (("id", idFieldSchema) :: properties, "id" :: toplevelRequired)
        else (properties, toplevelRequired)
      | _ => (properties, toplevelRequired)
    else (("id", idFieldSchema) :: properties, "id" :: toplevelRequired)
  let properties := pr.1 ++
    (if relationships.length > 0 then
      [("relationships", .obj [("type", .str "object"), ("properties", .obj relationships)])]
     else [])
  .obj [
    ("type", .str "object"),
    ("description", .str ("The \"" ++ model.name ++ "\" model")),
    ("required", .arr (pr.2.map .str)),
    ("properties", .obj properties)]

/-- The relationships map built in `generateDataModelComponents` for the
response envelopes. -/
def responseRelationships (mm : ZModel) (model : DataModel) : List (String × JVal) :=
  model.fields.foldl
    (fun acc f =>
      if isRelationshipField mm f then
        putK acc f.name (refSchema (if f.type.array then "_toManyRelationship"
          else "_toOneRelationship"))
      else acc)
    []

/-- `generateDataModelComponents(model)`, in entry order. -/
def generateDataModelComponents (mm : ZModel) (model : DataModel) :
    List (String × JVal) :=
  let rels := responseRelationships mm model
  [(model.name, generateModelEntity mm model .read),
   (model.name ++ "CreateRequest", .obj [
     ("type", .str "object"),
     ("description", .str ("Input for creating a \"" ++ model.name ++ "\"")),
     ("required", .arr [.str "data"]),
     ("properties", .obj [
       ("data", generateModelEntity mm model .create),
       ("meta", refSchema "_meta")])]),
   (model.name ++ "UpdateRequest", .obj [
     ("type", .str "object"),
     ("description", .str ("Input for updating a \"" ++ model.name ++ "\"")),
     ("required", .arr [.str "data"]),
     ("properties", .obj [
       ("data", generateModelEntity mm model .update),
       ("meta", refSchema "_meta")])]),
   (model.name ++ "Response", .obj [
     ("type", .str "object"),
     ("description", .str ("Response for a \"" ++ model.name ++ "\"")),
     ("required", .arr [.str "data"]),
     ("properties", .obj [
       ("jsonapi", refSchema "_jsonapi"),
       ("data", allOfJ (refSchema model.name) (.obj [
         ("type", .str "object"),
         ("properties", .obj [("relationships", .obj [
           ("type", .str "object"), ("properties", .obj rels)])])])),
       ("meta", refSchema "_meta"),
       ("included", .obj [("type", .str "array"), ("items", refSchema "_resource")]),
       ("links", refSchema "_links")])]),
   (model.name ++ "ListResponse", .obj [
     ("type", .str "object"),
     ("description", .str ("Response for a list of \"" ++ model.name ++ "\"")),
     ("required", .arr [.str "data", .str "links"]),
     ("properties", .obj [
       ("jsonapi", refSchema "_jsonapi"),
       ("data", arrayJ (allOfJ (refSchema model.name) (.obj [
         ("type", .str "object"),
         ("properties", .obj [("relationships", .obj [
           ("type", .str "object"), ("properties", .obj rels)])])]))),
       ("meta", refSchema "_meta"),
       ("included", .obj [("type", .str "array"), ("items", refSchema "_resource")]),
       ("links", allOfJ (refSchema "_links") (refSchema "_pagination"))])])]

/-- `generateComponents()`: the `components.schemas` map, written by successive
JS property assignments (shared envelopes, enums, data models, typedefs). -/
def generateComponents (mm : ZModel) : List (String × JVal) :=
  let s1 := sharedComponents.foldl (fun acc kv => putK acc kv.1 kv.2) []
  let s2 := mm.enums.foldl (fun acc e => putK acc e.name (generateEnumComponent e)) s1
  let s3 := mm.dataModels.foldl
    (fun acc d => (generateDataModelComponents mm d).foldl
      (fun acc kv => putK acc kv.1 kv.2) acc)
    s2
  mm.typeDefs.foldl (fun acc td => putK acc td.name (generateTypeDefComponent td)) s3

/-! ## Pruning (Modelled from the spec)

`pruneComponents` lives in `generator-base.ts`, which is outside the translated
source.  Modelled from the spec (§4.7): traverse every `$ref` reachable from the
generated paths, transitively through the referenced schemas, and remove every
named component that is not reached. -/

/-- The raw `$ref` target string of a value, when it is a string. -/
def jrefStr : JVal → List String
  | .str s => [s]
  | _ => []

mutual
/-- All `$ref` target strings occurring in a value. -/
def refsOfJ : JVal → List String
  | .str _ => []
  | .num _ => []
  | .bool _ => []
  | .null => []
  | .arr xs => refsOfArr xs
  | .obj fs => refsOfFields fs

def refsOfArr : List JVal → List String
  | [] => []
  | x :: xs => refsOfJ x ++ refsOfArr xs

def refsOfFields : List (String × JVal) → List String
  | [] => []
  | (k, v) :: fs =>
    (if k = "$ref" then jrefStr v else []) ++ refsOfJ v ++ refsOfFields fs
end

/-- The `$ref` string that points at a named schema component. -/
def schemaKey (n : String) : String := "#/components/schemas/" ++ n

/-- One breadth layer of the reachability traversal: everything in the roots,
plus the `$ref`s of every component whose key was reached within `n` layers. -/
def reachN (comps : List (String × JVal)) (roots : List String) : Nat → List String
  | 0 => roots
  | n + 1 =>
    let prev := reachN comps roots n
    roots ++ comps.flatMap (fun c => if schemaKey c.1 ∈ prev then refsOfJ c.2 else [])

/-- Modelled from the spec: the set of `$ref` strings reachable from the roots
through the component graph (`comps.length + 1` layers suffice, see
`reachN_subset_reach`). -/
def reach (comps : List (String × JVal)) (roots : List String) : List String :=
  reachN comps roots (comps.length + 1)

/-- Modelled from the spec: `pruneComponents(paths, components)` keeps exactly
the named schema components whose key is reachable from the paths. -/
def pruneComponents (paths : JVal) (comps : List (String × JVal)) :
    List (String × JVal) :=
  comps.filter (fun c => decide (schemaKey c.1 ∈ reach comps (refsOfJ paths)))

/-! ## Observation helpers used by the theorems -/

/-- The keys of a JS object given as an association list. -/
def keys (l : List (String × JVal)) : List String := l.map (fun kv => kv.1)

/-- The string entries of the `required` member of a schema object. -/
def reqStrings (v : JVal) : List String :=
  match v.get "required" with
  | some (.arr rs) => rs.flatMap (fun r => match r with | .str s => [s] | _ => [])
  | _ => []

/-- The top-level `id` property of an entity schema. -/
def idProp (v : JVal) : Option JVal :=
  (v.get "properties").bind (fun p => p.get "id")

/-- The `name` entries of a list of parameter objects. -/
def paramNamesOf (ps : List JVal) : List String :=
  ps.flatMap (fun p => match p.get "name" with | some (.str s) => [s] | _ => [])

/-- All `operationId` values of a paths object, in document order. -/
def docOpIds (paths : List (String × JVal)) : List String :=
  paths.flatMap (fun kv =>
    match kv.2 with
    | .obj ops => ops.flatMap (fun op =>
      match op.2 with
      | .obj fs => (match getK fs "operationId" with | some (.str s) => [s] | _ => [])
      | _ => [])
    | _ => [])

/-! ## Association-list lemmas -/

theorem findKey_isSome {l : List (String × JVal)} {k : String} :
    (l.find? (fun f => f.1 == k)).isSome = true ↔ k ∈ keys l := by
  rw [List.find?_isSome]
  simp only [keys, List.mem_map, beq_iff_eq]

theorem getK_isSome_keys {l : List (String × JVal)} {k : String} :
    (getK l k).isSome = true ↔ k ∈ keys l := by
  rw [← findKey_isSome]
  cases hf : l.find? (fun f => f.1 == k) <;> simp [getK, hf]

theorem findKey_eq_none {l : List (String × JVal)} {k : String} (h : k ∉ keys l) :
    l.find? (fun f => f.1 == k) = none := by
  cases hf : l.find? (fun f => f.1 == k) with
  | none => rfl
  | some v =>
    exact absurd (findKey_isSome.mp (by simp [hf])) h

theorem putK_fresh {l : List (String × JVal)} {k : String} (v : JVal)
    (h : k ∉ keys l) : putK l k v = l ++ [(k, v)] := by
  simp [putK, findKey_eq_none h]

theorem putK_last {a : List (String × JVal)} {k : String} (v v' : JVal)
    (h : k ∉ keys a) : putK (a ++ [(k, v)]) k v' = a ++ [(k, v')] := by
  have hs : ((a ++ [(k, v)]).find? (fun f => f.1 == k)).isSome = true := by
    rw [findKey_isSome]; simp [keys]
  simp only [putK, hs, if_pos]
  rw [List.map_append]
  congr 1
  · have hc : ∀ f ∈ a, (if (f.1 == k) = true then ((k, v') : String × JVal) else f) = f := by
      intro f hf
      have : f.1 ≠ k := by
        intro he
        exact h (he ▸ (List.mem_map.mpr ⟨f, hf, rfl⟩))
      simp [this]
    rw [List.map_congr_left hc, List.map_id']
  · simp

theorem getK_append_right {a b : List (String × JVal)} {k : String}
    (h : k ∉ keys a) : getK (a ++ b) k = getK b k := by
  simp [getK, List.find?_append, findKey_eq_none h]

theorem getK_nil {k : String} : getK [] k = none := rfl

theorem getK_cons_self {l : List (String × JVal)} {k : String} {v : JVal} :
    getK ((k, v) :: l) k = some v := by
  simp [getK, List.find?_cons]

theorem getK_cons_ne {l : List (String × JVal)} {k k' : String} {v : JVal}
    (h : k' ≠ k) : getK ((k', v) :: l) k = getK l k := by
  have hb : (k' == k) = false := by simp [h]
  simp [getK, List.find?_cons, hb]

theorem setOp_fresh {paths : List (String × JVal)} {key op : String} (v : JVal)
    (h : key ∉ keys paths) :
    setOp paths key op v = paths ++ [(key, .obj [(op, v)])] := by
  have hg : getK paths key = none := by simp [getK, findKey_eq_none h]
  simp only [setOp, hg]
  rw [putK_fresh _ h]
  rfl

theorem setOp_last {paths : List (String × JVal)} {key op : String}
    (ops : List (String × JVal)) (v : JVal) (h : key ∉ keys paths) :
    setOp (paths ++ [(key, .obj ops)]) key op v =
      paths ++ [(key, .obj (putK ops op v))] := by
  have hg : getK (paths ++ [(key, .obj ops)]) key = some (.obj ops) := by
    rw [getK_append_right h, getK_cons_self]
  simp only [setOp, hg]
  exact putK_last _ _ h

theorem mergeJS_append {a b : List (String × JVal)}
    (h : (keys a ++ keys b).Nodup) : mergeJS a b = a ++ b := by
  induction b generalizing a with
  | nil => simp [mergeJS]
  | cons kv b ih =>
    have hk : kv.1 ∉ keys a := by
      intro hm
      exact (List.disjoint_of_nodup_append h) hm (by simp [keys])
    have h' : (keys (a ++ [kv]) ++ keys b).Nodup := by
      have : keys (a ++ [kv]) ++ keys b = keys a ++ (keys (kv :: b)) := by
        simp [keys]
      rw [this]
      exact h
    have step : mergeJS a (kv :: b) = mergeJS (a ++ [kv]) b := by
      simp only [mergeJS, List.foldl_cons]
      rw [putK_fresh _ hk]
    rw [step, ih h']
    simp

/-! ## Claim C2 — `id` handling in `generateModelEntity`

The source includes the top-level `id` in create mode only when the entity has
a single identifier field with no `@default`; read and update modes always
include and require it.  The claim asserts that `id` is always *present* in
create mode, which fails whenever the single identifier carries a default
value generator (or the identifier is compound). -/

/-- The condition of the create-mode `id` branch:
`idFields.length === 1 && !hasAttribute(idFields[0], '@default')`. -/
def singleIdNoDefault (m : DataModel) : Bool :=
  match m.fields.filter (fun f => f.isId) with
  | [f0] => !f0.hasDefault
  | _ => false

/-- The (attributes, relationships, required) accumulator of the field loop. -/
def entityLoop (mm : ZModel) (m : DataModel) (mode : Mode) :
    List (String × JVal) × List (String × JVal) × List String :=
  let idFields := m.fields.filter (fun f => f.isId)
  let fields :=
    if idFields.length > 1 then m.fields
    else m.fields.filter (fun f => !f.isId)
  fields.foldl (entityFieldStep mm mode) ([], [], [])

def entityIdSchema (m : DataModel) : JVal :=
  match m.fields.filter (fun f => f.isId) with
  | [f0] => fieldTypeToOpenAPISchema f0.type
  | _ => .obj [("type", .str "string")]

def entityBaseProps (mm : ZModel) (m : DataModel) (mode : Mode) :
    List (String × JVal) :=
  [("type", .obj [("type", .str "string")]),
   ("attributes", .obj ([("type", .str "object")] ++
     (if (entityLoop mm m mode).2.2.length > 0 then
       [("required", .arr ((entityLoop mm m mode).2.2.map .str))] else []) ++
     [("properties", .obj (entityLoop mm m mode).1)]))]

/-- The (properties, top-level required) pair after identifier handling. -/
def entityPR (mm : ZModel) (m : DataModel) (mode : Mode) :
    List (String × JVal) × List String :=
  if mode = Mode.create then
    match m.fields.filter (fun f => f.isId) with
    | [f0] =>
      if !f0.hasDefault then
        (("id", entityIdSchema m) :: entityBaseProps mm m mode, "id" :: ["type", "attributes"])
      else (entityBaseProps mm m mode, ["type", "attributes"])
    | _ => (entityBaseProps mm m mode, ["type", "attributes"])
  else (("id", entityIdSchema m) :: entityBaseProps mm m mode, "id" :: ["type", "attributes"])

def entityProps (mm : ZModel) (m : DataModel) (mode : Mode) : List (String × JVal) :=
  (entityPR mm m mode).1 ++
  (if (entityLoop mm m mode).2.1.length > 0 then
    [("relationships", .obj [("type", .str "object"),
      ("properties", .obj (entityLoop mm m mode).2.1)])]
   else [])

theorem generateModelEntity_eq (mm : ZModel) (m : DataModel) (mode : Mode) :
    generateModelEntity mm m mode = .obj [
      ("type", .str "object"),
      ("description", .str ("The \"" ++ m.name ++ "\" model")),
      ("required", .arr ((entityPR mm m mode).2.map .str)),
      ("properties", .obj (entityProps mm m mode))] := by
  rfl

theorem strings_roundtrip (l : List String) :
    ((l.map JVal.str).flatMap (fun r => match r with | .str s => [s] | _ => [])) = l := by
  induction l with
  | nil => rfl
  | cons x xs ih => simp [ih]

theorem reqStrings_entity (mm : ZModel) (m : DataModel) (mode : Mode) :
    reqStrings (generateModelEntity mm m mode) = (entityPR mm m mode).2 := by
  rw [generateModelEntity_eq]
  show ((entityPR mm m mode).2.map JVal.str).flatMap _ = _
  exact strings_roundtrip _

theorem idProp_entity (mm : ZModel) (m : DataModel) (mode : Mode) :
    idProp (generateModelEntity mm m mode) = getK (entityProps mm m mode) "id" := by
  rw [generateModelEntity_eq]
  rfl

theorem getK_baseProps_id (mm : ZModel) (m : DataModel) (mode : Mode) :
    getK (entityBaseProps mm m mode ++
      (if (entityLoop mm m mode).2.1.length > 0 then
        [("relationships", .obj [("type", .str "object"),
          ("properties", .obj (entityLoop mm m mode).2.1)])]
       else [])) "id" = none := by
  rw [show entityBaseProps mm m mode = [("type", (.obj [("type", .str "string")] : JVal)),
    ("attributes", .obj ([("type", .str "object")] ++
      (if (entityLoop mm m mode).2.2.length > 0 then
        [("required", .arr ((entityLoop mm m mode).2.2.map .str))] else []) ++
      [("properties", .obj (entityLoop mm m mode).1)]))] from rfl]
  rw [List.cons_append, List.cons_append, List.nil_append]
  rw [getK_cons_ne (by decide), getK_cons_ne (by decide)]
  split
  · rw [getK_cons_ne (by decide)]; rfl
  · rfl

/-- C2, amended, for create mode: the top-level `id` is *present* if and only
if the entity has exactly one identifier field carrying no default-value
generator, and it is required under exactly the same condition. -/
theorem create_entity_id_amended (mm : ZModel) (m : DataModel) :
    ((idProp (generateModelEntity mm m .create)).isSome = singleIdNoDefault m) ∧
    (("id" ∈ reqStrings (generateModelEntity mm m .create)) ↔ singleIdNoDefault m = true) ∧
    ((idProp (generateModelEntity mm m .read)).isSome = true) ∧
    ("id" ∈ reqStrings (generateModelEntity mm m .read)) ∧
    ((idProp (generateModelEntity mm m .update)).isSome = true) ∧
    ("id" ∈ reqStrings (generateModelEntity mm m .update)) := by
  have hro : Mode.read = Mode.create ↔ False := by simp
  have hc2 : ∀ mode, mode ≠ Mode.create →
      idProp (generateModelEntity mm m mode) = some (entityIdSchema m) ∧
      "id" ∈ reqStrings (generateModelEntity mm m mode) := by
    intro mode hm
    rw [idProp_entity, reqStrings_entity]
    unfold entityProps entityPR
    simp only [if_neg hm]
    exact ⟨getK_cons_self, by simp⟩
  refine ⟨?_, ?_, ?_, ?_, ?_, ?_⟩
  · rw [idProp_entity]
    unfold entityProps entityPR singleIdNoDefault
    simp only [if_pos rfl]
    rcases hfi : m.fields.filter (fun f => f.isId) with _ | ⟨f0, _ | ⟨f1, rest⟩⟩
    · simp only [hfi]
      exact congrArg Option.isSome (getK_baseProps_id mm m Mode.create)
    · simp only [hfi]
      by_cases hd : f0.hasDefault
      · simp only [hd, Bool.not_true, Bool.false_eq_true, if_false]
        exact congrArg Option.isSome (getK_baseProps_id mm m Mode.create)
      · have hd' : f0.hasDefault = false := by simpa using hd
        simp only [hd', Bool.not_false, if_true, List.cons_append]
        rw [getK_cons_self]
        rfl
    · simp only [hfi]
      exact congrArg Option.isSome (getK_baseProps_id mm m Mode.create)
  · rw [reqStrings_entity]
    unfold entityPR singleIdNoDefault
    simp only [if_pos rfl]
    rcases hfi : m.fields.filter (fun f => f.isId) with _ | ⟨f0, _ | ⟨f1, rest⟩⟩
    · simp only [hfi]; simp
    · simp only [hfi]
      by_cases hd : f0.hasDefault <;> simp [hd]
    · simp only [hfi]; simp
  · rw [(hc2 .read (by simp)).1]; rfl
  · exact (hc2 .read (by simp)).2
  · rw [(hc2 .update (by simp)).1]; rfl
  · exact (hc2 .update (by simp)).2

/-- A `Space`-like entity: a single `String @id @default(uuid())` identifier. -/
def exDefaultIdModel : DataModel :=
  ⟨"Space",
   [⟨"id", ⟨.prim .string, false, false⟩, true, false, true⟩,
    ⟨"name", ⟨.prim .string, false, false⟩, false, false, false⟩],
   ⟨false, false, false, false⟩, none⟩

def exDefaultIdZ : ZModel := ⟨[], [exDefaultIdModel], []⟩

/-- C2, counterexample: for an entity whose single identifier has a
default-value generator, the create-mode entity schema has *no* top-level `id`
property at all — the claim's "includes a top-level `id` property" fails. -/
theorem create_id_absent_with_default :
    (idProp (generateModelEntity exDefaultIdZ exDefaultIdModel Mode.create)).isSome = false := by
  rfl

/-! ## Claim C5 — the `filter[id]` parameter

The foreign-key skip runs *before* the identifier check in
`generateFilterParameters`, so a single identifier field that is also a foreign
key produces no `filter[id]` parameter at all; likewise, foreign-key components
of a compound identifier get no equality filter.  The amended statement adds
the forced foreign-key proviso (and excludes a stray non-identifier field
literally named `id`, whose equality filter would also be called `filter[id]`). -/

theorem count_flatMap_eq_sum {α : Type} (l : List α) (g : α → List String) (x : String) :
    ((l.flatMap g).count x) = (l.map (fun a => (g a).count x)).sum := by
  induction l with
  | nil => rfl
  | cons a l ih => simp [List.count_append, ih]

theorem sum_indicator_eq_countP {α : Type} (l : List α) (p : α → Bool) (g : α → Nat)
    (h : ∀ a ∈ l, g a = if p a then 1 else 0) : (l.map g).sum = l.countP p := by
  induction l with
  | nil => rfl
  | cons a l ih =>
    rw [List.map_cons, List.sum_cons, h a (by simp), List.countP_cons,
      ih (fun b hb => h b (by simp [hb]))]
    by_cases hp : p a <;> simp [hp, Nat.add_comm]

/-- An operator-suffixed filter name is never `filter[id]` (the suffix alone
makes it longer). -/
theorem opFilterName_ne_id (s nm : String) (h : 3 ≤ nm.length) :
    ("filter[" ++ s ++ nm ++ "]") ≠ "filter[id]" := by
  intro he
  have hl := congrArg String.length he
  simp only [String.length_append] at hl
  have h7 : ("filter[" : String).length = 7 := by decide
  have h1 : ("]" : String).length = 1 := by decide
  have h10 : ("filter[id]" : String).length = 10 := by decide
  rw [h7, h1, h10] at hl
  omega

/-- The equality-filter name coincides with `filter[id]` exactly for a field
literally named `id`. -/
theorem eqFilterName_eq_id_iff (s : String) :
    (("filter[" ++ s ++ "]") = "filter[id]") ↔ s = "id" := by
  constructor
  · intro he
    have hd := congrArg String.data he
    simp only [String.data_append] at hd
    have hd2 : ['f','i','l','t','e','r','['] ++ (s.data ++ [']']) =
        ['f','i','l','t','e','r','['] ++ (['i','d'] ++ [']']) := by
      simpa using hd
    have h3 : s.data ++ [']'] = ['i','d'] ++ [']'] := by
      have := List.append_cancel_left hd2
      simpa using this
    have hsd : s.data = ['i','d'] := List.append_cancel_right h3
    exact String.ext (hsd.trans (by decide))
  · intro he; rw [he]; decide

/-- Per-field contribution to the number of `filter[id]` parameters. -/
def fieldIdIndicator (hmi : Bool) (f : ModelField) : Bool :=
  !f.isFk && ((f.isId && !hmi) || (!(f.isId && !hmi) && f.name == "id"))

theorem paramNamesOf_append (a b : List JVal) :
    paramNamesOf (a ++ b) = paramNamesOf a ++ paramNamesOf b := by
  simp [paramNamesOf]

theorem paramNamesOf_make (mm : ZModel) (f : ModelField) (nm d : String)
    (a : Bool) (so : Option JVal) :
    paramNamesOf [makeFilterParameter mm f nm d a so] =
      [if nm == "id" then "filter[id]" else "filter[" ++ f.name ++ nm ++ "]"] := by
  rfl

theorem count_id_field (mm : ZModel) (hmi : Bool) (f : ModelField) :
    ((paramNamesOf (filterParamsForField mm hmi f)).count "filter[id]") =
      if fieldIdIndicator hmi f then 1 else 0 := by
  unfold filterParamsForField fieldIdIndicator
  by_cases hfk : f.isFk
  · simp [hfk, paramNamesOf]
  · simp only [hfk, Bool.false_eq_true, if_false, Bool.not_false, Bool.true_and]
    by_cases hid : f.isId && !hmi
    · simp only [hid, if_true, Bool.true_or, if_pos]
      rw [paramNamesOf_make]
      simp
    · simp only [hid, Bool.false_eq_true, if_false, Bool.false_or, Bool.not_false,
        Bool.true_and]
      have heq : paramNamesOf [makeFilterParameter mm f "" "Equality filter" f.type.array] =
          ["filter[" ++ f.name ++ "]"] := by
        rw [paramNamesOf_make]
        rw [show (("" : String) == "id") = false from rfl, if_neg (by simp),
          String.append_empty]
      have hcnt1 : ((["filter[" ++ f.name ++ "]"] : List String).count "filter[id]") =
          if f.name == "id" then 1 else 0 := by
        by_cases hn : f.name = "id"
        · rw [hn]; decide
        · have hne : ("filter[" ++ f.name ++ "]") ≠ "filter[id]" :=
            fun hc => hn ((eqFilterName_eq_id_iff f.name).mp hc)
          have hnm : "filter[id]" ∉ (["filter[" ++ f.name ++ "]"] : List String) := by
            simp [Ne.symm hne]
          rw [List.count_eq_zero.mpr hnm, if_neg (by simp [hn])]
      have hrest : ∀ tail : List JVal,
          (∀ x ∈ paramNamesOf tail, x ≠ "filter[id]") →
          ((paramNamesOf ([makeFilterParameter mm f "" "Equality filter" f.type.array] ++
            tail)).count "filter[id]") = if f.name == "id" then 1 else 0 := by
        intro tail ht
        rw [paramNamesOf_append, List.count_append, heq, hcnt1,
          List.count_eq_zero.mpr (fun hmem => (ht _ hmem) rfl), Nat.add_zero]
      apply hrest
      intro x hx
      split at hx
      · simp [paramNamesOf] at hx
      · split at hx
        · have hx4 : x = "filter[" ++ f.name ++ "$has" ++ "]" ∨
              x = "filter[" ++ f.name ++ "$hasEvery" ++ "]" ∨
              x = "filter[" ++ f.name ++ "$hasSome" ++ "]" ∨
              x = "filter[" ++ f.name ++ "$isEmpty" ++ "]" := by
            rw [show paramNamesOf [makeFilterParameter mm f "$has" "Collection contains filter",
              makeFilterParameter mm f "$hasEvery" "Collection contains-all filter" true,
              makeFilterParameter mm f "$hasSome" "Collection contains-any filter" true,
              makeFilterParameter mm f "$isEmpty" "Collection is empty filter" false
                (some (.obj [("type", .str "boolean")]))] =
              ["filter[" ++ f.name ++ "$has" ++ "]", "filter[" ++ f.name ++ "$hasEvery" ++ "]",
               "filter[" ++ f.name ++ "$hasSome" ++ "]",
               "filter[" ++ f.name ++ "$isEmpty" ++ "]"] from rfl] at hx
            simpa using hx
          rcases hx4 with h | h | h | h <;>
            exact h ▸ opFilterName_ne_id _ _ (by decide)
        · rw [paramNamesOf_append] at hx
          rcases List.mem_append.mp hx with h | h
          · split at h
            · have hx4 : x = "filter[" ++ f.name ++ "$lt" ++ "]" ∨
                  x = "filter[" ++ f.name ++ "$lte" ++ "]" ∨
                  x = "filter[" ++ f.name ++ "$gt" ++ "]" ∨
                  x = "filter[" ++ f.name ++ "$gte" ++ "]" := by
                rw [show paramNamesOf [makeFilterParameter mm f "$lt" "Less-than filter",
                  makeFilterParameter mm f "$lte" "Less-than or equal filter",
                  makeFilterParameter mm f "$gt" "Greater-than filter",
                  makeFilterParameter mm f "$gte" "Greater-than or equal filter"] =
                  ["filter[" ++ f.name ++ "$lt" ++ "]", "filter[" ++ f.name ++ "$lte" ++ "]",
                   "filter[" ++ f.name ++ "$gt" ++ "]", "filter[" ++ f.name ++ "$gte" ++ "]"]
                  from rfl] at h
                simpa using h
              rcases hx4 with h | h | h | h <;>
                exact h ▸ opFilterName_ne_id _ _ (by decide)
            · simp [paramNamesOf] at h
          · split at h
            · have hx5 : x = "filter[" ++ f.name ++ "$contains" ++ "]" ∨
                  x = "filter[" ++ f.name ++ "$icontains" ++ "]" ∨
                  x = "filter[" ++ f.name ++ "$search" ++ "]" ∨
                  x = "filter[" ++ f.name ++ "$startsWith" ++ "]" ∨
                  x = "filter[" ++ f.name ++ "$endsWith" ++ "]" := by
                rw [show paramNamesOf [makeFilterParameter mm f "$contains" "String contains filter",
                  makeFilterParameter mm f "$icontains" "String case-insensitive contains filter",
                  makeFilterParameter mm f "$search" "String full-text search filter",
                  makeFilterParameter mm f "$startsWith" "String startsWith filter",
                  makeFilterParameter mm f "$endsWith" "String endsWith filter"] =
                  ["filter[" ++ f.name ++ "$contains" ++ "]",
                   "filter[" ++ f.name ++ "$icontains" ++ "]",
                   "filter[" ++ f.name ++ "$search" ++ "]",
                   "filter[" ++ f.name ++ "$startsWith" ++ "]",
                   "filter[" ++ f.name ++ "$endsWith" ++ "]"] from rfl] at h
                simpa using h
              rcases hx5 with h | h | h | h | h <;>
                exact h ▸ opFilterName_ne_id _ _ (by decide)
            · simp [paramNamesOf] at h

/-- `hasMultipleIds` from `generateFilterParameters`. -/
def hasMultipleIds (m : DataModel) : Bool :=
  (m.fields.filter (fun f => f.isId)).length > 1

theorem paramNamesOf_flatMap {α : Type} (l : List α) (g : α → List JVal) :
    paramNamesOf (l.flatMap g) = l.flatMap (fun a => paramNamesOf (g a)) := by
  induction l with
  | nil => rfl
  | cons a l ih => simp only [List.flatMap_cons, paramNamesOf_append, ih]

theorem count_filter_id (mm : ZModel) (m : DataModel) :
    (paramNamesOf (generateFilterParameters mm m)).count "filter[id]" =
      m.fields.countP (fieldIdIndicator (hasMultipleIds m)) := by
  have h1 : paramNamesOf (generateFilterParameters mm m) =
      m.fields.flatMap (fun f => paramNamesOf (filterParamsForField mm (hasMultipleIds m) f)) :=
    paramNamesOf_flatMap m.fields _
  rw [h1, count_flatMap_eq_sum]
  exact sum_indicator_eq_countP _ _ _ (fun f _ => count_id_field mm (hasMultipleIds m) f)

/-- C5, amended: for an entity with exactly one identifier field, where that
field is not a foreign key and every field named `id` is an identifier, the
parameter `filter[id]` is generated exactly once; for a compound identifier
with no field literally named `id`, no `filter[id]` parameter is generated and
every non-foreign-key identifier component gets its own equality filter. -/
theorem filter_id_amended (mm : ZModel) (m : DataModel) :
    (∀ f0, m.fields.filter (fun f => f.isId) = [f0] → f0.isFk = false →
      (∀ g ∈ m.fields, g.name = "id" → g.isId = true) →
      (paramNamesOf (generateFilterParameters mm m)).count "filter[id]" = 1) ∧
    ((m.fields.filter (fun f => f.isId)).length > 1 →
      (∀ g ∈ m.fields, ¬ g.name = "id") →
      ((paramNamesOf (generateFilterParameters mm m)).count "filter[id]" = 0 ∧
       ∀ f ∈ m.fields, f.isId = true → f.isFk = false →
         ("filter[" ++ f.name ++ "]") ∈ paramNamesOf (generateFilterParameters mm m))) := by
  constructor
  · intro f0 hf0 hfk hname
    have hmi : hasMultipleIds m = false := by
      unfold hasMultipleIds
      rw [hf0]
      rfl
    rw [count_filter_id, hmi, List.countP_eq_length_filter]
    have hcongr : m.fields.filter (fieldIdIndicator false) =
        m.fields.filter (fun g => !g.isFk && g.isId) := by
      apply List.filter_congr
      intro g hg
      unfold fieldIdIndicator
      by_cases hgid : g.isId
      · simp [hgid]
      · have hgn : (g.name == "id") = false := by
          by_cases h : g.name = "id"
          · exact absurd (hname g hg h) hgid
          · simp [h]
        simp [hgid, hgn]
    rw [hcongr, ← List.filter_filter, hf0]
    simp [hfk]
  · intro hgt hname
    have hmi : hasMultipleIds m = true := decide_eq_true hgt
    constructor
    · rw [count_filter_id, hmi, List.countP_eq_length_filter]
      have hnil : m.fields.filter (fieldIdIndicator true) = [] := by
        rw [List.filter_eq_nil_iff]
        intro g hg
        unfold fieldIdIndicator
        have hgn : (g.name == "id") = false := by simp [hname g hg]
        simp [hgn]
      rw [hnil]
      rfl
    · intro f hf hid hfk
      have h1 : paramNamesOf (generateFilterParameters mm m) =
          m.fields.flatMap
            (fun g => paramNamesOf (filterParamsForField mm (hasMultipleIds m) g)) :=
        paramNamesOf_flatMap m.fields _
      rw [h1]
      refine List.mem_flatMap.mpr ⟨f, hf, ?_⟩
      rw [hmi]
      unfold filterParamsForField
      rw [if_neg (by simp [hfk])]
      rw [if_neg (by simp [hid])]
      rw [paramNamesOf_append]
      apply List.mem_append.mpr
      left
      rw [paramNamesOf_make]
      rw [show (("" : String) == "id") = false from rfl, if_neg (by simp),
        String.append_empty]
      exact List.mem_singleton.mpr rfl

/-- An entity whose single identifier field stores a relation's foreign key
(`userId String @id`, also listed in a `@relation(fields: [userId])`). -/
def exIdFkModel : DataModel :=
  ⟨"Membership",
   [⟨"userId", ⟨.prim .string, false, false⟩, true, true, false⟩,
    ⟨"note", ⟨.prim .string, false, false⟩, false, false, false⟩],
   ⟨false, false, false, false⟩, none⟩

def exIdFkZ : ZModel := ⟨[], [exIdFkModel], []⟩

/-- C5, counterexample: an entity with exactly one identifier field whose
identifier is a foreign key gets *no* `filter[id]` parameter (the foreign-key
skip runs first), refuting "contains the parameter named `filter[id]` exactly
once". -/
theorem filter_id_missing_for_fk_id :
    ((exIdFkModel.fields.filter (fun f => f.isId)).length = 1) ∧
    ((paramNamesOf (generateFilterParameters exIdFkZ exIdFkModel)).count "filter[id]" = 0) := by
  exact ⟨rfl, rfl⟩

def exSingleIdF : ModelField := ⟨"id", ⟨.prim .string, false, false⟩, true, false, false⟩

def exSingleIdModel : DataModel :=
  ⟨"User",
   [exSingleIdF, ⟨"email", ⟨.prim .string, false, false⟩, false, false, false⟩],
   ⟨false, false, false, false⟩, none⟩

def exSingleIdZ : ZModel := ⟨[], [exSingleIdModel], []⟩

def exCompoundModel : DataModel :=
  ⟨"Grant",
   [⟨"role", ⟨.prim .string, false, false⟩, true, false, false⟩,
    ⟨"company", ⟨.prim .string, false, false⟩, true, false, false⟩,
    ⟨"email", ⟨.prim .string, false, false⟩, false, false, false⟩],
   ⟨false, false, false, false⟩, none⟩

def exCompoundZ : ZModel := ⟨[], [exCompoundModel], []⟩

theorem filter_id_amended_witness :
    ((paramNamesOf (generateFilterParameters exSingleIdZ exSingleIdModel)).count
      "filter[id]" = 1) ∧
    ((paramNamesOf (generateFilterParameters exCompoundZ exCompoundModel)).count
      "filter[id]" = 0) ∧
    (("filter[" ++ "role" ++ "]") ∈
      paramNamesOf (generateFilterParameters exCompoundZ exCompoundModel)) := by
  refine ⟨?_, ?_, ?_⟩
  · exact (filter_id_amended exSingleIdZ exSingleIdModel).1 exSingleIdF rfl rfl (by decide)
  · exact ((filter_id_amended exCompoundZ exCompoundModel).2 (by decide) (by decide)).1
  · exact ((filter_id_amended exCompoundZ exCompoundModel).2 (by decide) (by decide)).2
      ⟨"role", ⟨.prim .string, false, false⟩, true, false, false⟩ (by decide) rfl rfl

/-! ## Claim C3 — per-operation security

`resourceMeta?.security ?? policies.x === true ? [] : undefined`: because `??`
binds tighter than the conditional, the whole coalesced value is the ternary
*condition*; the emitted value is always `[]` or absent, never the override
itself.  A present override has TS type `object` and is therefore truthy. -/

/-- A JS `object`-typed value (arrays are objects too). -/
def isJsObject : JVal → Bool
  | .arr _ => true
  | .obj _ => true
  | _ => false

theorem securityField_spec (meta : Option ResourceMeta) (flag : Bool)
    (hobj : ∀ v, meta.bind (fun rm => rm.security) = some v → isJsObject v = true) :
    securityField meta flag =
      if (meta.bind (fun rm => rm.security)).isSome || flag then some (.arr [])
      else none := by
  unfold securityField secCondition
  cases hs : meta.bind (fun rm => rm.security) with
  | none => simp
  | some v =>
    have hv := hobj v hs
    cases v with
    | arr xs => simp [jsTruthy]
    | obj fs => simp [jsTruthy]
    | str s => simp [isJsObject] at hv
    | num n => simp [isJsObject] at hv
    | bool b => simp [isJsObject] at hv
    | null => simp [isJsObject] at hv

theorem getK_optK (k : String) (s : Option JVal) : getK (optK k s) k = s := by
  cases s with
  | none => rfl
  | some v => exact getK_cons_self

theorem get_security_tail (l : List (String × JVal)) (s : Option JVal)
    (h : "security" ∉ keys l) :
    (JVal.obj (l ++ optK "security" s)).get "security" = s := by
  show getK (l ++ optK "security" s) "security" = s
  rw [getK_append_right h, getK_optK]

/-- C3: every operation's `security` member is `[]` exactly when the entity
has a (truthy, object-typed) resource-level security override or the
operation's corresponding policy is `true`, and absent otherwise; the
override's value itself is never emitted. -/
theorem operation_security_empty_or_absent (mm : ZModel) (model : DataModel)
    (field : ModelField) (pol : Policies) (meta : Option ResourceMeta) (opId : String)
    (hobj : ∀ v, meta.bind (fun rm => rm.security) = some v → isJsObject v = true) :
    ((makeResourceList mm model pol meta).get "security" =
      if (meta.bind (fun rm => rm.security)).isSome || pol.read then some (.arr [])
      else none) ∧
    ((makeResourceCreate model pol meta).get "security" =
      if (meta.bind (fun rm => rm.security)).isSome || pol.create then some (.arr [])
      else none) ∧
    ((makeResourceFetch model pol meta).get "security" =
      if (meta.bind (fun rm => rm.security)).isSome || pol.read then some (.arr [])
      else none) ∧
    ((makeResourceUpdate model pol opId meta).get "security" =
      if (meta.bind (fun rm => rm.security)).isSome || pol.update then some (.arr [])
      else none) ∧
    ((makeResourceDelete model pol meta).get "security" =
      if (meta.bind (fun rm => rm.security)).isSome || pol.delete then some (.arr [])
      else none) ∧
    ((makeRelationshipFetch mm model field pol meta).get "security" =
      if (meta.bind (fun rm => rm.security)).isSome || pol.read then some (.arr [])
      else none) ∧
    ((makeRelationshipCreate model field pol meta).get "security" =
      if (meta.bind (fun rm => rm.security)).isSome || pol.update then some (.arr [])
      else none) ∧
    ((makeRelationshipUpdate model field pol opId meta).get "security" =
      if (meta.bind (fun rm => rm.security)).isSome || pol.update then some (.arr [])
      else none) := by
  refine ⟨?_, ?_, ?_, ?_, ?_, ?_, ?_, ?_⟩ <;>
    first
    | (rw [show (makeResourceList mm model pol meta).get "security" =
          securityField meta pol.read from
          get_security_tail _ _ (by simp [keys]), securityField_spec meta pol.read hobj])
    | (rw [show (makeResourceCreate model pol meta).get "security" =
          securityField meta pol.create from
          get_security_tail _ _ (by simp [keys]), securityField_spec meta pol.create hobj])
    | (rw [show (makeResourceFetch model pol meta).get "security" =
          securityField meta pol.read from
          get_security_tail _ _ (by simp [keys]), securityField_spec meta pol.read hobj])
    | (rw [show (makeResourceUpdate model pol opId meta).get "security" =
          securityField meta pol.update from
          get_security_tail _ _ (by simp [keys]), securityField_spec meta pol.update hobj])
    | (rw [show (makeResourceDelete model pol meta).get "security" =
          securityField meta pol.delete from
          get_security_tail _ _ (by simp [keys]), securityField_spec meta pol.delete hobj])
    | (rw [show (makeRelationshipFetch mm model field pol meta).get "security" =
          securityField meta pol.read from
          get_security_tail _ _ (by simp [keys]), securityField_spec meta pol.read hobj])
    | (rw [show (makeRelationshipCreate model field pol meta).get "security" =
          securityField meta pol.update from
          get_security_tail _ _ (by simp [keys]), securityField_spec meta pol.update hobj])
    | (rw [show (makeRelationshipUpdate model field pol opId meta).get "security" =
          securityField meta pol.update from
          get_security_tail _ _ (by simp [keys]), securityField_spec meta pol.update hobj])

theorem operation_security_witness :
    ((makeResourceList exSingleIdZ exSingleIdModel ⟨false, false, false, false⟩
      (some ⟨none, some (.arr [])⟩)).get "security" = some (.arr [])) ∧
    ((makeResourceDelete exSingleIdModel ⟨false, false, false, false⟩ none).get
      "security" = none) ∧
    ((makeResourceCreate exSingleIdModel ⟨false, true, false, false⟩ none).get
      "security" = some (.arr [])) := by
  refine ⟨?_, ?_, ?_⟩
  · exact (operation_security_empty_or_absent exSingleIdZ exSingleIdModel exSingleIdF
      ⟨false, false, false, false⟩ (some ⟨none, some (.arr [])⟩) "x"
      (by intro v hv; cases hv; rfl)).1
  · exact (operation_security_empty_or_absent exSingleIdZ exSingleIdModel exSingleIdF
      ⟨false, false, false, false⟩ none "x" (by intro v hv; cases hv)).2.2.2.2.1
  · exact (operation_security_empty_or_absent exSingleIdZ exSingleIdModel exSingleIdF
      ⟨false, true, false, false⟩ none "x" (by intro v hv; cases hv)).2.1

/-! ## The shape of `generatePathsForModel`

Whenever the field-derived path keys are pairwise distinct, the imperative
container updates of the relationship loop amount to appending, per
relationship field, one related-data path item and one relationships path item
behind the two base path items. -/

def relatedPathOf (pfx mn : String) (f : ModelField) : String :=
  pfx ++ "/" ++ lowerCaseFirst mn ++ "/{id}/" ++ f.name

def relationshipPathOf (pfx mn : String) (f : ModelField) : String :=
  pfx ++ "/" ++ lowerCaseFirst mn ++ "/{id}/relationships/" ++ f.name

def fieldPathKeys (mm : ZModel) (pfx mn : String) (f : ModelField) : List String :=
  match refModel mm f.type with
  | none => []
  | some _ => [relatedPathOf pfx mn f, relationshipPathOf pfx mn f]

def fieldPathPairs (mm : ZModel) (pfx mn : String) (model : DataModel) (pol : Policies)
    (meta : Option ResourceMeta) (f : ModelField) : List (String × JVal) :=
  match refModel mm f.type with
  | none => []
  | some rel =>
    [(relatedPathOf pfx mn f, .obj [("get", makeRelatedFetch mm model f rel meta)]),
     (relationshipPathOf pfx mn f, .obj ([
       ("get", makeRelationshipFetch mm model f pol meta),
       ("put", makeRelationshipUpdate model f pol
         ("update-" ++ model.name ++ "-relationship-" ++ f.name ++ "-put") meta),
       ("patch", makeRelationshipUpdate model f pol
         ("update-" ++ model.name ++ "-relationship-" ++ f.name ++ "-patch") meta)] ++
       (if f.type.array then [("post", makeRelationshipCreate model f pol meta)] else [])))]

theorem keys_fieldPathPairs (mm : ZModel) (pfx mn : String) (model : DataModel)
    (pol : Policies) (meta : Option ResourceMeta) (f : ModelField) :
    keys (fieldPathPairs mm pfx mn model pol meta f) = fieldPathKeys mm pfx mn f := by
  unfold fieldPathPairs fieldPathKeys
  cases refModel mm f.type <;> rfl

theorem relatedPath_ne_relationshipPath_self (pfx mn : String) (f : ModelField) :
    relatedPathOf pfx mn f ≠ relationshipPathOf pfx mn f := by
  intro he
  have := congrArg String.length he
  simp only [relatedPathOf, relationshipPathOf, String.length_append] at this
  have h6 : ("/{id}/" : String).length = 6 := by decide
  have h20 : ("/{id}/relationships/" : String).length = 20 := by decide
  rw [h6, h20] at this
  omega

theorem relPathStep_eq (mm : ZModel) (pfx mn : String) (model : DataModel)
    (pol : Policies) (meta : Option ResourceMeta) (acc : List (String × JVal))
    (f : ModelField) (hfresh : ∀ k ∈ fieldPathKeys mm pfx mn f, k ∉ keys acc) :
    relPathStep mm pfx mn model pol meta acc f =
      acc ++ fieldPathPairs mm pfx mn model pol meta f := by
  unfold relPathStep fieldPathPairs
  cases hrm : refModel mm f.type with
  | none => simp
  | some rel =>
    have hrel : relatedPathOf pfx mn f ∉ keys acc := by
      apply hfresh
      unfold fieldPathKeys
      rw [hrm]
      simp
    have hrsp : relationshipPathOf pfx mn f ∉ keys acc := by
      apply hfresh
      unfold fieldPathKeys
      rw [hrm]
      simp
    have hne : relationshipPathOf pfx mn f ∉
        keys (acc ++ [(relatedPathOf pfx mn f, JVal.obj
          [("get", makeRelatedFetch mm model f rel meta)])]) := by
      simp only [keys, List.map_append, List.mem_append, List.map_cons, List.map_nil,
        List.mem_singleton, List.mem_cons, not_or]
      refine ⟨hrsp, ?_⟩
      exact ⟨fun h => relatedPath_ne_relationshipPath_self pfx mn f (Eq.symm h),
        List.not_mem_nil _⟩
    dsimp only
    rw [show relatedPathOf pfx mn f = pfx ++ "/" ++ lowerCaseFirst mn ++ "/{id}/" ++ f.name
      from rfl] at hrel
    rw [setOp_fresh _ hrel]
    rw [show pfx ++ "/" ++ lowerCaseFirst mn ++ "/{id}/relationships/" ++ f.name =
      relationshipPathOf pfx mn f from rfl]
    rw [show pfx ++ "/" ++ lowerCaseFirst mn ++ "/{id}/" ++ f.name =
      relatedPathOf pfx mn f from rfl]
    rw [setOp_fresh _ hne]
    rw [setOp_last _ _ hne, setOp_last _ _ hne]
    cases ha : f.type.array
    · simp only [Bool.false_eq_true, if_false]
      rw [List.append_assoc, List.append_nil]
      rfl
    · simp only [if_true]
      rw [setOp_last _ _ hne]
      rw [List.append_assoc]
      rfl

theorem foldl_relPathStep_eq (mm : ZModel) (pfx mn : String) (model : DataModel)
    (pol : Policies) (meta : Option ResourceMeta) :
    ∀ (fs : List ModelField) (acc : List (String × JVal)),
      (fs.flatMap (fieldPathKeys mm pfx mn)).Nodup →
      (∀ k ∈ fs.flatMap (fieldPathKeys mm pfx mn), k ∉ keys acc) →
      fs.foldl (relPathStep mm pfx mn model pol meta) acc =
        acc ++ fs.flatMap (fieldPathPairs mm pfx mn model pol meta) := by
  intro fs
  induction fs with
  | nil => intro acc _ _; simp
  | cons f fs ih =>
    intro acc hnd hfresh
    rw [List.foldl_cons]
    rw [relPathStep_eq mm pfx mn model pol meta acc f
      (fun k hk => hfresh k (by simp [List.flatMap_cons, hk]))]
    rw [ih (acc ++ fieldPathPairs mm pfx mn model pol meta f)
      (by
        rw [List.flatMap_cons] at hnd
        exact (List.nodup_append.mp hnd).2.1)
      (by
        intro k hk
        rw [List.flatMap_cons] at hnd hfresh
        simp only [keys, List.map_append, List.mem_append, not_or]
        constructor
        · exact hfresh k (List.mem_append.mpr (Or.inr hk))
        · rw [show List.map (fun kv => kv.1) (fieldPathPairs mm pfx mn model pol meta f) =
            keys (fieldPathPairs mm pfx mn model pol meta f) from rfl,
            keys_fieldPathPairs]
          exact fun hc => (List.disjoint_of_nodup_append hnd) hc hk)]
    rw [List.append_assoc, ← List.flatMap_cons]

/-- The two base path items of a model. -/
def basePathPairs (mm : ZModel) (opts : GenOptions) (model : DataModel) :
    List (String × JVal) :=
  let pol := model.policies
  let pfx := stripSlash opts.pfx
  let resourceMeta := model.resourceMeta
  let modelName := mapModelName opts model.name
  [(pfx ++ "/" ++ lowerCaseFirst modelName, .obj [
    ("get", makeResourceList mm model pol resourceMeta),
    ("post", makeResourceCreate model pol resourceMeta)]),
   (pfx ++ "/" ++ lowerCaseFirst modelName ++ "/{id}", .obj [
    ("get", makeResourceFetch model pol resourceMeta),
    ("put", makeResourceUpdate model pol ("update-" ++ modelName ++ "-put") resourceMeta),
    ("patch", makeResourceUpdate model pol ("update-" ++ modelName ++ "-patch") resourceMeta),
    ("delete", makeResourceDelete model pol resourceMeta)])]

/-- The keys of the two base path items. -/
def baseKeysOf (pfx mn : String) : List String :=
  [pfx ++ "/" ++ lowerCaseFirst mn, pfx ++ "/" ++ lowerCaseFirst mn ++ "/{id}"]

theorem keys_basePathPairs (mm : ZModel) (opts : GenOptions) (model : DataModel) :
    keys (basePathPairs mm opts model) =
      baseKeysOf (stripSlash opts.pfx) (mapModelName opts model.name) := rfl

/-- A field-derived path key is never one of the two base keys (it is strictly
longer, whatever the names involved). -/
theorem fieldKeys_not_base (mm : ZModel) (pfx mn : String) (f : ModelField) :
    ∀ k ∈ fieldPathKeys mm pfx mn f, k ∉ baseKeysOf pfx mn := by
  intro k hk
  unfold fieldPathKeys at hk
  rcases hrm : refModel mm f.type with _ | rel
  · rw [hrm] at hk; simp at hk
  · rw [hrm] at hk
    simp only [List.mem_cons, List.not_mem_nil, or_false] at hk
    intro hmem
    simp only [baseKeysOf, List.mem_cons, List.not_mem_nil, or_false] at hmem
    have h1 : ("/" : String).length = 1 := by decide
    have h5 : ("/{id}" : String).length = 5 := by decide
    have h6 : ("/{id}/" : String).length = 6 := by decide
    have h20 : ("/{id}/relationships/" : String).length = 20 := by decide
    rcases hk with hk | hk <;> rcases hmem with hmem | hmem <;>
      (rw [hk] at hmem
       have hl := congrArg String.length hmem
       simp only [relatedPathOf, relationshipPathOf, String.length_append,
         h1, h5, h6, h20] at hl
       omega)

/-- `generatePathsForModel` laid out as a flat association list, valid whenever
the field-derived path keys do not collide. -/
theorem generatePathsForModel_eq (mm : ZModel) (opts : GenOptions) (model : DataModel)
    (hnd : (model.fields.flatMap
      (fieldPathKeys mm (stripSlash opts.pfx) (mapModelName opts model.name))).Nodup) :
    generatePathsForModel mm opts model =
      basePathPairs mm opts model ++
      model.fields.flatMap (fieldPathPairs mm (stripSlash opts.pfx)
        (mapModelName opts model.name) model model.policies model.resourceMeta) := by
  show model.fields.foldl _ _ = _
  exact foldl_relPathStep_eq mm (stripSlash opts.pfx) (mapModelName opts model.name)
    model model.policies model.resourceMeta model.fields (basePathPairs mm opts model) hnd
    (by
      intro k hk
      rw [keys_basePathPairs]
      rcases List.mem_flatMap.mp hk with ⟨f, hf, hkf⟩
      exact fieldKeys_not_base mm (stripSlash opts.pfx) (mapModelName opts model.name) f k hkf)

theorem getK_append_left {a b : List (String × JVal)} {k : String} {v : JVal}
    (h : getK a k = some v) : getK (a ++ b) k = some v := by
  simp only [getK, List.find?_append] at h ⊢
  cases hf : a.find? (fun f => f.1 == k) with
  | none => rw [hf] at h; simp at h
  | some w => rw [hf] at h; simpa [Option.orElse] using h

theorem getK_flatMap_pairs (mm : ZModel) (pfx mn : String) (model : DataModel)
    (pol : Policies) (meta : Option ResourceMeta) :
    ∀ (fs : List ModelField) (f : ModelField) (k : String),
      f ∈ fs → k ∈ fieldPathKeys mm pfx mn f →
      (fs.flatMap (fieldPathKeys mm pfx mn)).Nodup →
      getK (fs.flatMap (fieldPathPairs mm pfx mn model pol meta)) k =
        getK (fieldPathPairs mm pfx mn model pol meta f) k := by
  intro fs
  induction fs with
  | nil => intro f k hf _ _; simp at hf
  | cons g gs ih =>
    intro f k hf hkf hnd
    rw [List.flatMap_cons] at hnd ⊢
    rcases List.mem_cons.mp hf with hfg | hftail
    · subst hfg
      have hks : k ∈ keys (fieldPathPairs mm pfx mn model pol meta f) := by
        rw [keys_fieldPathPairs]; exact hkf
      rcases Option.isSome_iff_exists.mp (getK_isSome_keys.mpr hks) with ⟨v, hv⟩
      rw [getK_append_left hv, hv]
    · have hdisj : k ∉ keys (fieldPathPairs mm pfx mn model pol meta g) := by
        rw [keys_fieldPathPairs]
        intro hc
        exact (List.disjoint_of_nodup_append hnd) hc
          (List.mem_flatMap.mpr ⟨f, hftail, hkf⟩)
      rw [getK_append_right hdisj]
      exact ih f k hftail hkf (List.nodup_append.mp hnd).2.1

/-- The relationships path item of a relationship field, extracted from the
generated paths. -/
theorem relationshipItem_of_field (mm : ZModel) (opts : GenOptions) (model : DataModel)
    (f : ModelField) (rel : DataModel) (hf : f ∈ model.fields)
    (hrm : refModel mm f.type = some rel)
    (hnd : (model.fields.flatMap
      (fieldPathKeys mm (stripSlash opts.pfx) (mapModelName opts model.name))).Nodup) :
    getK (generatePathsForModel mm opts model)
      (relationshipPathOf (stripSlash opts.pfx) (mapModelName opts model.name) f) =
      some (.obj ([
        ("get", makeRelationshipFetch mm model f model.policies model.resourceMeta),
        ("put", makeRelationshipUpdate model f model.policies
          ("update-" ++ model.name ++ "-relationship-" ++ f.name ++ "-put")
          model.resourceMeta),
        ("patch", makeRelationshipUpdate model f model.policies
          ("update-" ++ model.name ++ "-relationship-" ++ f.name ++ "-patch")
          model.resourceMeta)] ++
        (if f.type.array then
          [("post", makeRelationshipCreate model f model.policies model.resourceMeta)]
         else []))) := by
  set pfx := stripSlash opts.pfx
  set mn := mapModelName opts model.name
  have hk : relationshipPathOf pfx mn f ∈ fieldPathKeys mm pfx mn f := by
    unfold fieldPathKeys
    rw [hrm]
    simp
  rw [generatePathsForModel_eq mm opts model hnd,
    getK_append_right (by
      rw [keys_basePathPairs]
      intro hc
      exact fieldKeys_not_base mm pfx mn f _ hk hc),
    getK_flatMap_pairs mm pfx mn model model.policies model.resourceMeta
      model.fields f _ hf hk hnd]
  unfold fieldPathPairs
  rw [hrm]
  dsimp only
  rw [getK_cons_ne (relatedPath_ne_relationshipPath_self pfx mn f), getK_cons_self]

/-- The related-data path item of a relationship field, extracted from the
generated paths. -/
theorem relatedItem_of_field (mm : ZModel) (opts : GenOptions) (model : DataModel)
    (f : ModelField) (rel : DataModel) (hf : f ∈ model.fields)
    (hrm : refModel mm f.type = some rel)
    (hnd : (model.fields.flatMap
      (fieldPathKeys mm (stripSlash opts.pfx) (mapModelName opts model.name))).Nodup) :
    getK (generatePathsForModel mm opts model)
      (relatedPathOf (stripSlash opts.pfx) (mapModelName opts model.name) f) =
      some (.obj [("get", makeRelatedFetch mm model f rel model.resourceMeta)]) := by
  set pfx := stripSlash opts.pfx
  set mn := mapModelName opts model.name
  have hk : relatedPathOf pfx mn f ∈ fieldPathKeys mm pfx mn f := by
    unfold fieldPathKeys
    rw [hrm]
    simp
  rw [generatePathsForModel_eq mm opts model hnd,
    getK_append_right (by
      rw [keys_basePathPairs]
      intro hc
      exact fieldKeys_not_base mm pfx mn f _ hk hc),
    getK_flatMap_pairs mm pfx mn model model.policies model.resourceMeta
      model.fields f _ hf hk hnd]
  unfold fieldPathPairs
  rw [hrm]
  dsimp only
  rw [getK_cons_self]

/-! ## Claim C7 — POST on the relationships path iff array-valued -/

/-- C7: for every relationship field, the relationships path item carries GET,
PUT and PATCH, and carries POST exactly when the field is array-valued. -/
theorem relationship_post_iff_array (mm : ZModel) (opts : GenOptions) (model : DataModel)
    (f : ModelField) (rel : DataModel) (hf : f ∈ model.fields)
    (hrm : refModel mm f.type = some rel)
    (hnd : (model.fields.flatMap
      (fieldPathKeys mm (stripSlash opts.pfx) (mapModelName opts model.name))).Nodup) :
    ∃ ops : List (String × JVal),
      getK (generatePathsForModel mm opts model)
        (relationshipPathOf (stripSlash opts.pfx) (mapModelName opts model.name) f) =
        some (.obj ops) ∧
      (getK ops "get").isSome = true ∧
      (getK ops "put").isSome = true ∧
      (getK ops "patch").isSome = true ∧
      (getK ops "post").isSome = f.type.array := by
  refine ⟨_, relationshipItem_of_field mm opts model f rel hf hrm hnd, ?_, ?_, ?_, ?_⟩
  · rw [List.cons_append, getK_cons_self]; rfl
  · rw [List.cons_append, getK_cons_ne (by decide), List.cons_append, getK_cons_self]
    rfl
  · rw [List.cons_append, getK_cons_ne (by decide), List.cons_append,
      getK_cons_ne (by decide), List.cons_append, getK_cons_self]
    rfl
  · rw [List.cons_append, getK_cons_ne (by decide), List.cons_append,
      getK_cons_ne (by decide), List.cons_append, getK_cons_ne (by decide),
      List.nil_append]
    cases f.type.array
    · rfl
    · simp only [if_true]
      rw [getK_cons_self]
      rfl

/-! ## Claim C10 — related-fetch security: owning override, related read policy -/

/-- C10: the GET operation of the related-data path is `makeRelatedFetch`
called with the *owning* model's resource metadata and the *related* model's
policies, and its security is `[]` exactly when the owning override is present
or the related model's read policy is `true`, absent otherwise. -/
theorem related_fetch_security (mm : ZModel) (opts : GenOptions) (model : DataModel)
    (f : ModelField) (rel : DataModel) (hf : f ∈ model.fields)
    (hrm : refModel mm f.type = some rel)
    (hnd : (model.fields.flatMap
      (fieldPathKeys mm (stripSlash opts.pfx) (mapModelName opts model.name))).Nodup)
    (hobj : ∀ v, model.resourceMeta.bind (fun rm => rm.security) = some v →
      isJsObject v = true) :
    getK (generatePathsForModel mm opts model)
      (relatedPathOf (stripSlash opts.pfx) (mapModelName opts model.name) f) =
      some (.obj [("get", makeRelatedFetch mm model f rel model.resourceMeta)]) ∧
    (makeRelatedFetch mm model f rel model.resourceMeta).get "security" =
      (if (model.resourceMeta.bind (fun rm => rm.security)).isSome || rel.policies.read
       then some (.arr []) else none) := by
  refine ⟨relatedItem_of_field mm opts model f rel hf hrm hnd, ?_⟩
  rw [show (makeRelatedFetch mm model f rel model.resourceMeta).get "security" =
    securityField model.resourceMeta rel.policies.read from
    get_security_tail _ _ (by simp [keys])]
  exact securityField_spec model.resourceMeta rel.policies.read hobj

/-! Concrete fixtures with one to-many and one to-one relationship. -/

def exPostsF : ModelField := ⟨"posts", ⟨.ref "Post", true, false⟩, false, false, false⟩

def exAuthorF : ModelField := ⟨"author", ⟨.ref "User", false, true⟩, false, false, false⟩

def exUserRelM : DataModel :=
  ⟨"User",
   [⟨"id", ⟨.prim .string, false, false⟩, true, false, true⟩, exPostsF],
   ⟨false, false, false, false⟩, none⟩

def exPostRelM : DataModel :=
  ⟨"Post",
   [⟨"id", ⟨.prim .string, false, false⟩, true, false, false⟩, exAuthorF,
    ⟨"authorId", ⟨.prim .string, true, false⟩, false, true, false⟩],
   ⟨true, false, false, false⟩, none⟩

def exRelZ : ZModel := ⟨[], [exUserRelM, exPostRelM], []⟩

def exDefOpts : GenOptions := ⟨"", []⟩

theorem relationship_post_iff_array_witness :
    (∃ ops : List (String × JVal),
      getK (generatePathsForModel exRelZ exDefOpts exUserRelM)
        (relationshipPathOf "" "User" exPostsF) = some (.obj ops) ∧
      (getK ops "get").isSome = true ∧
      (getK ops "put").isSome = true ∧
      (getK ops "patch").isSome = true ∧
      (getK ops "post").isSome = true) ∧
    (∃ ops : List (String × JVal),
      getK (generatePathsForModel exRelZ exDefOpts exPostRelM)
        (relationshipPathOf "" "Post" exAuthorF) = some (.obj ops) ∧
      (getK ops "get").isSome = true ∧
      (getK ops "put").isSome = true ∧
      (getK ops "patch").isSome = true ∧
      (getK ops "post").isSome = false) := by
  constructor
  · exact relationship_post_iff_array exRelZ exDefOpts exUserRelM exPostsF exPostRelM
      (by decide) rfl (by decide)
  · exact relationship_post_iff_array exRelZ exDefOpts exPostRelM exAuthorF exUserRelM
      (by decide) rfl (by decide)

theorem related_fetch_security_witness :
    getK (generatePathsForModel exRelZ exDefOpts exUserRelM)
      (relatedPathOf "" "User" exPostsF) =
      some (.obj [("get", makeRelatedFetch exRelZ exUserRelM exPostsF exPostRelM none)]) ∧
    (makeRelatedFetch exRelZ exUserRelM exPostsF exPostRelM none).get "security" =
      some (.arr []) := by
  exact related_fetch_security exRelZ exDefOpts exUserRelM exPostsF exPostRelM
    (by decide) rfl (by decide) (by intro v hv; cases hv)

/-! ## Claim C1 — related-fetch filter parameters come from the owning model

`makeRelatedFetch` passes the *owning* model to `generateFilterParameters`
(`...this.generateFilterParameters(model)`), even though the operation returns
the related resources (`<Related>ListResponse`), sorts/paginates them, and
takes its security from the related model's policies.  The spec states the
filters are derived from the related entity; the code contradicts it. -/

def exOwnerM : DataModel :=
  ⟨"Wolf",
   [⟨"flag", ⟨.prim .boolean, false, false⟩, false, false, false⟩,
    ⟨"cubs", ⟨.ref "Cub", true, false⟩, false, false, false⟩],
   ⟨false, false, false, false⟩, none⟩

def exRelatedM : DataModel :=
  ⟨"Cub",
   [⟨"cflag", ⟨.prim .boolean, false, false⟩, false, false, false⟩],
   ⟨false, false, false, false⟩, none⟩

def exC1Z : ZModel := ⟨[], [exOwnerM, exRelatedM], []⟩

def exCubsF : ModelField := ⟨"cubs", ⟨.ref "Cub", true, false⟩, false, false, false⟩

/-- The named query parameters of an operation object. -/
def opParamNames (op : JVal) : List String :=
  match op.get "parameters" with
  | some (.arr ps) => paramNamesOf ps
  | _ => []

/-- C1: evaluated at `GET /wolf/{id}/cubs`, the operation's filter parameters
are the owning model's (`filter[flag]`, a `Wolf` field) and not the related
model's (`filter[cflag]`, the `Cub` field that its own filter-parameter list
does contain), while the success response is the related `CubListResponse`. -/
theorem fetch_related_filter_from_owner :
    ("filter[flag]" ∈
      opParamNames (makeRelatedFetch exC1Z exOwnerM exCubsF exRelatedM none)) ∧
    ("filter[cflag]" ∉
      opParamNames (makeRelatedFetch exC1Z exOwnerM exCubsF exRelatedM none)) ∧
    ("filter[cflag]" ∈ paramNamesOf (generateFilterParameters exC1Z exRelatedM)) ∧
    ((makeRelatedFetch exC1Z exOwnerM exCubsF exRelatedM none).get "responses").isSome
      = true := by
  refine ⟨?_, ?_, ?_, rfl⟩
  · decide
  · decide
  · decide

/-! ## Claim C9 — a DMMF model with no ZModel declaration is a warning -/

/-- The paths part of one `generatePaths` iteration. -/
def pathsStep (mm : ZModel) (opts : GenOptions) (included : List String)
    (acc : List (String × JVal)) (dn : String) : List (String × JVal) :=
  if dn ∈ included then
    match findZModelDecl mm dn with
    | some zm => mergeJS acc (generatePathsForModel mm opts zm)
    | none => acc
  else acc

/-- The warnings collected by `generatePaths`, in DMMF order. -/
def warningsOf (mm : ZModel) (included : List String) (dmmfNames : List String) :
    List String :=
  dmmfNames.flatMap (fun dn =>
    if dn ∈ included then
      match findZModelDecl mm dn with
      | some _ => []
      | none => [missingZModelWarning dn]
    else [])

theorem generatePaths_destruct (mm : ZModel) (opts : GenOptions)
    (included dmmfNames : List String) :
    generatePaths mm opts included dmmfNames =
      (dmmfNames.foldl (pathsStep mm opts included) [],
       warningsOf mm included dmmfNames) := by
  have h : ∀ (l : List String) (acc : List (String × JVal) × List String),
      l.foldl (fun acc dn =>
        if dn ∈ included then
          match findZModelDecl mm dn with
          | some zm => (mergeJS acc.1 (generatePathsForModel mm opts zm), acc.2)
          | none => (acc.1, acc.2 ++ [missingZModelWarning dn])
        else acc) acc =
      (l.foldl (pathsStep mm opts included) acc.1, acc.2 ++ warningsOf mm included l) := by
    intro l
    induction l with
    | nil => intro acc; simp [warningsOf]
    | cons dn l ih =>
      intro acc
      rw [List.foldl_cons, List.foldl_cons]
      by_cases hm : dn ∈ included
      · cases hfz : findZModelDecl mm dn with
        | some zm =>
          simp only [hm, if_true, hfz]
          rw [ih]
          unfold pathsStep warningsOf
          simp [hm, hfz]
        | none =>
          simp only [hm, if_true, hfz]
          rw [ih]
          unfold pathsStep warningsOf
          simp [hm, hfz]
      · simp only [hm, if_false]
        rw [ih]
        unfold pathsStep warningsOf
        simp [hm]
  exact (h dmmfNames ([], [])).trans (by simp)

/-- C9: a DMMF model name in the included set with no matching ZModel
declaration contributes a human-readable warning, contributes no paths, and
leaves the paths of all other models untouched. -/
theorem missing_zmodel_warning_thm (mm : ZModel) (opts : GenOptions)
    (included pre post : List String) (n : String)
    (hmem : n ∈ included) (hnone : findZModelDecl mm n = none) :
    (missingZModelWarning n ∈ (generatePaths mm opts included (pre ++ n :: post)).2) ∧
    ((generatePaths mm opts included (pre ++ n :: post)).1 =
      (generatePaths mm opts included (pre ++ post)).1) := by
  rw [generatePaths_destruct, generatePaths_destruct]
  constructor
  · show missingZModelWarning n ∈ warningsOf mm included (pre ++ n :: post)
    unfold warningsOf
    rw [List.flatMap_append, List.flatMap_cons]
    apply List.mem_append.mpr
    right
    apply List.mem_append.mpr
    left
    simp [hmem, hnone]
  · show (pre ++ n :: post).foldl (pathsStep mm opts included) [] =
      (pre ++ post).foldl (pathsStep mm opts included) []
    rw [List.foldl_append, List.foldl_append, List.foldl_cons]
    unfold pathsStep
    simp [hmem, hnone]

def exC9Z : ZModel := ⟨[], [exSingleIdModel], []⟩

/-! ## Claim C6 — global uniqueness of operation ids

The update operations at `/<entity>/{id}` use the *mapped* model name in their
operation ids (`update-${modelName}-put`), while every relationship operation
uses the raw model name (`update-${model.name}-relationship-${field.name}-put`).
A `modelNameMapping` entry containing dashes can therefore reproduce a
relationship operation id at a different path, so ids are not unique for every
configuration.  With the empty mapping (and dash-free identifiers, which ZModel
guarantees) uniqueness holds. -/

def exC6PostM : DataModel :=
  ⟨"Post",
   [⟨"id", ⟨.prim .string, false, false⟩, true, false, false⟩,
    ⟨"author", ⟨.ref "Post", false, true⟩, false, false, false⟩],
   ⟨false, false, false, false⟩, none⟩

def exC6OtherM : DataModel :=
  ⟨"Other",
   [⟨"id", ⟨.prim .string, false, false⟩, true, false, false⟩],
   ⟨false, false, false, false⟩, none⟩

def exC6Z : ZModel := ⟨[], [exC6PostM, exC6OtherM], []⟩

def exC6Opts : GenOptions := ⟨"", [("Other", "Post-relationship-author")]⟩

/-- C6, counterexample: with `modelNameMapping = \x7bOther: 'Post-relationship-author'\x7d`,
the final document carries the operation id `update-Post-relationship-author-put`
twice — once at `/post/\x7bid\x7d/relationships/author` (from `Post`) and once at
`/post-relationship-author/\x7bid\x7d` (from the mapped `Other`). -/
theorem operation_ids_duplicate_with_mapping :
    ((docOpIds (generatePaths exC6Z exC6Opts ["Post", "Other"] ["Post", "Other"]).1).count
      "update-Post-relationship-author-put" = 2) ∧
    ¬ (docOpIds (generatePaths exC6Z exC6Opts ["Post", "Other"] ["Post", "Other"]).1).Nodup := by
  constructor
  · rfl
  · intro hnd
    have := List.nodup_iff_count_le_one.mp hnd "update-Post-relationship-author-put"
    rw [show (docOpIds (generatePaths exC6Z exC6Opts ["Post", "Other"]
      ["Post", "Other"]).1).count "update-Post-relationship-author-put" = 2 from rfl] at this
    omega

/-- Splitting at an excluded separator is injective. -/
theorem sep_inj_list (x : Char) : ∀ (a c b d : List Char), x ∉ a → x ∉ c →
    a ++ x :: b = c ++ x :: d → a = c ∧ b = d := by
  intro a
  induction a with
  | nil =>
    intro c b d _ hc h
    cases c with
    | nil => simpa using h
    | cons y ys =>
      rw [List.nil_append, List.cons_append] at h
      obtain ⟨hxy, _⟩ := List.cons.injEq .. ▸ h
      exact absurd (hxy ▸ List.mem_cons_self y ys) hc
  | cons y ys ih =>
    intro c b d ha hc h
    cases c with
    | nil =>
      rw [List.nil_append, List.cons_append] at h
      obtain ⟨hxy, _⟩ := List.cons.injEq .. ▸ h
      exact absurd (hxy ▸ List.mem_cons_self y ys) ha
    | cons z zs =>
      rw [List.cons_append, List.cons_append] at h
      obtain ⟨hyz, htl⟩ := List.cons.injEq .. ▸ h
      obtain ⟨h1, h2⟩ := ih zs b d (fun hm => ha (List.mem_cons_of_mem y hm))
        (fun hm => hc (hyz ▸ List.mem_cons_of_mem z hm)) htl
      exact ⟨by rw [hyz, h1], h2⟩

/-- The eleven operation-id shapes produced by the generator. -/
inductive OpKey where
  | list (m : String)
  | create (m : String)
  | fetch (m : String)
  | updPut (m : String)
  | updPatch (m : String)
  | del (m : String)
  | fetchRelated (m f : String)
  | fetchRel (m f : String)
  | updRelPut (m f : String)
  | updRelPatch (m f : String)
  | createRel (m f : String)
deriving DecidableEq

/-- The operation-id string of a key, with exactly the source's concatenation. -/
def encodeOp : OpKey → String
  | .list m => "list-" ++ m
  | .create m => "create-" ++ m
  | .fetch m => "fetch-" ++ m
  | .updPut m => "update-" ++ m ++ "-put"
  | .updPatch m => "update-" ++ m ++ "-patch"
  | .del m => "delete-" ++ m
  | .fetchRelated m f => "fetch-" ++ m ++ "-related-" ++ f
  | .fetchRel m f => "fetch-" ++ m ++ "-relationship-" ++ f
  | .updRelPut m f => "update-" ++ m ++ "-relationship-" ++ f ++ "-put"
  | .updRelPatch m f => "update-" ++ m ++ "-relationship-" ++ f ++ "-patch"
  | .createRel m f => "create-" ++ m ++ "-relationship-" ++ f

/-- The dash-separated segments of an operation id. -/
def encSegs : OpKey → List (List Char)
  | .list m => ["list".data, m.data]
  | .create m => ["create".data, m.data]
  | .fetch m => ["fetch".data, m.data]
  | .updPut m => ["update".data, m.data, "put".data]
  | .updPatch m => ["update".data, m.data, "patch".data]
  | .del m => ["delete".data, m.data]
  | .fetchRelated m f => ["fetch".data, m.data, "related".data, f.data]
  | .fetchRel m f => ["fetch".data, m.data, "relationship".data, f.data]
  | .updRelPut m f => ["update".data, m.data, "relationship".data, f.data, "put".data]
  | .updRelPatch m f => ["update".data, m.data, "relationship".data, f.data, "patch".data]
  | .createRel m f => ["create".data, m.data, "relationship".data, f.data]

def joinDash : List (List Char) → List Char
  | [] => []
  | [s] => s
  | s :: rest => s ++ '-' :: joinDash rest

/-- Recover the key from its segments. -/
def decodeSegs : List (List Char) → Option OpKey
  | [v, m] =>
    if v = "list".data then some (.list (String.mk m))
    else if v = "create".data then some (.create (String.mk m))
    else if v = "fetch".data then some (.fetch (String.mk m))
    else if v = "delete".data then some (.del (String.mk m))
    else none
  | [v, m, p] =>
    if v = "update".data ∧ p = "put".data then some (.updPut (String.mk m))
    else if v = "update".data ∧ p = "patch".data then some (.updPatch (String.mk m))
    else none
  | [v, m, r, f] =>
    if v = "fetch".data ∧ r = "related".data then
      some (.fetchRelated (String.mk m) (String.mk f))
    else if v = "fetch".data ∧ r = "relationship".data then
      some (.fetchRel (String.mk m) (String.mk f))
    else if v = "create".data ∧ r = "relationship".data then
      some (.createRel (String.mk m) (String.mk f))
    else none
  | [v, m, r, f, p] =>
    if v = "update".data ∧ r = "relationship".data ∧ p = "put".data then
      some (.updRelPut (String.mk m) (String.mk f))
    else if v = "update".data ∧ r = "relationship".data ∧ p = "patch".data then
      some (.updRelPatch (String.mk m) (String.mk f))
    else none
  | _ => none

theorem decode_enc (k : OpKey) : decodeSegs (encSegs k) = some k := by
  cases k <;> rfl

theorem encodeOp_data (k : OpKey) : (encodeOp k).data = joinDash (encSegs k) := by
  cases k <;>
    simp [encodeOp, encSegs, joinDash, String.data_append, List.append_assoc]

/-- Dash-free name components of a key. -/
def goodKey : OpKey → Prop
  | .list m => '-' ∉ m.data
  | .create m => '-' ∉ m.data
  | .fetch m => '-' ∉ m.data
  | .updPut m => '-' ∉ m.data
  | .updPatch m => '-' ∉ m.data
  | .del m => '-' ∉ m.data
  | .fetchRelated m f => '-' ∉ m.data ∧ '-' ∉ f.data
  | .fetchRel m f => '-' ∉ m.data ∧ '-' ∉ f.data
  | .updRelPut m f => '-' ∉ m.data ∧ '-' ∉ f.data
  | .updRelPatch m f => '-' ∉ m.data ∧ '-' ∉ f.data
  | .createRel m f => '-' ∉ m.data ∧ '-' ∉ f.data

theorem segs_dashfree (k : OpKey) (hk : goodKey k) :
    ∀ s ∈ encSegs k, '-' ∉ s := by
  cases k <;>
    (simp only [encSegs, goodKey, List.mem_cons, List.not_mem_nil, or_false] at hk ⊢
     intro s hs
     first
     | (rcases hs with h | h | h <;> first | (subst h; decide) | (subst h; exact hk))
     | (rcases hs with h | h | h | h <;>
        first | (subst h; decide) | (subst h; exact hk.1) | (subst h; exact hk.2))
     | (rcases hs with h | h | h | h | h <;>
        first | (subst h; decide) | (subst h; exact hk.1) | (subst h; exact hk.2))
     | (rcases hs with h | h <;> first | (subst h; decide) | (subst h; exact hk)))

theorem encSegs_ne_nil (k : OpKey) : encSegs k ≠ [] := by
  cases k <;> simp [encSegs]

theorem joinDash_inj : ∀ (ss ts : List (List Char)), ss ≠ [] → ts ≠ [] →
    (∀ s ∈ ss, '-' ∉ s) → (∀ t ∈ ts, '-' ∉ t) →
    joinDash ss = joinDash ts → ss = ts := by
  intro ss
  induction ss with
  | nil => intro ts hss; exact absurd rfl hss
  | cons s ss ih =>
    intro ts _ hts hgs hgt h
    cases ts with
    | nil => exact absurd rfl hts
    | cons t ts =>
      cases ss with
      | nil =>
        cases ts with
        | nil =>
          rw [show joinDash [s] = s from rfl, show joinDash [t] = t from rfl] at h
          rw [h]
        | cons t' ts' =>
          exfalso
          rw [show joinDash [s] = s from rfl,
            show joinDash (t :: t' :: ts') = t ++ '-' :: joinDash (t' :: ts') from rfl] at h
          exact (hgs s (by simp)) (h ▸ (by simp : '-' ∈ t ++ '-' :: joinDash (t' :: ts')))
      | cons s' ss' =>
        cases ts with
        | nil =>
          exfalso
          rw [show joinDash [t] = t from rfl,
            show joinDash (s :: s' :: ss') = s ++ '-' :: joinDash (s' :: ss') from rfl] at h
          exact (hgt t (by simp))
            (h ▸ (by simp : '-' ∈ s ++ '-' :: joinDash (s' :: ss')))
        | cons t' ts' =>
          rw [show joinDash (s :: s' :: ss') = s ++ '-' :: joinDash (s' :: ss') from rfl,
            show joinDash (t :: t' :: ts') = t ++ '-' :: joinDash (t' :: ts') from rfl] at h
          obtain ⟨h1, h2⟩ := sep_inj_list '-' s t _ _ (hgs s (by simp)) (hgt t (by simp)) h
          have := ih (t' :: ts') (by simp) (by simp)
            (fun x hx => hgs x (List.mem_cons_of_mem s hx))
            (fun x hx => hgt x (List.mem_cons_of_mem t hx)) h2
          rw [h1, this]

theorem encodeOp_inj (k₁ k₂ : OpKey) (h₁ : goodKey k₁) (h₂ : goodKey k₂)
    (he : encodeOp k₁ = encodeOp k₂) : k₁ = k₂ := by
  have hd : joinDash (encSegs k₁) = joinDash (encSegs k₂) := by
    rw [← encodeOp_data, ← encodeOp_data, he]
  have hs := joinDash_inj (encSegs k₁) (encSegs k₂) (encSegs_ne_nil k₁) (encSegs_ne_nil k₂)
    (segs_dashfree k₁ h₁) (segs_dashfree k₂ h₂) hd
  have hdec := congrArg decodeSegs hs
  rw [decode_enc, decode_enc] at hdec
  exact Option.some.inj hdec

/-- The operation-id keys contributed by one relationship field. -/
def fieldOpKeys (mm : ZModel) (m : DataModel) (f : ModelField) : List OpKey :=
  match refModel mm f.type with
  | none => []
  | some _ =>
    [.fetchRelated m.name f.name, .fetchRel m.name f.name, .updRelPut m.name f.name,
     .updRelPatch m.name f.name] ++
    (if f.type.array then [.createRel m.name f.name] else [])

/-- All operation-id keys of one model (with the empty name mapping). -/
def modelOpKeys (mm : ZModel) (m : DataModel) : List OpKey :=
  [.list m.name, .create m.name, .fetch m.name, .updPut m.name, .updPatch m.name,
   .del m.name] ++
  m.fields.flatMap (fieldOpKeys mm m)

def keyModelName : OpKey → String
  | .list m => m
  | .create m => m
  | .fetch m => m
  | .updPut m => m
  | .updPatch m => m
  | .del m => m
  | .fetchRelated m _ => m
  | .fetchRel m _ => m
  | .updRelPut m _ => m
  | .updRelPatch m _ => m
  | .createRel m _ => m

def keyIsRel : OpKey → Bool
  | .fetchRelated .. => true
  | .fetchRel .. => true
  | .updRelPut .. => true
  | .updRelPatch .. => true
  | .createRel .. => true
  | _ => false

def keyFieldName : OpKey → String
  | .fetchRelated _ f => f
  | .fetchRel _ f => f
  | .updRelPut _ f => f
  | .updRelPatch _ f => f
  | .createRel _ f => f
  | _ => ""

theorem mem_fieldOpKeys (mm : ZModel) (m : DataModel) (f : ModelField) (k : OpKey)
    (hk : k ∈ fieldOpKeys mm m f) :
    keyIsRel k = true ∧ keyFieldName k = f.name ∧ keyModelName k = m.name := by
  unfold fieldOpKeys at hk
  rcases hrm : refModel mm f.type with _ | rel
  · rw [hrm] at hk; simp at hk
  · rw [hrm] at hk
    rcases List.mem_append.mp hk with h | h
    · simp only [List.mem_cons, List.not_mem_nil, or_false] at h
      rcases h with h | h | h | h <;> (subst h; exact ⟨rfl, rfl, rfl⟩)
    · by_cases ha : f.type.array
      · rw [ha] at h
        simp only [if_true, List.mem_singleton] at h
        subst h; exact ⟨rfl, rfl, rfl⟩
      · rw [Bool.not_eq_true] at ha
        rw [ha] at h
        simp at h

theorem mem_modelOpKeys (mm : ZModel) (m : DataModel) (k : OpKey)
    (hk : k ∈ modelOpKeys mm m) : keyModelName k = m.name := by
  unfold modelOpKeys at hk
  rcases List.mem_append.mp hk with h | h
  · simp only [List.mem_cons, List.not_mem_nil, or_false] at h
    rcases h with h | h | h | h | h | h <;> (subst h; rfl)
  · rcases List.mem_flatMap.mp h with ⟨f, hf, hkf⟩
    exact (mem_fieldOpKeys mm m f k hkf).2.2

theorem nodup_fieldOpKeys (mm : ZModel) (m : DataModel) (f : ModelField) :
    (fieldOpKeys mm m f).Nodup := by
  unfold fieldOpKeys
  rcases refModel mm f.type with _ | rel
  · simp
  · rcases f.type.array <;> simp

theorem nodup_flatMap_fieldOpKeys (mm : ZModel) (m : DataModel) :
    ∀ (fs : List ModelField), (fs.map (fun f => f.name)).Nodup →
      (fs.flatMap (fieldOpKeys mm m)).Nodup := by
  intro fs
  induction fs with
  | nil => intro _; simp
  | cons f fs ih =>
    intro hnm
    rw [List.map_cons, List.nodup_cons] at hnm
    rw [List.flatMap_cons]
    refine (nodup_fieldOpKeys mm m f).append (ih hnm.2) ?_
    intro k hk1 hk2
    rcases List.mem_flatMap.mp hk2 with ⟨g, hg, hkg⟩
    have h1 := (mem_fieldOpKeys mm m f k hk1).2.1
    have h2 := (mem_fieldOpKeys mm m g k hkg).2.1
    exact hnm.1 (List.mem_map.mpr ⟨g, hg, by rw [← h2, h1]⟩)

theorem nodup_modelOpKeys (mm : ZModel) (m : DataModel)
    (hf : (m.fields.map (fun f => f.name)).Nodup) : (modelOpKeys mm m).Nodup := by
  unfold modelOpKeys
  refine List.Nodup.append (by simp) (nodup_flatMap_fieldOpKeys mm m m.fields hf) ?_
  intro k hk1 hk2
  rcases List.mem_flatMap.mp hk2 with ⟨g, hg, hkg⟩
  have h2 := (mem_fieldOpKeys mm m g k hkg).1
  simp only [List.mem_cons, List.not_mem_nil, or_false] at hk1
  rcases hk1 with h | h | h | h | h | h <;> (subst h; simp [keyIsRel] at h2)

theorem nodup_allOpKeys (mm : ZModel) :
    ∀ (models : List DataModel), ((models.map (fun m => m.name)).Nodup) →
      (∀ m ∈ models, (m.fields.map (fun f => f.name)).Nodup) →
      (models.flatMap (modelOpKeys mm)).Nodup := by
  intro models
  induction models with
  | nil => intro _ _; simp
  | cons m ms ih =>
    intro hnm hff
    rw [List.map_cons, List.nodup_cons] at hnm
    rw [List.flatMap_cons]
    refine (nodup_modelOpKeys mm m (hff m (by simp))).append
      (ih hnm.2 (fun x hx => hff x (by simp [hx]))) ?_
    intro k hk1 hk2
    rcases List.mem_flatMap.mp hk2 with ⟨m', hm', hkm'⟩
    have h1 := mem_modelOpKeys mm m k hk1
    have h2 := mem_modelOpKeys mm m' k hkm'
    exact hnm.1 (List.mem_map.mpr ⟨m', hm', by rw [← h2, h1]⟩)

theorem goodKey_of_mem (mm : ZModel) (m : DataModel) (k : OpKey)
    (hm : '-' ∉ m.name.data) (hfs : ∀ f ∈ m.fields, '-' ∉ f.name.data)
    (hk : k ∈ modelOpKeys mm m) : goodKey k := by
  unfold modelOpKeys at hk
  rcases List.mem_append.mp hk with h | h
  · simp only [List.mem_cons, List.not_mem_nil, or_false] at h
    rcases h with h | h | h | h | h | h <;> (subst h; exact hm)
  · rcases List.mem_flatMap.mp h with ⟨f, hf, hkf⟩
    have hfn := hfs f hf
    unfold fieldOpKeys at hkf
    rcases hrm : refModel mm f.type with _ | rel
    · rw [hrm] at hkf; simp at hkf
    · rw [hrm] at hkf
      rcases List.mem_append.mp hkf with h | h
      · simp only [List.mem_cons, List.not_mem_nil, or_false] at h
        rcases h with h | h | h | h <;> (subst h; exact ⟨hm, hfn⟩)
      · by_cases ha : f.type.array
        · rw [ha] at h
          simp only [if_true, List.mem_singleton] at h
          subst h; exact ⟨hm, hfn⟩
        · rw [Bool.not_eq_true] at ha
          rw [ha] at h
          simp at h

theorem docOpIds_append (a b : List (String × JVal)) :
    docOpIds (a ++ b) = docOpIds a ++ docOpIds b := by
  simp [docOpIds]

theorem docOpIds_flatMap {α : Type} (l : List α) (g : α → List (String × JVal)) :
    docOpIds (l.flatMap g) = l.flatMap (fun a => docOpIds (g a)) := by
  induction l with
  | nil => rfl
  | cons a l ih => simp only [List.flatMap_cons, docOpIds_append, ih]

theorem mapModelName_nil (opts : GenOptions) (hmap : opts.modelNameMapping = [])
    (n : String) : mapModelName opts n = n := by
  unfold mapModelName
  rw [hmap]
  rfl

theorem docOpIds_fieldPairs (mm : ZModel) (pfx mn : String) (m : DataModel)
    (pol : Policies) (meta : Option ResourceMeta) (f : ModelField) :
    docOpIds (fieldPathPairs mm pfx mn m pol meta f) =
      (fieldOpKeys mm m f).map encodeOp := by
  unfold fieldPathPairs fieldOpKeys
  rcases hrm : refModel mm f.type with _ | rel
  · rfl
  · by_cases ha : f.type.array
    · rw [ha]
      rfl
    · rw [Bool.not_eq_true] at ha
      rw [ha]
      rfl

theorem docOpIds_modelPairs (mm : ZModel) (opts : GenOptions) (m : DataModel)
    (hmap : opts.modelNameMapping = []) :
    docOpIds (basePathPairs mm opts m ++
      m.fields.flatMap (fieldPathPairs mm (stripSlash opts.pfx)
        (mapModelName opts m.name) m m.policies m.resourceMeta)) =
      (modelOpKeys mm m).map encodeOp := by
  rw [docOpIds_append, docOpIds_flatMap]
  unfold modelOpKeys
  rw [List.map_append]
  congr 1
  · show ["list-" ++ m.name, "create-" ++ m.name, "fetch-" ++ m.name,
      "update-" ++ mapModelName opts m.name ++ "-put",
      "update-" ++ mapModelName opts m.name ++ "-patch",
      "delete-" ++ m.name] = _
    rw [mapModelName_nil opts hmap]
    rfl
  · rw [List.map_flatMap]
    apply List.flatMap_congr
    intro f _
    exact docOpIds_fieldPairs mm (stripSlash opts.pfx) (mapModelName opts m.name)
      m m.policies m.resourceMeta f

/-- The included, resolvable DMMF models, in DMMF order. -/
def includedModelsOf (mm : ZModel) (included dmmf : List String) : List DataModel :=
  dmmf.flatMap (fun dn =>
    if dn ∈ included then
      match findZModelDecl mm dn with
      | some m => [m]
      | none => []
    else [])

/-- All path keys of one model. -/
def modelPathKeys (mm : ZModel) (opts : GenOptions) (m : DataModel) : List String :=
  baseKeysOf (stripSlash opts.pfx) (mapModelName opts m.name) ++
  m.fields.flatMap (fieldPathKeys mm (stripSlash opts.pfx) (mapModelName opts m.name))

/-- The flat association list of one model's path items. -/
def modelPathPairs (mm : ZModel) (opts : GenOptions) (m : DataModel) :
    List (String × JVal) :=
  basePathPairs mm opts m ++
  m.fields.flatMap (fieldPathPairs mm (stripSlash opts.pfx)
    (mapModelName opts m.name) m m.policies m.resourceMeta)

theorem keys_modelPathPairs (mm : ZModel) (opts : GenOptions) (m : DataModel) :
    keys (modelPathPairs mm opts m) = modelPathKeys mm opts m := by
  unfold modelPathPairs modelPathKeys keys
  rw [List.map_append]
  congr 1
  rw [List.map_flatMap]
  apply List.flatMap_congr
  intro f _
  exact keys_fieldPathPairs mm (stripSlash opts.pfx) (mapModelName opts m.name)
    m m.policies m.resourceMeta f

theorem generatePaths_flat (mm : ZModel) (opts : GenOptions) (included dmmf : List String)
    (hnd : ((includedModelsOf mm included dmmf).flatMap (modelPathKeys mm opts)).Nodup) :
    (generatePaths mm opts included dmmf).1 =
      (includedModelsOf mm included dmmf).flatMap (modelPathPairs mm opts) := by
  rw [generatePaths_destruct]
  show dmmf.foldl (pathsStep mm opts included) [] = _
  have h : ∀ (l : List String) (acc : List (String × JVal)),
      (keys acc ++ (includedModelsOf mm included l).flatMap (modelPathKeys mm opts)).Nodup →
      l.foldl (pathsStep mm opts included) acc =
        acc ++ (includedModelsOf mm included l).flatMap (modelPathPairs mm opts) := by
    intro l
    induction l with
    | nil => intro acc _; simp [includedModelsOf]
    | cons dn l ih =>
      intro acc hacc
      rw [List.foldl_cons]
      by_cases hm : dn ∈ included
      · cases hfz : findZModelDecl mm dn with
        | none =>
          have hstep : pathsStep mm opts included acc dn = acc := by
            unfold pathsStep
            simp [hm, hfz]
          have hinc : includedModelsOf mm included (dn :: l) =
              includedModelsOf mm included l := by
            unfold includedModelsOf
            rw [List.flatMap_cons]
            simp [hm, hfz]
          rw [hstep, hinc]
          rw [hinc] at hacc
          exact ih acc hacc
        | some zm =>
          have hinc : includedModelsOf mm included (dn :: l) =
              zm :: includedModelsOf mm included l := by
            unfold includedModelsOf
            rw [List.flatMap_cons]
            simp [hm, hfz]
          rw [hinc] at hacc
          rw [List.flatMap_cons] at hacc
          have hacc2 : (keys acc ++ (modelPathKeys mm opts zm ++
              (includedModelsOf mm included l).flatMap (modelPathKeys mm opts))).Nodup :=
            hacc
          have hmerge : (keys acc ++ keys (modelPathPairs mm opts zm)).Nodup := by
            rw [keys_modelPathPairs]
            refine hacc2.sublist ?_
            rw [← List.append_assoc]
            exact List.sublist_append_left _ _
          have hfieldnd : (zm.fields.flatMap (fieldPathKeys mm (stripSlash opts.pfx)
              (mapModelName opts zm.name))).Nodup := by
            have h1 : (modelPathKeys mm opts zm).Nodup :=
              (hacc2.of_append_right).of_append_left
            exact h1.of_append_right
          have hstep : pathsStep mm opts included acc dn =
              acc ++ modelPathPairs mm opts zm := by
            unfold pathsStep
            simp only [hm, if_true, hfz]
            rw [generatePathsForModel_eq mm opts zm hfieldnd]
            exact mergeJS_append hmerge
          rw [hstep, hinc]
          rw [List.flatMap_cons, ← List.append_assoc]
          apply ih
          rw [show keys (acc ++ modelPathPairs mm opts zm) =
            keys acc ++ keys (modelPathPairs mm opts zm) from by simp [keys],
            keys_modelPathPairs, List.append_assoc]
          exact hacc2
      · have hstep : pathsStep mm opts included acc dn = acc := by
          unfold pathsStep
          simp [hm]
        have hinc : includedModelsOf mm included (dn :: l) =
            includedModelsOf mm included l := by
          unfold includedModelsOf
          rw [List.flatMap_cons]
          simp [hm]
        rw [hstep, hinc]
        rw [hinc] at hacc
        exact ih acc hacc
  have := h dmmf []
  rw [show keys ([] : List (String × JVal)) = [] from rfl, List.nil_append] at this
  simpa using this hnd

/-- C6, amended: with the empty `modelNameMapping`, dash-free model and field
names (ZModel identifiers), pairwise-distinct model names and per-model
pairwise-distinct field names, and non-colliding path keys, all `operationId`
values of the generated document are pairwise distinct. -/
theorem operation_ids_nodup (mm : ZModel) (opts : GenOptions) (included dmmf : List String)
    (hmap : opts.modelNameMapping = [])
    (hpaths : ((includedModelsOf mm included dmmf).flatMap (modelPathKeys mm opts)).Nodup)
    (hnames : ((includedModelsOf mm included dmmf).map (fun m => m.name)).Nodup)
    (hfields : ∀ m ∈ includedModelsOf mm included dmmf,
      (m.fields.map (fun f => f.name)).Nodup)
    (hdash : ∀ m ∈ includedModelsOf mm included dmmf,
      '-' ∉ m.name.data ∧ ∀ f ∈ m.fields, '-' ∉ f.name.data) :
    (docOpIds (generatePaths mm opts included dmmf).1).Nodup := by
  rw [generatePaths_flat mm opts included dmmf hpaths, docOpIds_flatMap]
  have heq : (includedModelsOf mm included dmmf).flatMap
      (fun m => docOpIds (modelPathPairs mm opts m)) =
      ((includedModelsOf mm included dmmf).flatMap (modelOpKeys mm)).map encodeOp := by
    rw [List.map_flatMap]
    apply List.flatMap_congr
    intro m _
    exact docOpIds_modelPairs mm opts m hmap
  rw [heq]
  apply List.Nodup.map_on
  · intro k₁ hk₁ k₂ hk₂ he
    rcases List.mem_flatMap.mp hk₁ with ⟨m₁, hm₁, hkm₁⟩
    rcases List.mem_flatMap.mp hk₂ with ⟨m₂, hm₂, hkm₂⟩
    exact encodeOp_inj k₁ k₂
      (goodKey_of_mem mm m₁ k₁ (hdash m₁ hm₁).1 (hdash m₁ hm₁).2 hkm₁)
      (goodKey_of_mem mm m₂ k₂ (hdash m₂ hm₂).1 (hdash m₂ hm₂).2 hkm₂) he
  · exact nodup_allOpKeys mm (includedModelsOf mm included dmmf) hnames hfields

theorem operation_ids_nodup_witness :
    (docOpIds (generatePaths exRelZ exDefOpts ["User", "Post"] ["User", "Post"]).1).Nodup := by
  exact operation_ids_nodup exRelZ exDefOpts ["User", "Post"] ["User", "Post"]
    rfl (by decide) (by decide) (by decide) (by decide)

/-! ## Claim C4 — pruning invariants

Abstract theory of the spec-modelled reachability traversal: the bounded
iteration `reach` is a true fixpoint (every fuel level is contained in
`comps.length + 1` iterations), pruning keeps exactly the reachable
components, and pruning is idempotent. -/

theorem reachN_succ (C : List (String × JVal)) (R : List String) (n : Nat) :
    reachN C R (n + 1) =
      R ++ C.flatMap (fun c => if schemaKey c.1 ∈ reachN C R n then refsOfJ c.2 else []) :=
  rfl

theorem mem_reachN_succ {C : List (String × JVal)} {R : List String} {n : Nat}
    {s : String} :
    s ∈ reachN C R (n + 1) ↔
      s ∈ R ∨ ∃ c ∈ C, schemaKey c.1 ∈ reachN C R n ∧ s ∈ refsOfJ c.2 := by
  rw [reachN_succ, List.mem_append, List.mem_flatMap]
  constructor
  · rintro (h | ⟨c, hc, hs⟩)
    · exact Or.inl h
    · by_cases hcond : schemaKey c.1 ∈ reachN C R n
      · rw [if_pos hcond] at hs
        exact Or.inr ⟨c, hc, hcond, hs⟩
      · rw [if_neg hcond] at hs
        simp at hs
  · rintro (h | ⟨c, hc, hcond, hs⟩)
    · exact Or.inl h
    · exact Or.inr ⟨c, hc, by rw [if_pos hcond]; exact hs⟩

theorem reachN_mono_succ (C : List (String × JVal)) (R : List String) :
    ∀ n, ∀ s ∈ reachN C R n, s ∈ reachN C R (n + 1) := by
  intro n
  induction n with
  | zero =>
    intro s hs
    exact mem_reachN_succ.mpr (Or.inl hs)
  | succ n ih =>
    intro s hs
    rcases mem_reachN_succ.mp hs with h | ⟨c, hc, hcond, hsr⟩
    · exact mem_reachN_succ.mpr (Or.inl h)
    · exact mem_reachN_succ.mpr (Or.inr ⟨c, hc, ih _ hcond, hsr⟩)

theorem reachN_mono (C : List (String × JVal)) (R : List String) {n m : Nat}
    (h : n ≤ m) : ∀ s ∈ reachN C R n, s ∈ reachN C R m := by
  induction m with
  | zero =>
    intro s hs
    rw [Nat.le_zero.mp h] at hs
    exact hs
  | succ m ih =>
    rcases Nat.lt_or_ge n (m + 1) with hlt | hge
    · intro s hs
      exact reachN_mono_succ C R m s (ih (Nat.lt_succ_iff.mp hlt) s hs)
    · intro s hs
      rw [Nat.le_antisymm h hge] at hs
      exact hs

theorem filter_sublist_mono {α : Type} (l : List α) (p q : α → Bool)
    (h : ∀ a ∈ l, p a = true → q a = true) :
    List.Sublist (l.filter p) (l.filter q) := by
  induction l with
  | nil => simp
  | cons a l ih =>
    have ih' := ih (fun x hx => h x (by simp [hx]))
    by_cases hp : p a
    · rw [List.filter_cons_of_pos hp, List.filter_cons_of_pos (h a (by simp) hp)]
      exact List.Sublist.cons₂ a ih'
    · rw [List.filter_cons_of_neg hp]
      by_cases hq : q a
      · rw [List.filter_cons_of_pos hq]
        exact List.Sublist.cons a ih'
      · rw [List.filter_cons_of_neg hq]
        exact ih'

theorem filter_eq_pointwise {α : Type} (l : List α) (p q : α → Bool)
    (h : ∀ a ∈ l, p a = true → q a = true) (he : l.filter p = l.filter q) :
    ∀ a ∈ l, q a = true → p a = true := by
  induction l with
  | nil => intro a ha; simp at ha
  | cons b l ih =>
    intro a ha hq
    by_cases hpb : p b
    · have hqb : q b = true := h b (by simp) hpb
      rw [List.filter_cons_of_pos hpb, List.filter_cons_of_pos hqb] at he
      rcases List.mem_cons.mp ha with hab | hal
      · exact hab ▸ hpb
      · exact ih (fun x hx => h x (by simp [hx])) (List.cons.injEq .. ▸ he).2 a hal hq
    · rw [List.filter_cons_of_neg hpb] at he
      by_cases hqb : q b
      · exfalso
        rw [List.filter_cons_of_pos hqb] at he
        have hsub : List.Sublist (b :: l.filter q) (l.filter q) := by
          rw [← he]
          exact filter_sublist_mono l p q (fun x hx => h x (by simp [hx]))
        have := hsub.length_le
        simp at this
      · rw [List.filter_cons_of_neg hqb] at he
        rcases List.mem_cons.mp ha with hab | hal
        · exact absurd (hab ▸ hq) (by simpa using hqb)
        · exact ih (fun x hx => h x (by simp [hx])) he a hal hq

/-- The components whose key is reached within `n` layers. -/
def usedComps (C : List (String × JVal)) (R : List String) (n : Nat) :
    List (String × JVal) :=
  C.filter (fun c => decide (schemaKey c.1 ∈ reachN C R n))

theorem usedComps_sublist (C : List (String × JVal)) (R : List String) (n : Nat) :
    List.Sublist (usedComps C R n) (usedComps C R (n + 1)) := by
  apply filter_sublist_mono
  intro c _ hc
  rw [decide_eq_true_eq] at hc ⊢
  exact reachN_mono_succ C R n _ hc

theorem usedComps_stab (C : List (String × JVal)) (R : List String) (n : Nat)
    (h : (usedComps C R (n + 1)).length = (usedComps C R n).length) :
    reachN C R (n + 2) = reachN C R (n + 1) := by
  have heq : usedComps C R n = usedComps C R (n + 1) :=
    ((usedComps_sublist C R n).eq_of_length h.symm)
  have hpt : ∀ c ∈ C, (decide (schemaKey c.1 ∈ reachN C R (n + 1)) = true) →
      (decide (schemaKey c.1 ∈ reachN C R n) = true) := by
    exact filter_eq_pointwise C _ _
      (fun c _ hc => by
        rw [decide_eq_true_eq] at hc ⊢
        exact reachN_mono_succ C R n _ hc)
      heq
  conv_lhs => rw [reachN_succ C R (n + 1)]
  conv_rhs => rw [reachN_succ C R n]
  congr 1
  apply List.flatMap_congr
  intro c hc
  by_cases h1 : schemaKey c.1 ∈ reachN C R n
  · rw [if_pos h1, if_pos (reachN_mono_succ C R n _ h1)]
  · rw [if_neg h1, if_neg (fun hc2 => h1 (by
      have := hpt c hc (decide_eq_true hc2)
      exact of_decide_eq_true this))]

theorem reachN_fix_of_eq (C : List (String × JVal)) (R : List String) (n : Nat)
    (h : reachN C R (n + 2) = reachN C R (n + 1)) :
    ∀ j, n + 1 ≤ j → reachN C R j = reachN C R (n + 1) := by
  intro j
  induction j with
  | zero => intro hj; omega
  | succ j ih =>
    intro hj
    rcases Nat.lt_or_ge (n + 1) (j + 1) with hlt | hge
    · have hj' : n + 1 ≤ j := by omega
      have hje := ih hj'
      calc reachN C R (j + 1)
          = R ++ C.flatMap (fun c => if schemaKey c.1 ∈ reachN C R j then refsOfJ c.2
              else []) := reachN_succ C R j
        _ = R ++ C.flatMap (fun c => if schemaKey c.1 ∈ reachN C R (n + 1) then refsOfJ c.2
              else []) := by rw [hje]
        _ = reachN C R (n + 2) := (reachN_succ C R (n + 1)).symm
        _ = reachN C R (n + 1) := h
    · have : j + 1 = n + 1 := by omega
      rw [this]

/-- Pigeonhole: a monotone ℕ-sequence bounded by `L` stabilizes below `L`. -/
theorem exists_stab_point (u : Nat → Nat) (L : Nat) (hmono : ∀ n, u n ≤ u (n + 1))
    (hbound : ∀ n, u n ≤ L) : ∃ n ≤ L, u (n + 1) = u n := by
  by_contra hc
  push_neg at hc
  have hstrict : ∀ n ≤ L, u n + 1 ≤ u (n + 1) := by
    intro n hn
    have h1 := hmono n
    have h2 := hc n hn
    omega
  have hgrow : ∀ n, n ≤ L + 1 → n ≤ u n := by
    intro n
    induction n with
    | zero => intro _; omega
    | succ n ih =>
      intro hn
      have h1 := ih (by omega)
      have h2 := hstrict n (by omega)
      omega
  have := hgrow (L + 1) (by omega)
  have := hbound (L + 1)
  omega

/-- Every fuel level is contained in the `comps.length + 1` iteration used by
`reach`. -/
theorem reachN_subset_reach (C : List (String × JVal)) (R : List String) :
    ∀ j, ∀ s ∈ reachN C R j, s ∈ reach C R := by
  have hmono : ∀ n, (usedComps C R n).length ≤ (usedComps C R (n + 1)).length :=
    fun n => (usedComps_sublist C R n).length_le
  have hbound : ∀ n, (usedComps C R n).length ≤ C.length :=
    fun n => List.length_filter_le _ _
  rcases exists_stab_point (fun n => (usedComps C R n).length) C.length hmono hbound
    with ⟨n, hn, hstab⟩
  have hfix := reachN_fix_of_eq C R n (usedComps_stab C R n hstab)
  intro j s hs
  unfold reach
  rcases Nat.lt_or_ge j (C.length + 2) with hlt | hge
  · exact reachN_mono C R (by omega) s hs
  · rw [hfix j (by omega)] at hs
    exact reachN_mono C R (by omega) s hs

/-- Reachability only shrinks monotonically when pruning, but every reachable
component survives, so the reachable set is preserved. -/
theorem reachN_prune_ge (paths : JVal) (C : List (String × JVal)) :
    ∀ j, ∀ s ∈ reachN C (refsOfJ paths) j,
      s ∈ reachN (pruneComponents paths C) (refsOfJ paths) j := by
  intro j
  induction j with
  | zero => intro s hs; exact hs
  | succ j ih =>
    intro s hs
    rcases mem_reachN_succ.mp hs with h | ⟨c, hc, hcond, hsr⟩
    · exact mem_reachN_succ.mpr (Or.inl h)
    · have hcp : c ∈ pruneComponents paths C := by
        unfold pruneComponents
        rw [List.mem_filter]
        exact ⟨hc, decide_eq_true (reachN_subset_reach C (refsOfJ paths) j _ hcond)⟩
      exact mem_reachN_succ.mpr (Or.inr ⟨c, hcp, ih _ hcond, hsr⟩)

/-- C4 part: no orphans — every surviving component is reachable from the
paths. -/
theorem prune_no_orphans (paths : JVal) (C : List (String × JVal)) :
    ∀ c ∈ pruneComponents paths C, schemaKey c.1 ∈ reach C (refsOfJ paths) := by
  intro c hc
  unfold pruneComponents at hc
  exact of_decide_eq_true (List.mem_filter.mp hc).2

/-- C4 part: pruning is idempotent. -/
theorem prune_idempotent (paths : JVal) (C : List (String × JVal)) :
    pruneComponents paths (pruneComponents paths C) = pruneComponents paths C := by
  apply List.filter_eq_self.mpr
  intro c hc
  rw [decide_eq_true_eq]
  have h1 : schemaKey c.1 ∈ reach C (refsOfJ paths) := prune_no_orphans paths C c hc
  have h2 : schemaKey c.1 ∈
      reachN (pruneComponents paths C) (refsOfJ paths) (C.length + 1) :=
    reachN_prune_ge paths C (C.length + 1) _ h1
  exact reachN_subset_reach (pruneComponents paths C) (refsOfJ paths) (C.length + 1)
    _ h2

/-! Structural lemmas for the `$ref` collector. -/

@[simp] theorem refsOfJ_str (s : String) : refsOfJ (.str s) = [] := rfl
@[simp] theorem refsOfJ_num (n : Int) : refsOfJ (.num n) = [] := rfl
@[simp] theorem refsOfJ_bool (b : Bool) : refsOfJ (.bool b) = [] := rfl
@[simp] theorem refsOfJ_null : refsOfJ .null = [] := rfl
@[simp] theorem refsOfJ_arr (xs : List JVal) : refsOfJ (.arr xs) = refsOfArr xs := rfl
@[simp] theorem refsOfJ_obj (fs : List (String × JVal)) :
    refsOfJ (.obj fs) = refsOfFields fs := rfl
@[simp] theorem refsOfArr_nil : refsOfArr [] = [] := rfl
@[simp] theorem refsOfArr_cons (x : JVal) (xs : List JVal) :
    refsOfArr (x :: xs) = refsOfJ x ++ refsOfArr xs := rfl
@[simp] theorem refsOfFields_nil : refsOfFields [] = [] := rfl
@[simp] theorem refsOfFields_cons (k : String) (v : JVal) (fs : List (String × JVal)) :
    refsOfFields ((k, v) :: fs) =
      (if k = "$ref" then jrefStr v else []) ++ refsOfJ v ++ refsOfFields fs := rfl

theorem refsOfFields_append (a b : List (String × JVal)) :
    refsOfFields (a ++ b) = refsOfFields a ++ refsOfFields b := by
  induction a with
  | nil => rfl
  | cons kv a ih =>
    rcases kv with ⟨k, v⟩
    rw [List.cons_append, refsOfFields_cons, refsOfFields_cons, ih]
    simp [List.append_assoc]

theorem refsOfArr_append (a b : List JVal) :
    refsOfArr (a ++ b) = refsOfArr a ++ refsOfArr b := by
  induction a with
  | nil => rfl
  | cons x a ih => rw [List.cons_append, refsOfArr_cons, refsOfArr_cons, ih,
      List.append_assoc]

theorem refsOfArr_map_str (l : List String) : refsOfArr (l.map .str) = [] := by
  induction l with
  | nil => rfl
  | cons x l ih => rw [List.map_cons, refsOfArr_cons, ih, refsOfJ_str]; rfl

theorem refsOfJ_refSchema (n : String) : refsOfJ (refSchema n) = [schemaKey n] := rfl

theorem refsOfJ_paramRef (n : String) :
    refsOfJ (paramRef n) = ["#/components/parameters/" ++ n] := rfl

theorem refsOfJ_wrapNullable (s : JVal) (b : Bool) :
    refsOfJ (wrapNullable s b) = refsOfJ s := by
  cases b
  · rfl
  · show refsOfJ (oneOfJ s _) = _
    simp [oneOfJ]

theorem refsOfJ_wrapArray (s : JVal) (b : Bool) :
    refsOfJ (wrapArray s b) = refsOfJ s := by
  cases b
  · rfl
  · show refsOfJ (arrayJ s) = _
    simp [arrayJ]

theorem refsOfJ_allOf (a b : JVal) : refsOfJ (allOfJ a b) = refsOfJ a ++ refsOfJ b := by
  simp [allOfJ]

theorem refsOfJ_oneOf (a b : JVal) : refsOfJ (oneOfJ a b) = refsOfJ a ++ refsOfJ b := by
  simp [oneOfJ]

theorem refsOfJ_arrayJ (a : JVal) : refsOfJ (arrayJ a) = refsOfJ a := by
  simp [arrayJ]

theorem refsOfFields_map_replace (k : String) (v : JVal) :
    ∀ (l : List (String × JVal)),
      ∀ s ∈ refsOfFields (l.map (fun f => if (f.1 == k) = true then (k, v) else f)),
        s ∈ refsOfFields l ++ refsOfFields [(k, v)] := by
  intro l
  induction l with
  | nil => intro s hs; simp at hs
  | cons kv l ih =>
    intro s hs
    rcases kv with ⟨k', v'⟩
    rw [List.map_cons] at hs
    by_cases hk : (k' == k) = true
    · rw [if_pos hk, refsOfFields_cons] at hs
      rcases List.mem_append.mp hs with h1 | h2
      · refine List.mem_append.mpr (Or.inr ?_)
        rw [refsOfFields_cons, refsOfFields_nil, List.append_nil]
        exact h1
      · rcases List.mem_append.mp (ih s h2) with h | h
        · refine List.mem_append.mpr (Or.inl ?_)
          rw [refsOfFields_cons]
          exact List.mem_append.mpr (Or.inr h)
        · exact List.mem_append.mpr (Or.inr h)
    · rw [if_neg hk, refsOfFields_cons] at hs
      rcases List.mem_append.mp hs with h1 | h2
      · refine List.mem_append.mpr (Or.inl ?_)
        rw [refsOfFields_cons]
        exact List.mem_append.mpr (Or.inl h1)
      · rcases List.mem_append.mp (ih s h2) with h | h
        · refine List.mem_append.mpr (Or.inl ?_)
          rw [refsOfFields_cons]
          exact List.mem_append.mpr (Or.inr h)
        · exact List.mem_append.mpr (Or.inr h)

theorem refsOfFields_putK_subset (l : List (String × JVal)) (k : String) (v : JVal) :
    ∀ s ∈ refsOfFields (putK l k v), s ∈ refsOfFields l ++ refsOfFields [(k, v)] := by
  intro s hs
  unfold putK at hs
  split at hs
  · exact refsOfFields_map_replace k v l s hs
  · rw [refsOfFields_append] at hs
    exact hs

/-! ## C4: closure of the emitted references

Everything below establishes that, for a linked model (every field type
reference resolves), every `$ref` emitted anywhere in the document points
either at a generated named schema or at one of the reusable parameters. -/

/-- The `$ref` string that points at a named reusable parameter. -/
def paramKey (p : String) : String := "#/components/parameters/" ++ p

theorem refsOfFields_single (k : String) (v : JVal) :
    refsOfFields [(k, v)] = (if k = "$ref" then jrefStr v else []) ++ refsOfJ v := by
  rw [refsOfFields_cons, refsOfFields_nil, List.append_nil]

theorem mem_keys_putK_of_mem {l : List (String × JVal)} {k k' : String} (v : JVal)
    (h : k' ∈ keys l) : k' ∈ keys (putK l k v) := by
  obtain ⟨f, hfm, hfe⟩ := List.mem_map.mp h
  unfold putK
  split
  · unfold keys
    rw [List.map_map]
    refine List.mem_map.mpr ⟨f, hfm, ?_⟩
    show (if (f.1 == k) = true then ((k, v) : String × JVal) else f).1 = k'
    by_cases hfk : (f.1 == k) = true
    · rw [if_pos hfk]
      show k = k'
      rw [← beq_iff_eq.mp hfk]
      exact hfe
    · rw [if_neg hfk]
      exact hfe
  · unfold keys
    rw [List.map_append]
    exact List.mem_append_left _ (List.mem_map.mpr ⟨f, hfm, hfe⟩)

theorem mem_keys_putK_self (l : List (String × JVal)) (k : String) (v : JVal) :
    k ∈ keys (putK l k v) := by
  unfold putK
  split
  · rename_i hf
    obtain ⟨f, hfm, hfe⟩ := List.mem_map.mp (findKey_isSome.mp hf)
    unfold keys
    rw [List.map_map]
    refine List.mem_map.mpr ⟨f, hfm, ?_⟩
    show (if (f.1 == k) = true then ((k, v) : String × JVal) else f).1 = k
    rw [if_pos (by simp [hfe])]
  · unfold keys
    rw [List.map_append]
    exact List.mem_append_right _ (by simp)

/-- The shape of every component-map write loop: successive JS property
assignments. -/
def foldPairs (pairs init : List (String × JVal)) : List (String × JVal) :=
  pairs.foldl (fun acc kv => putK acc kv.1 kv.2) init

theorem mem_keys_foldPairs_of_mem (pairs : List (String × JVal)) {init : List (String × JVal)}
    {k : String} (h : k ∈ keys init) : k ∈ keys (foldPairs pairs init) := by
  induction pairs generalizing init with
  | nil => exact h
  | cons kv ps ih => exact ih (mem_keys_putK_of_mem kv.2 h)

theorem mem_keys_foldPairs_self (pairs : List (String × JVal)) (init : List (String × JVal))
    {k : String} {v : JVal} (h : (k, v) ∈ pairs) : k ∈ keys (foldPairs pairs init) := by
  induction pairs generalizing init with
  | nil => cases h
  | cons kv ps ih =>
    rcases List.mem_cons.mp h with h1 | h1
    · subst h1
      exact mem_keys_foldPairs_of_mem ps (mem_keys_putK_self init k v)
    · exact ih _ h1

theorem refsOfFields_foldPairs (pairs : List (String × JVal)) :
    ∀ init, ∀ s ∈ refsOfFields (foldPairs pairs init),
      s ∈ refsOfFields init ++ refsOfFields pairs := by
  induction pairs with
  | nil =>
    intro init s hs
    exact List.mem_append.mpr (Or.inl hs)
  | cons kv ps ih =>
    obtain ⟨k, v⟩ := kv
    intro init s hs
    have h1 := ih (putK init k v) s hs
    rcases List.mem_append.mp h1 with h | h
    · rcases List.mem_append.mp (refsOfFields_putK_subset init k v s h) with h2 | h2
      · exact List.mem_append.mpr (Or.inl h2)
      · rw [refsOfFields_single] at h2
        refine List.mem_append.mpr (Or.inr ?_)
        rw [refsOfFields_cons]
        exact List.mem_append.mpr (Or.inl h2)
    · refine List.mem_append.mpr (Or.inr ?_)
      rw [refsOfFields_cons]
      exact List.mem_append.mpr (Or.inr h)

theorem foldl_flatMap {α β γ : Type} (g : α → List β) (f : γ → β → γ) :
    ∀ (l : List α) (init : γ),
      (l.flatMap g).foldl f init = l.foldl (fun acc a => (g a).foldl f acc) init := by
  intro l
  induction l with
  | nil => intro init; rfl
  | cons a as ih =>
    intro init
    rw [List.flatMap_cons, List.foldl_append, List.foldl_cons, ih]

/-- All component entries written by `generateComponents`, in write order. -/
def allComponentPairs (mm : ZModel) : List (String × JVal) :=
  sharedComponents ++
  mm.enums.map (fun e => (e.name, generateEnumComponent e)) ++
  mm.dataModels.flatMap (fun d => generateDataModelComponents mm d) ++
  mm.typeDefs.map (fun td => (td.name, generateTypeDefComponent td))

theorem generateComponents_eq (mm : ZModel) :
    generateComponents mm = foldPairs (allComponentPairs mm) [] := by
  unfold generateComponents allComponentPairs foldPairs
  rw [List.foldl_append, List.foldl_append, List.foldl_append]
  rw [List.foldl_map, foldl_flatMap, List.foldl_map]

theorem mem_keys_generateComponents {mm : ZModel} {n : String} {v : JVal}
    (h : (n, v) ∈ allComponentPairs mm) : n ∈ keys (generateComponents mm) := by
  rw [generateComponents_eq]
  exact mem_keys_foldPairs_self _ _ h

theorem shared_names_eq : keys sharedComponents =
    ["_jsonapi", "_meta", "_resourceIdentifier", "_resource", "_links", "_pagination",
     "_errors", "_errorResponse", "_relationLinks", "_toOneRelationship",
     "_toOneRelationshipWithLinks", "_toManyRelationship", "_toManyRelationshipWithLinks",
     "_pagedRelationLinks", "_toManyRelationshipRequest", "_toOneRelationshipRequest",
     "_toManyRelationshipResponse", "_toOneRelationshipResponse"] := rfl

theorem shared_in_keys (mm : ZModel) {n : String}
    (h : n ∈ keys sharedComponents) : n ∈ keys (generateComponents mm) := by
  obtain ⟨⟨k, v⟩, hfm, hfe⟩ := List.mem_map.mp h
  have hk : k = n := hfe
  subst hk
  exact mem_keys_generateComponents
    (List.mem_append_left _ (List.mem_append_left _ (List.mem_append_left _ hfm)))

theorem find?_name_eq {α : Type} (nm : α → String) {l : List α} {n : String} {x : α}
    (h : l.find? (fun a => nm a == n) = some x) : nm x = n ∧ x ∈ l := by
  have hp := List.find?_some h
  exact ⟨beq_iff_eq.mp hp, List.mem_of_find?_eq_some h⟩

theorem resolved_in_keys {mm : ZModel} {n : String} {d : Decl}
    (h : resolveDecl mm n = some d) : n ∈ keys (generateComponents mm) := by
  unfold resolveDecl at h
  cases he : mm.enums.find? (fun e => e.name == n) with
  | some e =>
    obtain ⟨hn, hm⟩ := find?_name_eq (fun e : EnumDecl => e.name) he
    refine mem_keys_generateComponents (v := generateEnumComponent e) ?_
    unfold allComponentPairs
    refine List.mem_append_left _ (List.mem_append_left _ (List.mem_append_right _ ?_))
    exact List.mem_map.mpr ⟨e, hm, by rw [hn]⟩
  | none =>
    rw [he] at h
    cases hd : mm.dataModels.find? (fun d => d.name == n) with
    | some dm =>
      obtain ⟨hn, hm⟩ := find?_name_eq (fun d : DataModel => d.name) hd
      refine mem_keys_generateComponents (v := generateModelEntity mm dm .read) ?_
      unfold allComponentPairs
      refine List.mem_append_left _ (List.mem_append_right _ ?_)
      refine List.mem_flatMap.mpr ⟨dm, hm, ?_⟩
      rw [← hn]
      exact List.mem_cons_self _ _
    | none =>
      rw [hd] at h
      cases ht : mm.typeDefs.find? (fun t => t.name == n) with
      | some td =>
        obtain ⟨hn, hm⟩ := find?_name_eq (fun t : TypeDefDecl => t.name) ht
        refine mem_keys_generateComponents (v := generateTypeDefComponent td) ?_
        unfold allComponentPairs
        refine List.mem_append_right _ ?_
        exact List.mem_map.mpr ⟨td, hm, by rw [hn]⟩
      | none =>
        rw [ht] at h
        cases h

theorem resolve_model_mem {mm : ZModel} {n : String} {d : DataModel}
    (h : resolveDecl mm n = some (.modelD d)) : d ∈ mm.dataModels ∧ d.name = n := by
  unfold resolveDecl at h
  cases he : mm.enums.find? (fun e => e.name == n) with
  | some e =>
    rw [he] at h
    simp at h
  | none =>
    rw [he] at h
    cases hd : mm.dataModels.find? (fun d => d.name == n) with
    | some dm =>
      rw [hd] at h
      obtain ⟨hn, hm⟩ := find?_name_eq (fun d : DataModel => d.name) hd
      have hde : dm = d := by
        have h1 : Decl.modelD dm = Decl.modelD d := by simpa using h
        injection h1
      subst hde
      exact ⟨hm, hn⟩
    | none =>
      rw [hd] at h
      cases ht : mm.typeDefs.find? (fun t => t.name == n) with
      | some td =>
        rw [ht] at h
        simp at h
      | none =>
        rw [ht] at h
        cases h

theorem resolve_enum_mem {mm : ZModel} {n : String} {e : EnumDecl}
    (h : resolveDecl mm n = some (.enumD e)) : e ∈ mm.enums ∧ e.name = n := by
  unfold resolveDecl at h
  cases he : mm.enums.find? (fun e => e.name == n) with
  | some e' =>
    rw [he] at h
    obtain ⟨hn, hm⟩ := find?_name_eq (fun e : EnumDecl => e.name) he
    have hee : e' = e := by
      have h1 : Decl.enumD e' = Decl.enumD e := by simpa using h
      injection h1
    subst hee
    exact ⟨hm, hn⟩
  | none =>
    rw [he] at h
    cases hd : mm.dataModels.find? (fun d => d.name == n) with
    | some dm =>
      rw [hd] at h
      simp at h
    | none =>
      rw [hd] at h
      cases ht : mm.typeDefs.find? (fun t => t.name == n) with
      | some td =>
        rw [ht] at h
        simp at h
      | none =>
        rw [ht] at h
        cases h

theorem mem_refsOfFields {l : List (String × JVal)} {s : String}
    (h : s ∈ refsOfFields l) : ∃ kv ∈ l, s ∈ refsOfFields [kv] := by
  induction l with
  | nil => cases h
  | cons kv fs ih =>
    obtain ⟨k, v⟩ := kv
    rw [refsOfFields_cons] at h
    rcases List.mem_append.mp h with h1 | h1
    · exact ⟨(k, v), List.mem_cons_self _ _, by rw [refsOfFields_single]; exact h1⟩
    · obtain ⟨kv', hm, hp⟩ := ih h1
      exact ⟨kv', List.mem_cons_of_mem _ hm, hp⟩

theorem refsOfFields_mono_pair {l : List (String × JVal)} {kv : String × JVal}
    (h : kv ∈ l) : ∀ s ∈ refsOfFields [kv], s ∈ refsOfFields l := by
  induction l with
  | nil => cases h
  | cons kv' fs ih =>
    intro s hs
    obtain ⟨k', v'⟩ := kv'
    rw [refsOfFields_cons]
    rcases List.mem_cons.mp h with h1 | h1
    · subst h1
      rw [refsOfFields_single] at hs
      exact List.mem_append_left _ hs
    · exact List.mem_append_right _ (ih h1 s hs)

theorem refsOfJ_mem_of_pair {l : List (String × JVal)} {k : String} {v : JVal}
    (h : (k, v) ∈ l) : ∀ s ∈ refsOfJ v, s ∈ refsOfFields l := by
  intro s hs
  refine refsOfFields_mono_pair h s ?_
  rw [refsOfFields_single]
  exact List.mem_append_right _ hs

theorem refs_of_getK {l : List (String × JVal)} {k : String} {v : JVal}
    (h : getK l k = some v) : ∀ s ∈ refsOfJ v, s ∈ refsOfFields l := by
  unfold getK at h
  cases hf : l.find? (fun f => f.1 == k) with
  | none =>
    rw [hf] at h
    cases h
  | some f =>
    rw [hf] at h
    have hv : f.2 = v := by simpa using h
    have hm := List.mem_of_find?_eq_some hf
    intro s hs
    rw [← hv] at hs
    exact refsOfJ_mem_of_pair (k := f.1) (v := f.2) hm s hs

theorem schemaKey_inj {a b : String} (h : schemaKey a = schemaKey b) : a = b := by
  unfold schemaKey at h
  have hd := congrArg String.data h
  rw [String.data_append, String.data_append] at hd
  exact String.ext (List.append_cancel_left hd)

theorem schemaKey_ne_param (n p : String) : schemaKey n ≠ paramKey p := by
  intro h
  have hd := congrArg String.data h
  unfold schemaKey paramKey at hd
  rw [String.data_append, String.data_append] at hd
  have e1 : ("#/components/schemas/").data = ("#/components/").data ++ ("schemas/").data := rfl
  have e2 : ("#/components/parameters/").data =
      ("#/components/").data ++ ("parameters/").data := rfl
  rw [e1, e2, List.append_assoc, List.append_assoc] at hd
  have h2 := List.append_cancel_left hd
  have h3 : ('s' :: ("chemas/").data) ++ n.data = ('p' :: ("arameters/").data) ++ p.data := h2
  rw [List.cons_append, List.cons_append] at h3
  injection h3 with h4 h5
  exact absurd h4 (by decide)

/-- A `$ref` target that the assembled document can satisfy: a generated named
schema, or a reusable parameter reference. -/
def RefOK (mm : ZModel) (s : String) : Prop :=
  (∃ n, s = schemaKey n ∧ n ∈ keys (generateComponents mm)) ∨ ∃ p, s = paramKey p

/-- A field type whose reference (if any) resolves against the model. -/
def fieldRefOK (mm : ZModel) (t : FieldType) : Bool :=
  match t.desc with
  | .ref n => (resolveDecl mm n).isSome
  | .prim _ => true

/-- Linked-model well-formedness: every field type reference in every data
model and every type definition resolves to a declaration (guaranteed by the
ZModel language for a successfully loaded schema). -/
def WF (mm : ZModel) : Bool :=
  mm.dataModels.all (fun d => d.fields.all (fun f => fieldRefOK mm f.type)) &&
  mm.typeDefs.all (fun td => td.fields.all (fun f => fieldRefOK mm f.type))

theorem WF_dataModels {mm : ZModel} (hwf : WF mm = true) :
    ∀ d ∈ mm.dataModels, ∀ f ∈ d.fields, fieldRefOK mm f.type = true := by
  intro d hd f hfm
  unfold WF at hwf
  rw [Bool.and_eq_true] at hwf
  exact List.all_eq_true.mp (List.all_eq_true.mp hwf.1 d hd) f hfm

theorem WF_typeDefs {mm : ZModel} (hwf : WF mm = true) :
    ∀ td ∈ mm.typeDefs, ∀ f ∈ td.fields, fieldRefOK mm f.type = true := by
  intro td htd f hfm
  unfold WF at hwf
  rw [Bool.and_eq_true] at hwf
  exact List.all_eq_true.mp (List.all_eq_true.mp hwf.2 td htd) f hfm

theorem RefOK_shared (mm : ZModel) {n : String} (h : n ∈ keys sharedComponents) :
    RefOK mm (schemaKey n) := Or.inl ⟨n, rfl, shared_in_keys mm h⟩

theorem RefOK_param (mm : ZModel) (p : String) : RefOK mm (paramKey p) := Or.inr ⟨p, rfl⟩

theorem RefOK_resolved {mm : ZModel} {n : String} (h : (resolveDecl mm n).isSome = true) :
    RefOK mm (schemaKey n) := by
  cases hr : resolveDecl mm n with
  | none =>
    rw [hr] at h
    cases h
  | some d => exact Or.inl ⟨n, rfl, resolved_in_keys hr⟩

theorem mem_reach_cases {C : List (String × JVal)} {R : List String} {s : String}
    (h : s ∈ reach C R) : s ∈ R ∨ ∃ c ∈ C, s ∈ refsOfJ c.2 := by
  unfold reach at h
  generalize C.length + 1 = n at h
  induction n with
  | zero => exact Or.inl h
  | succ n ih =>
    rcases mem_reachN_succ.mp h with h1 | ⟨c, hc, _, hcs⟩
    · exact Or.inl h1
    · exact Or.inr ⟨c, hc, hcs⟩

theorem jrefStr_generateField (t : FieldType) : jrefStr (generateField t) = [] := by
  obtain ⟨d, a, o⟩ := t
  cases a <;> cases o <;>
    first
      | rfl
      | (cases d with
          | ref n => rfl
          | prim p => cases p <;> rfl)

theorem refsOfJ_fieldSchema {mm : ZModel} (t : FieldType) (ht : fieldRefOK mm t = true) :
    ∀ s ∈ refsOfJ (fieldTypeToOpenAPISchema t), RefOK mm s := by
  intro s hs
  obtain ⟨d, a, o⟩ := t
  cases d with
  | prim p => cases p <;> simp [fieldTypeToOpenAPISchema, oneOfJ] at hs
  | ref n =>
    rw [show fieldTypeToOpenAPISchema ⟨.ref n, a, o⟩ = refSchema n from rfl,
      refsOfJ_refSchema, List.mem_singleton] at hs
    subst hs
    exact RefOK_resolved (by simpa [fieldRefOK] using ht)

theorem refsOfJ_generateField {mm : ZModel} (t : FieldType) (ht : fieldRefOK mm t = true) :
    ∀ s ∈ refsOfJ (generateField t), RefOK mm s := by
  intro s hs
  simp only [generateField, refsOfJ_wrapArray, refsOfJ_wrapNullable] at hs
  exact refsOfJ_fieldSchema t ht s hs

theorem refsOfJ_filterParamSchema {mm : ZModel} (f : ModelField)
    (ht : fieldRefOK mm f.type = true) :
    ∀ s ∈ refsOfJ (filterParamSchema mm f), RefOK mm s := by
  intro s hs
  obtain ⟨fn, ⟨d, a, o⟩, fi, fk, fdf⟩ := f
  cases d with
  | prim p =>
    cases p <;> simp [filterParamSchema, fieldTypeToOpenAPISchema, oneOfJ] at hs
  | ref n =>
    have hres : (resolveDecl mm n).isSome = true := by simpa [fieldRefOK] using ht
    cases hr : resolveDecl mm n with
    | none =>
      rw [hr] at hres
      cases hres
    | some dd =>
      simp only [filterParamSchema, hr] at hs
      cases dd with
      | enumD e =>
        simp only [refsOfJ_refSchema, List.mem_singleton] at hs
        subst hs
        have he := (resolve_enum_mem hr).2
        rw [he]
        exact RefOK_resolved hres
      | modelD dm => simp at hs
      | typeDefD td => simp at hs

theorem refsOfJ_makeFilterParameter {mm : ZModel} (f : ModelField)
    (nm d : String) (arr : Bool) (ht : fieldRefOK mm f.type = true) :
    ∀ s ∈ refsOfJ (makeFilterParameter mm f nm d arr none), RefOK mm s := by
  intro s hs
  simp only [makeFilterParameter, refsOfJ_obj, refsOfFields_cons, refsOfFields_nil,
    refsOfJ_str, refsOfJ_bool, refsOfJ_wrapArray, List.append_nil, List.nil_append] at hs
  simp at hs
  exact refsOfJ_filterParamSchema f ht s hs

theorem refsOfJ_isEmpty_param (mm : ZModel) (f : ModelField) (d : String) :
    refsOfJ (makeFilterParameter mm f "$isEmpty" d false
      (some (.obj [("type", .str "boolean")]))) = [] := rfl

theorem refsOfArr_flatMap {α : Type} (l : List α) (g : α → List JVal) :
    refsOfArr (l.flatMap g) = l.flatMap (fun a => refsOfArr (g a)) := by
  induction l with
  | nil => rfl
  | cons a as ih => rw [List.flatMap_cons, refsOfArr_append, ih, List.flatMap_cons]

theorem refsOfArr_filterParamsForField {mm : ZModel} (hmi : Bool) (f : ModelField)
    (ht : fieldRefOK mm f.type = true) :
    ∀ s ∈ refsOfArr (filterParamsForField mm hmi f), RefOK mm s := by
  intro s hs
  unfold filterParamsForField at hs
  split at hs
  · cases hs
  · split at hs
    · rw [refsOfArr_cons, refsOfArr_nil, List.append_nil] at hs
      exact refsOfJ_makeFilterParameter f "id" "Id filter" false ht s hs
    · rw [refsOfArr_append] at hs
      rcases List.mem_append.mp hs with h | h
      · rw [refsOfArr_cons, refsOfArr_nil, List.append_nil] at h
        exact refsOfJ_makeFilterParameter f "" "Equality filter" f.type.array ht s h
      · split at h
        · cases h
        · split at h
          · simp only [refsOfArr_cons, refsOfArr_nil, List.append_nil,
              List.mem_append] at h
            rcases h with h | h | h | h
            · exact refsOfJ_makeFilterParameter f "$has" _ false ht s h
            · exact refsOfJ_makeFilterParameter f "$hasEvery" _ true ht s h
            · exact refsOfJ_makeFilterParameter f "$hasSome" _ true ht s h
            · rw [refsOfJ_isEmpty_param] at h
              cases h
          · rw [refsOfArr_append] at h
            rcases List.mem_append.mp h with h | h
            · split at h
              · simp only [refsOfArr_cons, refsOfArr_nil, List.append_nil,
                  List.mem_append] at h
                rcases h with h | h | h | h
                · exact refsOfJ_makeFilterParameter f "$lt" _ false ht s h
                · exact refsOfJ_makeFilterParameter f "$lte" _ false ht s h
                · exact refsOfJ_makeFilterParameter f "$gt" _ false ht s h
                · exact refsOfJ_makeFilterParameter f "$gte" _ false ht s h
              · cases h
            · split at h
              · simp only [refsOfArr_cons, refsOfArr_nil, List.append_nil,
                  List.mem_append] at h
                rcases h with h | h | h | h | h
                · exact refsOfJ_makeFilterParameter f "$contains" _ false ht s h
                · exact refsOfJ_makeFilterParameter f "$icontains" _ false ht s h
                · exact refsOfJ_makeFilterParameter f "$search" _ false ht s h
                · exact refsOfJ_makeFilterParameter f "$startsWith" _ false ht s h
                · exact refsOfJ_makeFilterParameter f "$endsWith" _ false ht s h
              · cases h

theorem refsOfArr_filterParams {mm : ZModel} (model : DataModel)
    (hf : ∀ f ∈ model.fields, fieldRefOK mm f.type = true) :
    ∀ s ∈ refsOfArr (generateFilterParameters mm model), RefOK mm s := by
  intro s hs
  simp only [generateFilterParameters] at hs
  rw [refsOfArr_flatMap] at hs
  obtain ⟨f, hfm, hsf⟩ := List.mem_flatMap.mp hs
  exact refsOfArr_filterParamsForField _ f (hf f hfm) s hsf

theorem refsOfFields_security (meta : Option ResourceMeta) (flag : Bool) :
    refsOfFields (optK "security" (securityField meta flag)) = [] := by
  unfold securityField
  split <;> rfl

theorem refsOfJ_enumComponent (e : EnumDecl) : refsOfJ (generateEnumComponent e) = [] := by
  simp [generateEnumComponent, refsOfArr_map_str]

theorem refsOfJ_typeDefComponent {mm : ZModel} (td : TypeDefDecl)
    (hf : ∀ f ∈ td.fields, fieldRefOK mm f.type = true) :
    ∀ s ∈ refsOfJ (generateTypeDefComponent td), RefOK mm s := by
  intro s hs
  simp [generateTypeDefComponent] at hs
  have he : List.foldl (fun acc f => putK acc f.name (generateField f.type)) [] td.fields =
      foldPairs (td.fields.map (fun f => (f.name, generateField f.type))) [] := by
    unfold foldPairs
    rw [List.foldl_map]
  rw [he] at hs
  have h2 := refsOfFields_foldPairs _ [] s hs
  rw [refsOfFields_nil, List.nil_append] at h2
  obtain ⟨kv, hkm, hp⟩ := mem_refsOfFields h2
  obtain ⟨f, hfm, hfe⟩ := List.mem_map.mp hkm
  rw [← hfe, refsOfFields_single, jrefStr_generateField, ite_self, List.nil_append] at hp
  exact refsOfJ_generateField f.type (hf f hfm) s hp

theorem sharedComponents_refs_closed :
    ∀ s ∈ refsOfFields sharedComponents, ∃ n ∈ keys sharedComponents, s = schemaKey n := by
  decide

theorem jrefStr_wrapNullable_refSchema (t : String) (b : Bool) :
    jrefStr (wrapNullable (refSchema t) b) = [] := by
  cases b <;> rfl

theorem entityFieldStep_refs {mm : ZModel} (mode : Mode) (f : ModelField)
    (hf : fieldRefOK mm f.type = true)
    (acc : List (String × JVal) × List (String × JVal) × List String)
    (h1 : ∀ s ∈ refsOfFields acc.1, RefOK mm s)
    (h2 : ∀ s ∈ refsOfFields acc.2.1, RefOK mm s) :
    (∀ s ∈ refsOfFields (entityFieldStep mm mode acc f).1, RefOK mm s) ∧
    (∀ s ∈ refsOfFields (entityFieldStep mm mode acc f).2.1, RefOK mm s) := by
  obtain ⟨attrs, rels, req⟩ := acc
  unfold entityFieldStep
  dsimp only
  split
  · exact ⟨h1, h2⟩
  · split
    · refine ⟨h1, ?_⟩
      intro s hs
      dsimp only at hs
      rcases List.mem_append.mp (refsOfFields_putK_subset rels f.name _ s hs) with h | h
      · exact h2 s h
      · rw [refsOfFields_single, jrefStr_wrapNullable_refSchema, ite_self, List.nil_append,
          refsOfJ_wrapNullable, refsOfJ_refSchema, List.mem_singleton] at h
        subst h
        split
        · split
          · exact RefOK_shared mm (by rw [shared_names_eq]; decide)
          · exact RefOK_shared mm (by rw [shared_names_eq]; decide)
        · split
          · exact RefOK_shared mm (by rw [shared_names_eq]; decide)
          · exact RefOK_shared mm (by rw [shared_names_eq]; decide)
    · refine ⟨?_, h2⟩
      intro s hs
      dsimp only at hs
      rcases List.mem_append.mp (refsOfFields_putK_subset attrs f.name _ s hs) with h | h
      · exact h1 s h
      · rw [refsOfFields_single, jrefStr_generateField, ite_self, List.nil_append] at h
        exact refsOfJ_generateField f.type hf s h

theorem entity_fold_refs {mm : ZModel} (mode : Mode) :
    ∀ (fs : List ModelField), (∀ f ∈ fs, fieldRefOK mm f.type = true) →
    ∀ (acc : List (String × JVal) × List (String × JVal) × List String),
      (∀ s ∈ refsOfFields acc.1, RefOK mm s) →
      (∀ s ∈ refsOfFields acc.2.1, RefOK mm s) →
      (∀ s ∈ refsOfFields (fs.foldl (entityFieldStep mm mode) acc).1, RefOK mm s) ∧
      (∀ s ∈ refsOfFields (fs.foldl (entityFieldStep mm mode) acc).2.1, RefOK mm s) := by
  intro fs
  induction fs with
  | nil =>
    intro _ acc hh1 hh2
    exact ⟨hh1, hh2⟩
  | cons f fs ih =>
    intro hall acc hh1 hh2
    rw [List.foldl_cons]
    have hstep := entityFieldStep_refs mode f (hall f (List.mem_cons_self _ _)) acc hh1 hh2
    exact ih (fun g hg => hall g (List.mem_cons_of_mem _ hg)) _ hstep.1 hstep.2

theorem entityLoop_refs {mm : ZModel} (m : DataModel) (mode : Mode)
    (hf : ∀ f ∈ m.fields, fieldRefOK mm f.type = true) :
    (∀ s ∈ refsOfFields (entityLoop mm m mode).1, RefOK mm s) ∧
    (∀ s ∈ refsOfFields (entityLoop mm m mode).2.1, RefOK mm s) := by
  have hsub : ∀ f ∈ (if (m.fields.filter (fun f => f.isId)).length > 1 then m.fields
      else m.fields.filter (fun f => !f.isId)), fieldRefOK mm f.type = true := by
    intro f hfm
    split at hfm
    · exact hf f hfm
    · exact hf f (List.mem_of_mem_filter hfm)
  exact entity_fold_refs mode _ hsub ([], [], [])
    (fun s hs => absurd hs (List.not_mem_nil s)) (fun s hs => absurd hs (List.not_mem_nil s))

theorem entityIdSchema_refs {mm : ZModel} (m : DataModel)
    (hf : ∀ f ∈ m.fields, fieldRefOK mm f.type = true) :
    ∀ s ∈ refsOfJ (entityIdSchema m), RefOK mm s := by
  intro s hs
  unfold entityIdSchema at hs
  cases hfl : m.fields.filter (fun f => f.isId) with
  | nil =>
    rw [hfl] at hs
    cases hs
  | cons f0 rest =>
    cases rest with
    | nil =>
      rw [hfl] at hs
      have hm : f0 ∈ m.fields :=
        List.mem_of_mem_filter (by rw [hfl]; exact List.mem_cons_self f0 [])
      exact refsOfJ_fieldSchema f0.type (hf f0 hm) s hs
    | cons f1 rest' =>
      rw [hfl] at hs
      cases hs

theorem entityBaseProps_refs {mm : ZModel} (m : DataModel) (mode : Mode)
    (hf : ∀ f ∈ m.fields, fieldRefOK mm f.type = true) :
    ∀ s ∈ refsOfFields (entityBaseProps mm m mode), RefOK mm s := by
  intro s hs
  unfold entityBaseProps at hs
  rw [refsOfFields_cons, refsOfFields_single] at hs
  simp only [refsOfJ_obj, refsOfFields_cons, refsOfFields_nil, refsOfFields_append,
    refsOfJ_str, List.append_nil, List.nil_append, List.mem_append] at hs
  have hreq : refsOfFields (if (entityLoop mm m mode).2.2.length > 0 then
      [("required", .arr ((entityLoop mm m mode).2.2.map .str))] else []) = [] := by
    split
    · rw [refsOfFields_single, refsOfJ_arr, refsOfArr_map_str]
      simp
    · rfl
  rw [hreq] at hs
  simp at hs
  exact (entityLoop_refs m mode hf).1 s hs

theorem entityPR_refs {mm : ZModel} (m : DataModel) (mode : Mode)
    (hf : ∀ f ∈ m.fields, fieldRefOK mm f.type = true) :
    ∀ s ∈ refsOfFields (entityPR mm m mode).1, RefOK mm s := by
  have hid : ∀ s ∈ refsOfFields (("id", entityIdSchema m) :: entityBaseProps mm m mode),
      RefOK mm s := by
    intro s hs
    rw [refsOfFields_cons] at hs
    rcases List.mem_append.mp hs with h | h
    · rw [if_neg (by decide), List.nil_append] at h
      exact entityIdSchema_refs m hf s h
    · exact entityBaseProps_refs m mode hf s h
  intro s hs
  unfold entityPR at hs
  split at hs
  · cases hfl : m.fields.filter (fun f => f.isId) with
    | nil =>
      rw [hfl] at hs
      exact entityBaseProps_refs m mode hf s hs
    | cons f0 rest =>
      cases rest with
      | nil =>
        rw [hfl] at hs
        dsimp only at hs
        split at hs
        · exact hid s hs
        · exact entityBaseProps_refs m mode hf s hs
      | cons f1 rest' =>
        rw [hfl] at hs
        exact entityBaseProps_refs m mode hf s hs
  · exact hid s hs

theorem refsOfJ_generateModelEntity {mm : ZModel} (m : DataModel) (mode : Mode)
    (hf : ∀ f ∈ m.fields, fieldRefOK mm f.type = true) :
    ∀ s ∈ refsOfJ (generateModelEntity mm m mode), RefOK mm s := by
  intro s hs
  rw [generateModelEntity_eq] at hs
  simp only [refsOfJ_obj, refsOfFields_cons, refsOfFields_nil, refsOfJ_str, refsOfJ_arr,
    refsOfArr_map_str, refsOfJ_obj, List.append_nil, List.nil_append] at hs
  simp at hs
  unfold entityProps at hs
  rw [refsOfFields_append] at hs
  rcases List.mem_append.mp hs with h | h
  · exact entityPR_refs m mode hf s h
  · split at h
    · rw [refsOfFields_single] at h
      simp at h
      exact (entityLoop_refs m mode hf).2 s h
    · cases h

theorem responseRelationships_refs {mm : ZModel} (m : DataModel) :
    ∀ s ∈ refsOfFields (responseRelationships mm m), RefOK mm s := by
  have hfold : ∀ (fs : List ModelField) (acc : List (String × JVal)),
      (∀ s ∈ refsOfFields acc, RefOK mm s) →
      ∀ s ∈ refsOfFields (fs.foldl
        (fun acc f =>
          if isRelationshipField mm f then
            putK acc f.name (refSchema (if f.type.array then "_toManyRelationship"
              else "_toOneRelationship"))
          else acc)
        acc), RefOK mm s := by
    intro fs
    induction fs with
    | nil => intro acc h; exact h
    | cons f fs ih =>
      intro acc h
      rw [List.foldl_cons]
      refine ih _ ?_
      split
      · intro s hs
        rcases List.mem_append.mp (refsOfFields_putK_subset acc f.name _ s hs) with h1 | h1
        · exact h s h1
        · rw [refsOfFields_single, show jrefStr (refSchema (if f.type.array then
              "_toManyRelationship" else "_toOneRelationship")) = [] from rfl, ite_self,
            List.nil_append, refsOfJ_refSchema, List.mem_singleton] at h1
          subst h1
          split
          · exact RefOK_shared mm (by rw [shared_names_eq]; decide)
          · exact RefOK_shared mm (by rw [shared_names_eq]; decide)
      · exact h
  exact hfold m.fields [] (fun s hs => absurd hs (List.not_mem_nil s))

theorem refsOfJ_forbidden : refsOfJ forbidden = [schemaKey "_errorResponse"] := rfl

theorem refsOfJ_validationError : refsOfJ validationError = [schemaKey "_errorResponse"] := rfl

theorem refsOfJ_notFound : refsOfJ notFound = [schemaKey "_errorResponse"] := rfl

theorem refsOfJ_success_some (rc : String) : refsOfJ (success (some rc)) = [schemaKey rc] := rfl

theorem refsOfJ_success_none : refsOfJ (success none) = [] := rfl

theorem refsOfJ_requestBody (c : String) : refsOfJ (requestBody c) = [schemaKey c] := rfl

theorem keys_dmComponents (mm : ZModel) (model : DataModel) :
    keys (generateDataModelComponents mm model) =
      [model.name, model.name ++ "CreateRequest", model.name ++ "UpdateRequest",
       model.name ++ "Response", model.name ++ "ListResponse"] := rfl

theorem dm_comp_in_keys {mm : ZModel} {model : DataModel} (hm : model ∈ mm.dataModels)
    {n : String} (h : n ∈ keys (generateDataModelComponents mm model)) :
    n ∈ keys (generateComponents mm) := by
  obtain ⟨⟨k, v⟩, hkm, hke⟩ := List.mem_map.mp h
  have hk : k = n := hke
  subst hk
  exact mem_keys_generateComponents
    (List.mem_append_left _ (List.mem_append_right _ (List.mem_flatMap.mpr ⟨model, hm, hkm⟩)))

theorem RefOK_model_comp {mm : ZModel} {model : DataModel} (hm : model ∈ mm.dataModels)
    {n : String} (h : n ∈ keys (generateDataModelComponents mm model)) :
    RefOK mm (schemaKey n) := Or.inl ⟨n, rfl, dm_comp_in_keys hm h⟩

theorem RefOK_of_eq_param {mm : ZModel} {s : String} (p : String) (h : s = paramKey p) :
    RefOK mm s := h ▸ RefOK_param mm p

theorem RefOK_of_eq_shared {mm : ZModel} {s : String} (n : String)
    (hn : n ∈ keys sharedComponents) (h : s = schemaKey n) : RefOK mm s :=
  h ▸ RefOK_shared mm hn

theorem refsOfJ_makeResourceList {mm : ZModel} (model : DataModel) (pol : Policies)
    (meta : Option ResourceMeta) (hm : model ∈ mm.dataModels)
    (hf : ∀ f ∈ model.fields, fieldRefOK mm f.type = true) :
    ∀ s ∈ refsOfJ (makeResourceList mm model pol meta), RefOK mm s := by
  intro s hs
  unfold makeResourceList at hs
  rw [refsOfJ_obj, refsOfFields_append, refsOfFields_security, List.append_nil] at hs
  simp [refsOfArr_append, refsOfJ_paramRef, refsOfJ_success_some, refsOfJ_forbidden] at hs
  rcases hs with h | h | h | h | h | h | h
  · exact RefOK_of_eq_param "include" h
  · exact RefOK_of_eq_param "sort" h
  · exact RefOK_of_eq_param "page-offset" h
  · exact RefOK_of_eq_param "page-limit" h
  · exact refsOfArr_filterParams model hf s h
  · exact h ▸ RefOK_model_comp hm (by rw [keys_dmComponents]; simp)
  · exact RefOK_of_eq_shared "_errorResponse" (by rw [shared_names_eq]; decide) h

theorem refsOfJ_makeResourceCreate {mm : ZModel} (model : DataModel) (pol : Policies)
    (meta : Option ResourceMeta) (hm : model ∈ mm.dataModels) :
    ∀ s ∈ refsOfJ (makeResourceCreate model pol meta), RefOK mm s := by
  intro s hs
  unfold makeResourceCreate at hs
  rw [refsOfJ_obj, refsOfFields_append, refsOfFields_security, List.append_nil] at hs
  simp [refsOfJ_requestBody, refsOfJ_success_some, refsOfJ_forbidden,
    refsOfJ_validationError] at hs
  rcases hs with h | h | h
  · exact h ▸ RefOK_model_comp hm (by rw [keys_dmComponents]; simp)
  · exact h ▸ RefOK_model_comp hm (by rw [keys_dmComponents]; simp)
  · exact RefOK_of_eq_shared "_errorResponse" (by rw [shared_names_eq]; decide) h

theorem refsOfJ_makeResourceFetch {mm : ZModel} (model : DataModel) (pol : Policies)
    (meta : Option ResourceMeta) (hm : model ∈ mm.dataModels) :
    ∀ s ∈ refsOfJ (makeResourceFetch model pol meta), RefOK mm s := by
  intro s hs
  unfold makeResourceFetch at hs
  rw [refsOfJ_obj, refsOfFields_append, refsOfFields_security, List.append_nil] at hs
  simp [refsOfJ_paramRef, refsOfJ_success_some, refsOfJ_forbidden, refsOfJ_notFound] at hs
  rcases hs with h | h | h | h
  · exact RefOK_of_eq_param "id" h
  · exact RefOK_of_eq_param "include" h
  · exact h ▸ RefOK_model_comp hm (by rw [keys_dmComponents]; simp)
  · exact RefOK_of_eq_shared "_errorResponse" (by rw [shared_names_eq]; decide) h

theorem refsOfJ_makeResourceUpdate {mm : ZModel} (model : DataModel) (pol : Policies)
    (opId : String) (meta : Option ResourceMeta) (hm : model ∈ mm.dataModels) :
    ∀ s ∈ refsOfJ (makeResourceUpdate model pol opId meta), RefOK mm s := by
  intro s hs
  unfold makeResourceUpdate at hs
  rw [refsOfJ_obj, refsOfFields_append, refsOfFields_security, List.append_nil] at hs
  simp [refsOfJ_paramRef, refsOfJ_requestBody, refsOfJ_success_some, refsOfJ_forbidden,
    refsOfJ_notFound, refsOfJ_validationError] at hs
  rcases hs with h | h | h | h
  · exact RefOK_of_eq_param "id" h
  · exact h ▸ RefOK_model_comp hm (by rw [keys_dmComponents]; simp)
  · exact h ▸ RefOK_model_comp hm (by rw [keys_dmComponents]; simp)
  · exact RefOK_of_eq_shared "_errorResponse" (by rw [shared_names_eq]; decide) h

theorem refsOfJ_makeResourceDelete {mm : ZModel} (model : DataModel) (pol : Policies)
    (meta : Option ResourceMeta) :
    ∀ s ∈ refsOfJ (makeResourceDelete model pol meta), RefOK mm s := by
  intro s hs
  unfold makeResourceDelete at hs
  rw [refsOfJ_obj, refsOfFields_append, refsOfFields_security, List.append_nil] at hs
  simp [refsOfJ_paramRef, refsOfJ_success_none, refsOfJ_forbidden, refsOfJ_notFound] at hs
  rcases hs with h | h
  · exact RefOK_of_eq_param "id" h
  · exact RefOK_of_eq_shared "_errorResponse" (by rw [shared_names_eq]; decide) h

theorem refsOfJ_makeRelatedFetch {mm : ZModel} (model : DataModel) (field : ModelField)
    (relationDecl : DataModel) (meta : Option ResourceMeta)
    (hrel : relationDecl ∈ mm.dataModels)
    (hf : ∀ f ∈ model.fields, fieldRefOK mm f.type = true) :
    ∀ s ∈ refsOfJ (makeRelatedFetch mm model field relationDecl meta), RefOK mm s := by
  intro s hs
  unfold makeRelatedFetch at hs
  rw [refsOfJ_obj, refsOfFields_append, refsOfFields_security, List.append_nil] at hs
  cases hb : field.type.array with
  | true =>
    simp [hb, refsOfArr_append, refsOfJ_paramRef, refsOfJ_success_some, refsOfJ_forbidden,
      refsOfJ_notFound] at hs
    rcases hs with h | h | h | h | h | h | h | h
    · exact RefOK_of_eq_param "id" h
    · exact RefOK_of_eq_param "include" h
    · exact RefOK_of_eq_param "sort" h
    · exact RefOK_of_eq_param "page-offset" h
    · exact RefOK_of_eq_param "page-limit" h
    · exact refsOfArr_filterParams model hf s h
    · exact h ▸ RefOK_model_comp hrel (by rw [keys_dmComponents]; simp)
    · exact RefOK_of_eq_shared "_errorResponse" (by rw [shared_names_eq]; decide) h
  | false =>
    simp [hb, refsOfJ_paramRef, refsOfJ_success_some, refsOfJ_forbidden,
      refsOfJ_notFound] at hs
    rcases hs with h | h | h | h
    · exact RefOK_of_eq_param "id" h
    · exact RefOK_of_eq_param "include" h
    · exact h ▸ RefOK_model_comp hrel (by rw [keys_dmComponents]; simp)
    · exact RefOK_of_eq_shared "_errorResponse" (by rw [shared_names_eq]; decide) h

theorem refsOfJ_makeRelationshipFetch {mm : ZModel} (model : DataModel)
    (field : ModelField) (pol : Policies) (meta : Option ResourceMeta)
    (hf : ∀ f ∈ model.fields, fieldRefOK mm f.type = true) :
    ∀ s ∈ refsOfJ (makeRelationshipFetch mm model field pol meta), RefOK mm s := by
  intro s hs
  unfold makeRelationshipFetch at hs
  rw [refsOfJ_obj, refsOfFields_append, refsOfFields_security, List.append_nil] at hs
  cases hb : field.type.array with
  | true =>
    simp [hb, refsOfArr_append, refsOfJ_paramRef, refsOfJ_success_some, refsOfJ_forbidden,
      refsOfJ_notFound] at hs
    rcases hs with h | h | h | h | h | h | h
    · exact RefOK_of_eq_param "id" h
    · exact RefOK_of_eq_param "sort" h
    · exact RefOK_of_eq_param "page-offset" h
    · exact RefOK_of_eq_param "page-limit" h
    · exact refsOfArr_filterParams model hf s h
    · exact RefOK_of_eq_shared "_toManyRelationshipResponse" (by rw [shared_names_eq]; decide) h
    · exact RefOK_of_eq_shared "_errorResponse" (by rw [shared_names_eq]; decide) h
  | false =>
    simp [hb, refsOfJ_paramRef, refsOfJ_success_some, refsOfJ_forbidden,
      refsOfJ_notFound] at hs
    rcases hs with h | h | h
    · exact RefOK_of_eq_param "id" h
    · exact RefOK_of_eq_shared "_toOneRelationshipResponse" (by rw [shared_names_eq]; decide) h
    · exact RefOK_of_eq_shared "_errorResponse" (by rw [shared_names_eq]; decide) h

theorem refsOfJ_makeRelationshipCreate {mm : ZModel} (model : DataModel)
    (field : ModelField) (pol : Policies) (meta : Option ResourceMeta) :
    ∀ s ∈ refsOfJ (makeRelationshipCreate model field pol meta), RefOK mm s := by
  intro s hs
  unfold makeRelationshipCreate at hs
  rw [refsOfJ_obj, refsOfFields_append, refsOfFields_security, List.append_nil] at hs
  simp [refsOfJ_paramRef, refsOfJ_requestBody, refsOfJ_success_some, refsOfJ_forbidden,
    refsOfJ_notFound] at hs
  rcases hs with h | h | h | h
  · exact RefOK_of_eq_param "id" h
  · exact RefOK_of_eq_shared "_toManyRelationshipRequest" (by rw [shared_names_eq]; decide) h
  · exact RefOK_of_eq_shared "_toManyRelationshipResponse" (by rw [shared_names_eq]; decide) h
  · exact RefOK_of_eq_shared "_errorResponse" (by rw [shared_names_eq]; decide) h

theorem refsOfJ_makeRelationshipUpdate {mm : ZModel} (model : DataModel)
    (field : ModelField) (pol : Policies) (opId : String) (meta : Option ResourceMeta) :
    ∀ s ∈ refsOfJ (makeRelationshipUpdate model field pol opId meta), RefOK mm s := by
  intro s hs
  unfold makeRelationshipUpdate at hs
  rw [refsOfJ_obj, refsOfFields_append, refsOfFields_security, List.append_nil] at hs
  cases hb : field.type.array with
  | true =>
    simp [hb, refsOfJ_paramRef, refsOfJ_requestBody, refsOfJ_success_some, refsOfJ_forbidden,
      refsOfJ_notFound] at hs
    rcases hs with h | h | h | h
    · exact RefOK_of_eq_param "id" h
    · exact RefOK_of_eq_shared "_toManyRelationshipRequest" (by rw [shared_names_eq]; decide) h
    · exact RefOK_of_eq_shared "_toManyRelationshipResponse" (by rw [shared_names_eq]; decide) h
    · exact RefOK_of_eq_shared "_errorResponse" (by rw [shared_names_eq]; decide) h
  | false =>
    simp [hb, refsOfJ_paramRef, refsOfJ_requestBody, refsOfJ_success_some, refsOfJ_forbidden,
      refsOfJ_notFound] at hs
    rcases hs with h | h | h | h
    · exact RefOK_of_eq_param "id" h
    · exact RefOK_of_eq_shared "_toOneRelationshipRequest" (by rw [shared_names_eq]; decide) h
    · exact RefOK_of_eq_shared "_toOneRelationshipResponse" (by rw [shared_names_eq]; decide) h
    · exact RefOK_of_eq_shared "_errorResponse" (by rw [shared_names_eq]; decide) h

theorem jrefStr_obj (fs : List (String × JVal)) : jrefStr (.obj fs) = [] := rfl

theorem setOp_refs {P : String → Prop} (paths : List (String × JVal)) (key op : String)
    (v : JVal) (hj : jrefStr v = [])
    (hp : ∀ s ∈ refsOfFields paths, P s) (hv : ∀ s ∈ refsOfJ v, P s) :
    ∀ s ∈ refsOfFields (setOp paths key op v), P s := by
  intro s hs
  simp only [setOp] at hs
  have hmain : ∀ (container : List (String × JVal)),
      (∀ t ∈ refsOfFields container, P t) →
      s ∈ refsOfFields (putK paths key (.obj (putK container op v))) → P s := by
    intro container hcont hs2
    rcases List.mem_append.mp (refsOfFields_putK_subset paths key _ s hs2) with h | h
    · exact hp s h
    · rw [refsOfFields_single, jrefStr_obj, ite_self, List.nil_append, refsOfJ_obj] at h
      rcases List.mem_append.mp (refsOfFields_putK_subset container op v s h) with h3 | h3
      · exact hcont s h3
      · rw [refsOfFields_single] at h3
        rcases List.mem_append.mp h3 with h4 | h4
        · rw [hj, ite_self] at h4
          cases h4
        · exact hv s h4
  cases hg : getK paths key with
  | none =>
    rw [hg] at hs
    exact hmain [] (fun t ht => absurd ht (List.not_mem_nil t)) hs
  | some w =>
    rw [hg] at hs
    cases w with
    | obj fs =>
      refine hmain fs (fun t ht => hp t (refs_of_getK hg t ?_)) hs
      rw [refsOfJ_obj]
      exact ht
    | str x => exact hmain [] (fun t ht => absurd ht (List.not_mem_nil t)) hs
    | num x => exact hmain [] (fun t ht => absurd ht (List.not_mem_nil t)) hs
    | bool x => exact hmain [] (fun t ht => absurd ht (List.not_mem_nil t)) hs
    | null => exact hmain [] (fun t ht => absurd ht (List.not_mem_nil t)) hs
    | arr xs => exact hmain [] (fun t ht => absurd ht (List.not_mem_nil t)) hs

theorem refModel_mem {mm : ZModel} {t : FieldType} {d : DataModel}
    (h : refModel mm t = some d) : d ∈ mm.dataModels := by
  unfold refModel at h
  cases ht : t.desc with
  | prim p =>
    rw [ht] at h
    cases h
  | ref n =>
    rw [ht] at h
    dsimp only at h
    cases hr : resolveDecl mm n with
    | none =>
      rw [hr] at h
      cases h
    | some dd =>
      rw [hr] at h
      cases dd with
      | modelD dm =>
        have h2 : some dm = some d := h
        injection h2 with h3
        subst h3
        exact (resolve_model_mem hr).1
      | enumD e =>
        have h2 : (none : Option DataModel) = some d := h
        cases h2
      | typeDefD td =>
        have h2 : (none : Option DataModel) = some d := h
        cases h2

theorem relPathStep_refs {mm : ZModel} (pfx modelName : String) (model : DataModel)
    (pol : Policies) (meta : Option ResourceMeta)
    (hf : ∀ f ∈ model.fields, fieldRefOK mm f.type = true)
    (result : List (String × JVal)) (f : ModelField)
    (hres : ∀ s ∈ refsOfFields result, RefOK mm s) :
    ∀ s ∈ refsOfFields (relPathStep mm pfx modelName model pol meta result f),
      RefOK mm s := by
  unfold relPathStep
  cases hr : refModel mm f.type with
  | none => exact hres
  | some rel =>
    have hrel : rel ∈ mm.dataModels := refModel_mem hr
    dsimp only
    have h1 := setOp_refs (P := RefOK mm) result
      (pfx ++ "/" ++ lowerCaseFirst modelName ++ "/{id}/" ++ f.name) "get"
      (makeRelatedFetch mm model f rel meta) rfl hres
      (refsOfJ_makeRelatedFetch model f rel meta hrel hf)
    have h2 := setOp_refs (P := RefOK mm) _
      (pfx ++ "/" ++ lowerCaseFirst modelName ++ "/{id}/relationships/" ++ f.name) "get"
      (makeRelationshipFetch mm model f pol meta) rfl h1
      (refsOfJ_makeRelationshipFetch model f pol meta hf)
    have h3 := setOp_refs (P := RefOK mm) _
      (pfx ++ "/" ++ lowerCaseFirst modelName ++ "/{id}/relationships/" ++ f.name) "put"
      (makeRelationshipUpdate model f pol
        ("update-" ++ model.name ++ "-relationship-" ++ f.name ++ "-put") meta) rfl h2
      (refsOfJ_makeRelationshipUpdate model f pol _ meta)
    have h4 := setOp_refs (P := RefOK mm) _
      (pfx ++ "/" ++ lowerCaseFirst modelName ++ "/{id}/relationships/" ++ f.name) "patch"
      (makeRelationshipUpdate model f pol
        ("update-" ++ model.name ++ "-relationship-" ++ f.name ++ "-patch") meta) rfl h3
      (refsOfJ_makeRelationshipUpdate model f pol _ meta)
    intro s hs
    split at hs
    · exact setOp_refs (P := RefOK mm) _
        (pfx ++ "/" ++ lowerCaseFirst modelName ++ "/{id}/relationships/" ++ f.name) "post"
        (makeRelationshipCreate model f pol meta) rfl h4
        (refsOfJ_makeRelationshipCreate model f pol meta) s hs
    · exact h4 s hs

theorem generatePathsForModel_refs {mm : ZModel} (opts : GenOptions) (model : DataModel)
    (hm : model ∈ mm.dataModels)
    (hf : ∀ f ∈ model.fields, fieldRefOK mm f.type = true) :
    ∀ s ∈ refsOfFields (generatePathsForModel mm opts model), RefOK mm s := by
  have hbase : ∀ s ∈ refsOfFields [
      (stripSlash opts.pfx ++ "/" ++ lowerCaseFirst (mapModelName opts model.name), JVal.obj [
        ("get", makeResourceList mm model model.policies model.resourceMeta),
        ("post", makeResourceCreate model model.policies model.resourceMeta)]),
      (stripSlash opts.pfx ++ "/" ++ lowerCaseFirst (mapModelName opts model.name) ++ "/{id}",
        JVal.obj [
        ("get", makeResourceFetch model model.policies model.resourceMeta),
        ("put", makeResourceUpdate model model.policies
          ("update-" ++ mapModelName opts model.name ++ "-put") model.resourceMeta),
        ("patch", makeResourceUpdate model model.policies
          ("update-" ++ mapModelName opts model.name ++ "-patch") model.resourceMeta),
        ("delete", makeResourceDelete model model.policies model.resourceMeta)])],
      RefOK mm s := by
    intro s hs
    obtain ⟨kv, hkm, hp⟩ := mem_refsOfFields hs
    simp only [List.mem_cons, List.not_mem_nil, or_false] at hkm
    rcases hkm with hkm | hkm
    · subst hkm
      rw [refsOfFields_single, jrefStr_obj, ite_self, List.nil_append, refsOfJ_obj] at hp
      simp only [refsOfFields_cons, refsOfFields_nil, List.append_nil, List.mem_append] at hp
      simp at hp
      rcases hp with h | h
      · exact refsOfJ_makeResourceList model model.policies model.resourceMeta hm hf s h
      · exact refsOfJ_makeResourceCreate model model.policies model.resourceMeta hm s h
    · subst hkm
      rw [refsOfFields_single, jrefStr_obj, ite_self, List.nil_append, refsOfJ_obj] at hp
      simp at hp
      rcases hp with h | h | h | h
      · exact refsOfJ_makeResourceFetch model model.policies model.resourceMeta hm s h
      · exact refsOfJ_makeResourceUpdate model model.policies _ model.resourceMeta hm s h
      · exact refsOfJ_makeResourceUpdate model model.policies _ model.resourceMeta hm s h
      · exact refsOfJ_makeResourceDelete model model.policies model.resourceMeta s h
  have hinv : ∀ (fs : List ModelField) (res : List (String × JVal)),
      (∀ s ∈ refsOfFields res, RefOK mm s) →
      ∀ s ∈ refsOfFields (fs.foldl (relPathStep mm (stripSlash opts.pfx)
        (mapModelName opts model.name) model model.policies model.resourceMeta) res),
        RefOK mm s := by
    intro fs
    induction fs with
    | nil => intro res h; exact h
    | cons g gs ih =>
      intro res h
      rw [List.foldl_cons]
      exact ih _ (relPathStep_refs _ _ model _ _ hf res g h)
  exact hinv model.fields _ hbase

theorem mergeJS_refs {P : String → Prop} (a b : List (String × JVal))
    (ha : ∀ s ∈ refsOfFields a, P s) (hb : ∀ s ∈ refsOfFields b, P s) :
    ∀ s ∈ refsOfFields (mergeJS a b), P s := by
  intro s hs
  rcases List.mem_append.mp (refsOfFields_foldPairs b a s hs) with h | h
  · exact ha s h
  · exact hb s h

theorem generatePaths_refs {mm : ZModel} (opts : GenOptions)
    (included dmmf : List String) (hwf : WF mm = true) :
    ∀ s ∈ refsOfFields (generatePaths mm opts included dmmf).1, RefOK mm s := by
  have hdm := WF_dataModels hwf
  have hinv : ∀ (l : List String) (acc : List (String × JVal) × List String),
      (∀ s ∈ refsOfFields acc.1, RefOK mm s) →
      ∀ s ∈ refsOfFields (l.foldl (fun acc dn =>
          if dn ∈ included then
            match findZModelDecl mm dn with
            | some zm => (mergeJS acc.1 (generatePathsForModel mm opts zm), acc.2)
            | none => (acc.1, acc.2 ++ [missingZModelWarning dn])
          else acc) acc).1, RefOK mm s := by
    intro l
    induction l with
    | nil => intro acc h; exact h
    | cons dn ds ih =>
      intro acc h
      rw [List.foldl_cons]
      refine ih _ ?_
      by_cases hin : dn ∈ included
      · rw [if_pos hin]
        cases hz : findZModelDecl mm dn with
        | some zm =>
          have hzm : zm ∈ mm.dataModels := List.mem_of_find?_eq_some hz
          intro s hs
          exact mergeJS_refs _ _ h
            (generatePathsForModel_refs opts zm hzm (hdm zm hzm)) s hs
        | none => exact h
      · rw [if_neg hin]
        exact h
  exact hinv dmmf ([], []) (fun s hs => absurd hs (List.not_mem_nil s))

theorem jrefStr_generateModelEntity (mm : ZModel) (m : DataModel) (mode : Mode) :
    jrefStr (generateModelEntity mm m mode) = [] := rfl

theorem jrefStr_enumComponent (e : EnumDecl) : jrefStr (generateEnumComponent e) = [] := rfl

theorem jrefStr_typeDefComponent (td : TypeDefDecl) :
    jrefStr (generateTypeDefComponent td) = [] := rfl

theorem dmComponents_pair_refs {mm : ZModel} (model : DataModel)
    (hm : model ∈ mm.dataModels)
    (hf : ∀ f ∈ model.fields, fieldRefOK mm f.type = true) :
    ∀ kv ∈ generateDataModelComponents mm model, ∀ s ∈ refsOfFields [kv], RefOK mm s := by
  intro kv hkv s hp
  simp only [generateDataModelComponents, List.mem_cons, List.not_mem_nil, or_false] at hkv
  rcases hkv with hkv | hkv | hkv | hkv | hkv
  · subst hkv
    rw [refsOfFields_single, jrefStr_generateModelEntity, ite_self, List.nil_append] at hp
    exact refsOfJ_generateModelEntity model .read hf s hp
  · subst hkv
    rw [refsOfFields_single, jrefStr_obj, ite_self, List.nil_append, refsOfJ_obj] at hp
    simp [refsOfJ_refSchema] at hp
    rcases hp with h | h
    · exact refsOfJ_generateModelEntity model .create hf s h
    · exact RefOK_of_eq_shared "_meta" (by rw [shared_names_eq]; decide) h
  · subst hkv
    rw [refsOfFields_single, jrefStr_obj, ite_self, List.nil_append, refsOfJ_obj] at hp
    simp [refsOfJ_refSchema] at hp
    rcases hp with h | h
    · exact refsOfJ_generateModelEntity model .update hf s h
    · exact RefOK_of_eq_shared "_meta" (by rw [shared_names_eq]; decide) h
  · subst hkv
    rw [refsOfFields_single, jrefStr_obj, ite_self, List.nil_append, refsOfJ_obj] at hp
    simp [refsOfJ_refSchema, refsOfJ_allOf] at hp
    rcases hp with h | h | h | h | h | h
    · exact RefOK_of_eq_shared "_jsonapi" (by rw [shared_names_eq]; decide) h
    · exact h ▸ RefOK_model_comp hm (by rw [keys_dmComponents]; simp)
    · exact responseRelationships_refs model s h
    · exact RefOK_of_eq_shared "_meta" (by rw [shared_names_eq]; decide) h
    · exact RefOK_of_eq_shared "_resource" (by rw [shared_names_eq]; decide) h
    · exact RefOK_of_eq_shared "_links" (by rw [shared_names_eq]; decide) h
  · subst hkv
    rw [refsOfFields_single, jrefStr_obj, ite_self, List.nil_append, refsOfJ_obj] at hp
    simp [refsOfJ_refSchema, refsOfJ_allOf, refsOfJ_arrayJ] at hp
    rcases hp with h | h | h | h | h | h | h
    · exact RefOK_of_eq_shared "_jsonapi" (by rw [shared_names_eq]; decide) h
    · exact h ▸ RefOK_model_comp hm (by rw [keys_dmComponents]; simp)
    · exact responseRelationships_refs model s h
    · exact RefOK_of_eq_shared "_meta" (by rw [shared_names_eq]; decide) h
    · exact RefOK_of_eq_shared "_resource" (by rw [shared_names_eq]; decide) h
    · exact RefOK_of_eq_shared "_links" (by rw [shared_names_eq]; decide) h
    · exact RefOK_of_eq_shared "_pagination" (by rw [shared_names_eq]; decide) h

theorem allComponentPairs_refs {mm : ZModel} (hwf : WF mm = true) :
    ∀ s ∈ refsOfFields (allComponentPairs mm), RefOK mm s := by
  intro s hs
  obtain ⟨kv, hkm, hp⟩ := mem_refsOfFields hs
  unfold allComponentPairs at hkm
  rcases List.mem_append.mp hkm with h | h
  · rcases List.mem_append.mp h with h1 | h1
    · rcases List.mem_append.mp h1 with h2 | h2
      · obtain ⟨n, hn, he⟩ := sharedComponents_refs_closed s (refsOfFields_mono_pair h2 s hp)
        exact RefOK_of_eq_shared n hn he
      · obtain ⟨e, hem, hee⟩ := List.mem_map.mp h2
        rw [← hee, refsOfFields_single, jrefStr_enumComponent, ite_self, List.nil_append,
          refsOfJ_enumComponent] at hp
        cases hp
    · obtain ⟨d, hdm, hkv⟩ := List.mem_flatMap.mp h1
      exact dmComponents_pair_refs d hdm (WF_dataModels hwf d hdm) kv hkv s hp
  · obtain ⟨td, htm, hte⟩ := List.mem_map.mp h
    rw [← hte, refsOfFields_single, jrefStr_typeDefComponent, ite_self, List.nil_append] at hp
    exact refsOfJ_typeDefComponent td (WF_typeDefs hwf td htm) s hp

theorem generateComponents_refs {mm : ZModel} (hwf : WF mm = true) :
    ∀ c ∈ generateComponents mm, ∀ s ∈ refsOfJ c.2, RefOK mm s := by
  intro c hc s hs
  have h1 : s ∈ refsOfFields (generateComponents mm) :=
    refsOfJ_mem_of_pair (k := c.1) (v := c.2) hc s hs
  rw [generateComponents_eq] at h1
  rcases List.mem_append.mp (refsOfFields_foldPairs _ [] s h1) with h | h
  · cases h
  · exact allComponentPairs_refs hwf s h

/-- **C4**: after document assembly, the component set is reference-complete,
pruning is sound, and pruning is idempotent, for every linked model (`WF`:
every field type reference resolves).  (1) Every schema name reachable through
`$ref`s from the generated paths — directly or transitively through referenced
component schemas — is a key of the pruned `components.schemas`; (2) every
component kept by the prune is reachable from the paths (no orphans); (3)
pruning twice yields the same component set as pruning once. -/
theorem components_pruning_invariant (mm : ZModel) (opts : GenOptions)
    (included dmmf : List String) (hwf : WF mm = true) :
    (∀ n, schemaKey n ∈ reach (generateComponents mm)
        (refsOfJ (.obj (generatePaths mm opts included dmmf).1)) →
      n ∈ keys (pruneComponents (.obj (generatePaths mm opts included dmmf).1)
        (generateComponents mm))) ∧
    (∀ c ∈ pruneComponents (.obj (generatePaths mm opts included dmmf).1)
        (generateComponents mm),
      schemaKey c.1 ∈ reach (generateComponents mm)
        (refsOfJ (.obj (generatePaths mm opts included dmmf).1))) ∧
    pruneComponents (.obj (generatePaths mm opts included dmmf).1)
        (pruneComponents (.obj (generatePaths mm opts included dmmf).1)
          (generateComponents mm)) =
      pruneComponents (.obj (generatePaths mm opts included dmmf).1)
        (generateComponents mm) := by
  refine ⟨?_, prune_no_orphans _ _, prune_idempotent _ _⟩
  intro n hn
  have hRef : RefOK mm (schemaKey n) := by
    rcases mem_reach_cases hn with h | ⟨c, hc, hcs⟩
    · rw [refsOfJ_obj] at h
      exact generatePaths_refs opts included dmmf hwf _ h
    · exact generateComponents_refs hwf c hc _ hcs
  have hk : n ∈ keys (generateComponents mm) := by
    rcases hRef with ⟨m, he, hmk⟩ | ⟨p, he⟩
    · rw [schemaKey_inj he]
      exact hmk
    · exact absurd he (schemaKey_ne_param n p)
  obtain ⟨⟨k, v⟩, hkm, hke⟩ := List.mem_map.mp hk
  have hk2 : k = n := hke
  subst hk2
  refine List.mem_map.mpr ⟨(k, v), ?_, rfl⟩
  unfold pruneComponents
  refine List.mem_filter.mpr ⟨hkm, ?_⟩
  rw [decide_eq_true_eq]
  exact hn

/-- Witness: the two-model relation fixture is well formed, and the pruning
invariant holds for its generated document. -/
theorem components_pruning_invariant_witness :
    WF exRelZ = true ∧
    ((∀ n, schemaKey n ∈ reach (generateComponents exRelZ)
        (refsOfJ (.obj (generatePaths exRelZ exDefOpts ["User", "Post"]
          ["User", "Post"]).1)) →
      n ∈ keys (pruneComponents
        (.obj (generatePaths exRelZ exDefOpts ["User", "Post"] ["User", "Post"]).1)
        (generateComponents exRelZ))) ∧
    (∀ c ∈ pruneComponents
        (.obj (generatePaths exRelZ exDefOpts ["User", "Post"] ["User", "Post"]).1)
        (generateComponents exRelZ),
      schemaKey c.1 ∈ reach (generateComponents exRelZ)
        (refsOfJ (.obj (generatePaths exRelZ exDefOpts ["User", "Post"]
          ["User", "Post"]).1))) ∧
    pruneComponents
        (.obj (generatePaths exRelZ exDefOpts ["User", "Post"] ["User", "Post"]).1)
        (pruneComponents
          (.obj (generatePaths exRelZ exDefOpts ["User", "Post"] ["User", "Post"]).1)
          (generateComponents exRelZ)) =
      pruneComponents
        (.obj (generatePaths exRelZ exDefOpts ["User", "Post"] ["User", "Post"]).1)
        (generateComponents exRelZ)) :=
  ⟨by decide, components_pruning_invariant exRelZ exDefOpts ["User", "Post"]
    ["User", "Post"] (by decide)⟩

theorem missing_zmodel_warning_witness :
    (missingZModelWarning "Ghost" ∈
      (generatePaths exC9Z exDefOpts ["User", "Ghost"] (["User"] ++ "Ghost" :: [])).2) ∧
    ((generatePaths exC9Z exDefOpts ["User", "Ghost"] (["User"] ++ "Ghost" :: [])).1 =
      (generatePaths exC9Z exDefOpts ["User", "Ghost"] (["User"] ++ [])).1) := by
  exact missing_zmodel_warning_thm exC9Z exDefOpts ["User", "Ghost"] ["User"] [] "Ghost"
    (by decide) rfl

end ZenRest
